import Mathlib

/-!
# EValue and BoxedEvalueList (runtime/core/evalue.h)

A shallow embedding of the tagged value type of the runtime and of the list
indirection that rebuilds typed lists from the values table, followed by the
properties established about them.

Conventions of the embedding.

* An `EValue*` is `Option Nat`: `none` is the null pointer, `some a` is the
  object stored at address `a` of `World.values`.
* A scratch pointer `T*` is a base address; element `i` of the buffer based at
  `b` is cell `(b, i)` of the matching memory of `World`.
* A function that can hit a fatal check, or read a union member that is not
  the active one, returns `Result`.

The adapter bookkeeping of the Vulkan runtime
(backends/vulkan/runtime/vk_api/Runtime.cpp: select_first, create_adapter and
the constructor of Runtime) is embedded in the namespace `vkcompute.vkapi`;
its properties close the file.
-/

namespace executorch
namespace runtime

/-! ## Data model -/

/-- Modelled from the spec: the Tag enumeration of runtime/core/tag.h, which is
not among the sources. One tag for each payload kind listed in section 3 of
the specification, named as evalue.h names them. -/
inductive Tag where
  | None
  | Tensor
  | String
  | Double
  | Int
  | Bool
  | ListBool
  | ListDouble
  | ListInt
  | ListTensor
  | ListOptionalTensor
  deriving DecidableEq

/-- A C++ double, kept as its 64-bit pattern: evalue.h only stores and returns it. -/
structure double where
  bits : Nat
  deriving DecidableEq

/-- Modelled from the spec: the tensor handle of exec_aten.h, which is not
among the sources. Section 6 of the specification makes it a reference-counted
handle with a share and a teardown contract whose contents are never
inspected. The field is the identity of the shared implementation object,
none for an undefined or moved-from handle. -/
structure Tensor where
  impl : Option Nat
  deriving DecidableEq

/-- A non-owning view: address of the first element and number of elements. -/
structure ArrayRef (T : Type) where
  data : Nat
  size : Nat
  deriving DecidableEq

/-- The class BoxedEvalueList of evalue.h. The view wrapped_vals_ over the array
of EValue pointers is kept as the sequence of pointers it denotes (evalue.h
never writes that array); unwrapped_vals_ is the base address of the scratch
buffer. -/
structure BoxedEvalueList (T : Type) where
  wrapped_vals_ : List (Option Nat)
  unwrapped_vals_ : Nat
  deriving DecidableEq

/-- The constructor BoxedEvalueList(EValue** wrapped_vals, T* unwrapped_vals, int size):
the first size pointers of wrapped_vals and the scratch base. -/
def BoxedEvalueList.ctor {T : Type} (wrapped_vals : List (Option Nat)) (unwrapped_vals : Nat) :
    BoxedEvalueList T :=
  { wrapped_vals_ := wrapped_vals, unwrapped_vals_ := unwrapped_vals }

/-- The union EValue::Payload::TriviallyCopyablePayload, as its active member. -/
inductive TriviallyCopyablePayload where
  | as_int (i : Int)
  | as_double (d : double)
  | as_bool (b : Bool)
  | as_string (s : ArrayRef Char)
  | as_double_list (l : ArrayRef double)
  | as_bool_list (l : ArrayRef Bool)
  | as_int_list (l : BoxedEvalueList Int)
  | as_tensor_list (l : BoxedEvalueList Tensor)
  | as_list_optional_tensor (l : BoxedEvalueList (Option Tensor))
  deriving DecidableEq

/-- The union EValue::Payload, as its active member. -/
inductive Payload where
  | copyable_union (c : TriviallyCopyablePayload)
  | as_tensor (t : Tensor)
  deriving DecidableEq

/-- The struct EValue: data storage and type tag. -/
structure EValue where
  payload : Payload
  tag : Tag
  deriving DecidableEq

/-- The fatal checks of evalue.h, one for each ET_CHECK_MSG message and one for
the ET_CHECK of BoxedEvalueList::get. -/
inductive Check where
  | not_an_int
  | not_a_Double
  | not_a_Bool
  | scalar_not_initialized
  | not_a_Scalar
  | pointer_is_null
  | not_a_Tensor
  | not_a_String
  | not_an_Int_List
  | not_a_Bool_List
  | not_a_Double_List
  | not_a_Tensor_List
  | not_a_ScalarType
  | not_a_MemoryFormat
  | not_a_Layout
  | not_a_Device
  | wrapped_val_is_nullptr
  deriving DecidableEq

/-- How a call can end without a result: a fatal check fired (the process is
aborted), or the code read a union member that is not the active one, which
C++ leaves undefined and no check guards. -/
inductive Fault where
  | check_failed (c : Check)
  | undefined_behavior
  deriving DecidableEq

/-- The outcome of a call. -/
abbrev Result (α : Type) := Except Fault α

deriving instance DecidableEq for Except

/-- ET_CHECK_MSG(cond, msg) and ET_CHECK(cond): continue when cond holds, abort otherwise. -/
def ET_CHECK_MSG (cond : Bool) (msg : Check) : Result Unit :=
  if cond then pure () else throw (Fault.check_failed msg)

/-- Everything the code reads or writes outside the EValue at hand. -/
structure World where
  /-- the EValue objects, by address; the values table lives here -/
  values : Nat → EValue
  /-- scratch buffers of int64_t: base address, index -/
  int64_mem : Nat → Nat → Int
  /-- scratch buffers of Tensor -/
  tensor_mem : Nat → Nat → Tensor
  /-- scratch buffers of optional Tensor -/
  optional_tensor_mem : Nat → Nat → Option Tensor
  /-- reference count of each tensor implementation object -/
  refcount : Nat → Int
  /-- the Tensor instances whose destructor ran, oldest first -/
  teardown_log : List Tensor

/-- Pointwise update of a memory. -/
def upd {α : Type} (f : Nat → α) (a : Nat) (v : α) : Nat → α :=
  fun x => if x = a then v else f x

/-- Update of one cell of a two-level memory. -/
def upd2 {α : Type} (f : Nat → Nat → α) (b i : Nat) (v : α) : Nat → Nat → α :=
  fun x y => if x = b ∧ y = i then v else f x y

/-! ## Tensor handle contract -/

/-- Modelled from the spec: sharing a handle (the copy constructor of Tensor,
absent from the sources) raises the reference count of its implementation
object by one; an undefined handle has nothing to count. -/
def World.retain (w : World) (t : Tensor) : World :=
  match t.impl with
  | none => w
  | some h => { w with refcount := upd w.refcount h (w.refcount h + 1) }

/-- Modelled from the spec: dropping a handle lowers the reference count of its
implementation object by one. -/
def World.release (w : World) (t : Tensor) : World :=
  match t.impl with
  | none => w
  | some h => { w with refcount := upd w.refcount h (w.refcount h - 1) }

/-- Modelled from the spec: the destructor of Tensor, absent from the sources:
one teardown of this instance, which drops its handle. -/
def Tensor.destruct (w : World) (t : Tensor) : World :=
  let w1 := w.release t
  { w1 with teardown_log := w1.teardown_log ++ [t] }

/-- Modelled from the spec: the move constructor of Tensor, absent from the
sources: the new instance takes the handle, the source is left undefined, no
count changes. Returns (new instance, source afterwards). -/
def Tensor.move_construct (t : Tensor) : Tensor × Tensor :=
  (t, { impl := none })

/-- Modelled from the spec: the destructor of optional Tensor: tears the
contained Tensor down when there is one. -/
def optional_Tensor_destruct (w : World) (o : Option Tensor) : World :=
  match o with
  | none => w
  | some t => Tensor.destruct w t

/-! ## Union member access -/

/-- Read of payload.copyable_union. -/
def Payload.read_copyable_union : Payload → Result TriviallyCopyablePayload
  | .copyable_union c => pure c
  | .as_tensor _ => throw Fault.undefined_behavior

/-- Read of payload.as_tensor. -/
def Payload.read_as_tensor : Payload → Result Tensor
  | .as_tensor t => pure t
  | .copyable_union _ => throw Fault.undefined_behavior

/-- Read of payload.copyable_union.as_int. -/
def Payload.read_as_int : Payload → Result Int
  | .copyable_union (.as_int i) => pure i
  | _ => throw Fault.undefined_behavior

/-- Read of payload.copyable_union.as_double. -/
def Payload.read_as_double : Payload → Result double
  | .copyable_union (.as_double d) => pure d
  | _ => throw Fault.undefined_behavior

/-- Read of payload.copyable_union.as_bool. -/
def Payload.read_as_bool : Payload → Result Bool
  | .copyable_union (.as_bool b) => pure b
  | _ => throw Fault.undefined_behavior

/-- Read of payload.copyable_union.as_string. -/
def Payload.read_as_string : Payload → Result (ArrayRef Char)
  | .copyable_union (.as_string s) => pure s
  | _ => throw Fault.undefined_behavior

/-- Read of payload.copyable_union.as_double_list. -/
def Payload.read_as_double_list : Payload → Result (ArrayRef double)
  | .copyable_union (.as_double_list l) => pure l
  | _ => throw Fault.undefined_behavior

/-- Read of payload.copyable_union.as_bool_list. -/
def Payload.read_as_bool_list : Payload → Result (ArrayRef Bool)
  | .copyable_union (.as_bool_list l) => pure l
  | _ => throw Fault.undefined_behavior

/-- Read of payload.copyable_union.as_int_list. -/
def Payload.read_as_int_list : Payload → Result (BoxedEvalueList Int)
  | .copyable_union (.as_int_list l) => pure l
  | _ => throw Fault.undefined_behavior

/-- Read of payload.copyable_union.as_tensor_list. -/
def Payload.read_as_tensor_list : Payload → Result (BoxedEvalueList Tensor)
  | .copyable_union (.as_tensor_list l) => pure l
  | _ => throw Fault.undefined_behavior

/-- Read of payload.copyable_union.as_list_optional_tensor. -/
def Payload.read_as_list_optional_tensor : Payload → Result (BoxedEvalueList (Option Tensor))
  | .copyable_union (.as_list_optional_tensor l) => pure l
  | _ => throw Fault.undefined_behavior

/-! ## EValue: constructors, predicates, accessors -/

namespace EValue

/-- The default constructor EValue(): tag None, as_int zeroed. -/
def ctor_None : EValue :=
  { payload := .copyable_union (.as_int 0), tag := Tag.None }

/-- The predicate isNone. -/
def isNone (e : EValue) : Bool := decide (e.tag = Tag.None)

/-- The constructor EValue(int64_t i). -/
def ctor_int64_t (i : Int) : EValue :=
  { payload := .copyable_union (.as_int i), tag := Tag.Int }

/-- The predicate isInt. -/
def isInt (e : EValue) : Bool := decide (e.tag = Tag.Int)

/-- The accessor toInt. -/
def toInt (e : EValue) : Result Int := do
  ET_CHECK_MSG e.isInt Check.not_an_int
  e.payload.read_as_int

/-- The constructor EValue(double d). -/
def ctor_double (d : double) : EValue :=
  { payload := .copyable_union (.as_double d), tag := Tag.Double }

/-- The predicate isDouble. -/
def isDouble (e : EValue) : Bool := decide (e.tag = Tag.Double)

/-- The accessor toDouble. -/
def toDouble (e : EValue) : Result double := do
  ET_CHECK_MSG e.isDouble Check.not_a_Double
  e.payload.read_as_double

/-- The constructor EValue(bool b). -/
def ctor_bool (b : Bool) : EValue :=
  { payload := .copyable_union (.as_bool b), tag := Tag.Bool }

/-- The predicate isBool. -/
def isBool (e : EValue) : Bool := decide (e.tag = Tag.Bool)

/-- The accessor toBool. -/
def toBool (e : EValue) : Result Bool := do
  ET_CHECK_MSG e.isBool Check.not_a_Bool
  e.payload.read_as_bool

/-- The predicate isScalar. -/
def isScalar (e : EValue) : Bool :=
  decide (e.tag = Tag.Int) || decide (e.tag = Tag.Double) || decide (e.tag = Tag.Bool)

/-- The constructor EValue(Tensor t), called with the tensor t of the caller.
The parameter is taken by value: it is a copy of the argument, which shares the
handle; the payload is a placement new of a copy of the parameter (the count
bump the source comments on); the parameter is torn down when the call
returns. The count of the handle ends one higher and one Tensor destructor has
run. -/
def ctor_Tensor (w : World) (t : Tensor) : World × EValue :=
  let w_param := w.retain t
  let w_payload := w_param.retain t
  (Tensor.destruct w_payload t, { payload := .as_tensor t, tag := Tag.Tensor })

/-- The predicate isTensor. -/
def isTensor (e : EValue) : Bool := decide (e.tag = Tag.Tensor)

/-- The private helper clearToNone. -/
def clearToNone (_e : EValue) : EValue :=
  { payload := .copyable_union (.as_int 0), tag := Tag.None }

/-- The consuming accessor toTensor() &&: the result is move-constructed from
the payload and the source is cleared. Returns (result, source afterwards). -/
def toTensor_rvalue (e : EValue) : Result (Tensor × EValue) := do
  ET_CHECK_MSG e.isTensor Check.not_a_Tensor
  let t ← e.payload.read_as_tensor
  let res := (Tensor.move_construct t).1
  pure (res, clearToNone e)

/-- The accessor toTensor() &: a reference to the payload. -/
def toTensor_ref (e : EValue) : Result Tensor := do
  ET_CHECK_MSG e.isTensor Check.not_a_Tensor
  e.payload.read_as_tensor

/-- The accessor toTensor() const&: a const reference to the payload. -/
def toTensor_const_ref (e : EValue) : Result Tensor := do
  ET_CHECK_MSG e.isTensor Check.not_a_Tensor
  e.payload.read_as_tensor

/-- The constructor EValue(const char* s, size_t size). -/
def ctor_string (s : Nat) (size : Nat) : EValue :=
  { payload := .copyable_union (.as_string { data := s, size := size }), tag := Tag.String }

/-- The predicate isString. -/
def isString (e : EValue) : Bool := decide (e.tag = Tag.String)

/-- The accessor toString: the string_view over data() and size() of as_string. -/
def toString (e : EValue) : Result (ArrayRef Char) := do
  ET_CHECK_MSG e.isString Check.not_a_String
  let s ← e.payload.read_as_string
  pure { data := s.data, size := s.size }

/-- The constructor EValue(BoxedEvalueList<int64_t> i). -/
def ctor_int_list (i : BoxedEvalueList Int) : EValue :=
  { payload := .copyable_union (.as_int_list i), tag := Tag.ListInt }

/-- The predicate isIntList. -/
def isIntList (e : EValue) : Bool := decide (e.tag = Tag.ListInt)

/-- The constructor EValue(ArrayRef<bool> b). -/
def ctor_bool_list (b : ArrayRef Bool) : EValue :=
  { payload := .copyable_union (.as_bool_list b), tag := Tag.ListBool }

/-- The predicate isBoolList. -/
def isBoolList (e : EValue) : Bool := decide (e.tag = Tag.ListBool)

/-- The accessor toBoolList. -/
def toBoolList (e : EValue) : Result (ArrayRef Bool) := do
  ET_CHECK_MSG e.isBoolList Check.not_a_Bool_List
  e.payload.read_as_bool_list

/-- The constructor EValue(ArrayRef<double> d). -/
def ctor_double_list (d : ArrayRef double) : EValue :=
  { payload := .copyable_union (.as_double_list d), tag := Tag.ListDouble }

/-- The predicate isDoubleList. -/
def isDoubleList (e : EValue) : Bool := decide (e.tag = Tag.ListDouble)

/-- The accessor toDoubleList. -/
def toDoubleList (e : EValue) : Result (ArrayRef double) := do
  ET_CHECK_MSG e.isDoubleList Check.not_a_Double_List
  e.payload.read_as_double_list

/-- The constructor EValue(BoxedEvalueList<Tensor> t). -/
def ctor_tensor_list (t : BoxedEvalueList Tensor) : EValue :=
  { payload := .copyable_union (.as_tensor_list t), tag := Tag.ListTensor }

/-- The predicate isTensorList. -/
def isTensorList (e : EValue) : Bool := decide (e.tag = Tag.ListTensor)

/-- The constructor EValue(BoxedEvalueList<optional<Tensor>> t). -/
def ctor_list_optional_tensor (t : BoxedEvalueList (Option Tensor)) : EValue :=
  { payload := .copyable_union (.as_list_optional_tensor t), tag := Tag.ListOptionalTensor }

/-- The predicate isListOptionalTensor. -/
def isListOptionalTensor (e : EValue) : Bool := decide (e.tag = Tag.ListOptionalTensor)

/-- The specialisation to<int64_t>() of EVALUE_DEFINE_TO(int64_t, toInt). -/
def to_int64_t (e : EValue) : Result Int := e.toInt

/-- The specialisation to<Tensor>() & of EVALUE_DEFINE_TO(Tensor, toTensor),
the one a call through a plain EValue pointer selects. -/
def to_Tensor (e : EValue) : Result Tensor := e.toTensor_ref

/-- The specialisation to<Tensor>() const& of EVALUE_DEFINE_TO(Tensor, toTensor). -/
def to_Tensor_const_ref (e : EValue) : Result Tensor := e.toTensor_const_ref

/-- The member toOptional<Tensor>: nullopt for None, the conversion to Tensor otherwise. -/
def toOptional_Tensor (e : EValue) : Result (Option Tensor) :=
  if e.isNone then pure none
  else do
    let t ← e.to_Tensor_const_ref
    pure (some t)

/-- The specialisation to<optional<Tensor>>() of
EVALUE_DEFINE_TO(optional<Tensor>, toOptional<Tensor>). -/
def to_optional_Tensor (e : EValue) : Result (Option Tensor) := e.toOptional_Tensor

end EValue

/-! ## BoxedEvalueList::get -/

/-- The assignment unwrapped_vals_[i] = v for int64_t. -/
def World.assign_int64 (w : World) (base i : Nat) (v : Int) : World :=
  { w with int64_mem := upd2 w.int64_mem base i v }

/-- The assignment unwrapped_vals_[i] = v for Tensor. Modelled from the spec
as far as the copy assignment of Tensor, absent from the sources, goes: the
new handle is shared, the handle the cell held is dropped. -/
def World.assign_Tensor (w : World) (base i : Nat) (v : Tensor) : World :=
  let w1 := (w.retain v).release (w.tensor_mem base i)
  { w1 with tensor_mem := upd2 w1.tensor_mem base i v }

/-- The assignment unwrapped_vals_[i] = v for optional Tensor. Modelled from
the spec as far as the assignment of optional Tensor goes: a present new
handle is shared, a present old handle is dropped. -/
def World.assign_optional_Tensor (w : World) (base i : Nat) (v : Option Tensor) : World :=
  let w1 := match v with
    | none => w
    | some t => w.retain t
  let w2 := match w.optional_tensor_mem base i with
    | none => w1
    | some t => w1.release t
  { w2 with optional_tensor_mem := upd2 w2.optional_tensor_mem base i v }

/-- The loop of BoxedEvalueList<T>::get from index i on, over the pointers not
yet visited: check the pointer, convert the entry with to<T>(), assign the
result to unwrapped_vals_[i]. -/
def BoxedEvalueList.get_loop {T : Type} (to_T : EValue → Result T)
    (assign : World → Nat → Nat → T → World) (unwrapped_vals : Nat) :
    List (Option Nat) → Nat → World → Result World
  | [], _, w => pure w
  | p :: rest, i, w => do
    ET_CHECK_MSG (decide (p ≠ none)) Check.wrapped_val_is_nullptr
    match p with
    | none => throw Fault.undefined_behavior
    | some a =>
      let v ← to_T (w.values a)
      BoxedEvalueList.get_loop to_T assign unwrapped_vals rest (i + 1) (assign w unwrapped_vals i v)

/-- The member BoxedEvalueList<int64_t>::get. -/
def BoxedEvalueList.get_int64_t (w : World) (l : BoxedEvalueList Int) :
    Result (World × ArrayRef Int) := do
  let w1 ← BoxedEvalueList.get_loop EValue.to_int64_t World.assign_int64
    l.unwrapped_vals_ l.wrapped_vals_ 0 w
  pure (w1, { data := l.unwrapped_vals_, size := l.wrapped_vals_.length })

/-- The member BoxedEvalueList<Tensor>::get. -/
def BoxedEvalueList.get_Tensor (w : World) (l : BoxedEvalueList Tensor) :
    Result (World × ArrayRef Tensor) := do
  let w1 ← BoxedEvalueList.get_loop EValue.to_Tensor World.assign_Tensor
    l.unwrapped_vals_ l.wrapped_vals_ 0 w
  pure (w1, { data := l.unwrapped_vals_, size := l.wrapped_vals_.length })

/-- Modelled from the spec: the specialisation
BoxedEvalueList<optional<Tensor>>::get, which evalue.h declares and does not
define. Section 4.2 of the specification gives it the walk of the generic
get: an absent position fails fast, otherwise the entry is converted with
to<optional<Tensor>>(), for which an entry tagged None is an absent optional. -/
def BoxedEvalueList.get_optional_Tensor (w : World) (l : BoxedEvalueList (Option Tensor)) :
    Result (World × ArrayRef (Option Tensor)) := do
  let w1 ← BoxedEvalueList.get_loop EValue.to_optional_Tensor World.assign_optional_Tensor
    l.unwrapped_vals_ l.wrapped_vals_ 0 w
  pure (w1, { data := l.unwrapped_vals_, size := l.wrapped_vals_.length })

/-- The elements of an int64_t view, read from scratch memory. -/
def World.read_int64 (w : World) (v : ArrayRef Int) : List Int :=
  (List.range v.size).map (w.int64_mem v.data)

/-- The elements of a Tensor view, read from scratch memory. -/
def World.read_Tensor (w : World) (v : ArrayRef Tensor) : List Tensor :=
  (List.range v.size).map (w.tensor_mem v.data)

/-- The elements of an optional Tensor view, read from scratch memory. -/
def World.read_optional_Tensor (w : World) (v : ArrayRef (Option Tensor)) : List (Option Tensor) :=
  (List.range v.size).map (w.optional_tensor_mem v.data)

/-! ## EValue: list accessors, copy, move, destruction -/

namespace EValue

/-- The accessor toIntList. -/
def toIntList (w : World) (e : EValue) : Result (World × ArrayRef Int) := do
  ET_CHECK_MSG e.isIntList Check.not_an_Int_List
  let l ← e.payload.read_as_int_list
  BoxedEvalueList.get_int64_t w l

/-- The accessor toTensorList. -/
def toTensorList (w : World) (e : EValue) : Result (World × ArrayRef Tensor) := do
  ET_CHECK_MSG e.isTensorList Check.not_a_Tensor_List
  let l ← e.payload.read_as_tensor_list
  BoxedEvalueList.get_Tensor w l

/-- The accessor toListOptionalTensor; the source has no tag check here. -/
def toListOptionalTensor (w : World) (e : EValue) :
    Result (World × ArrayRef (Option Tensor)) := do
  let l ← e.payload.read_as_list_optional_tensor
  BoxedEvalueList.get_optional_Tensor w l

/-- The private helper moveFrom. Every field of the destination is overwritten,
so its previous state is no input. Returns the world, the destination
afterwards and rhs afterwards. -/
def moveFrom (w : World) (rhs : EValue) : Result (World × EValue × EValue) :=
  if rhs.isTensor then do
    let t ← rhs.payload.read_as_tensor
    -- new (&payload.as_tensor) Tensor(std::move(rhs.payload.as_tensor))
    let moved := Tensor.move_construct t
    -- rhs.payload.as_tensor.~Tensor()
    let w1 := Tensor.destruct w moved.2
    let rhs1 : EValue := { rhs with payload := .as_tensor moved.2 }
    pure (w1, { payload := .as_tensor moved.1, tag := rhs1.tag }, clearToNone rhs1)
  else do
    let c ← rhs.payload.read_copyable_union
    pure (w, { payload := .copyable_union c, tag := rhs.tag }, clearToNone rhs)

/-- The loop of destroy over a Tensor view: the destructor of each element in turn. -/
def destroy_Tensor_range (data : Nat) : Nat → Nat → World → World
  | 0, _, w => w
  | n + 1, i, w => destroy_Tensor_range data n (i + 1) (Tensor.destruct w (w.tensor_mem data i))

/-- The loop of destroy over an optional Tensor view. -/
def destroy_optional_Tensor_range (data : Nat) : Nat → Nat → World → World
  | 0, _, w => w
  | n + 1, i, w =>
    destroy_optional_Tensor_range data n (i + 1)
      (optional_Tensor_destruct w (w.optional_tensor_mem data i))

/-- The private helper destroy. -/
def destroy (w : World) (e : EValue) : Result World :=
  if e.isTensor then do
    let t ← e.payload.read_as_tensor
    pure (Tensor.destruct w t)
  else if e.isTensorList then do
    let r ← e.toTensorList w
    pure (destroy_Tensor_range r.2.data r.2.size 0 r.1)
  else if e.isListOptionalTensor then do
    let r ← e.toListOptionalTensor w
    pure (destroy_optional_Tensor_range r.2.data r.2.size 0 r.1)
  else
    pure w

/-- The private constructor EValue(const Payload& p, Tag t). -/
def ctor_Payload_Tag (w : World) (p : Payload) (t : Tag) : Result (World × EValue) :=
  if decide (t = Tag.Tensor) then do
    let x ← p.read_as_tensor
    pure (w.retain x, { payload := .as_tensor x, tag := t })
  else do
    let c ← p.read_copyable_union
    pure (w, { payload := .copyable_union c, tag := t })

/-- The copy constructor EValue(const EValue& rhs). -/
def ctor_copy (w : World) (rhs : EValue) : Result (World × EValue) :=
  ctor_Payload_Tag w rhs.payload rhs.tag

/-- The move constructor EValue(EValue&& rhs): the tag is initialised from
rhs, then moveFrom. Returns the world, the new object and rhs afterwards. -/
def ctor_move (w : World) (rhs : EValue) : Result (World × EValue × EValue) :=
  moveFrom w rhs

/-- The move assignment operator=(EValue&& rhs), on the objects at addresses
this and rhs. -/
def operator_assign_move (w : World) (this rhs : Nat) : Result World :=
  if rhs = this then pure w
  else do
    let w1 ← destroy w (w.values this)
    let r ← moveFrom w1 (w1.values rhs)
    pure { r.1 with values := upd (upd r.1.values this r.2.1) rhs r.2.2 }

/-- The copy assignment operator=(EValue const& rhs): move assignment from
the temporary EValue(rhs), whose address is not this, followed by the
destruction of the temporary. -/
def operator_assign_copy (w : World) (this rhs : Nat) : Result World := do
  let c ← ctor_copy w (w.values rhs)
  let w1 ← destroy c.1 (c.1.values this)
  let r ← moveFrom w1 c.2
  destroy { r.1 with values := upd r.1.values this r.2.1 } r.2.2

/-- The eleven kind predicates of an EValue, in the order None, Int, Double,
Bool, String, Tensor, IntList, BoolList, DoubleList, TensorList,
ListOptionalTensor. -/
def kind_predicates (e : EValue) : List Bool :=
  [e.isNone, e.isInt, e.isDouble, e.isBool, e.isString, e.isTensor, e.isIntList,
   e.isBoolList, e.isDoubleList, e.isTensorList, e.isListOptionalTensor]

/-- The representation invariant of EValue: the tag names the active member of
the payload union. -/
def tag_identifies_payload (e : EValue) : Prop :=
  match e.tag, e.payload with
  | Tag.None, .copyable_union (.as_int _) => True
  | Tag.Int, .copyable_union (.as_int _) => True
  | Tag.Double, .copyable_union (.as_double _) => True
  | Tag.Bool, .copyable_union (.as_bool _) => True
  | Tag.String, .copyable_union (.as_string _) => True
  | Tag.Tensor, .as_tensor _ => True
  | Tag.ListInt, .copyable_union (.as_int_list _) => True
  | Tag.ListBool, .copyable_union (.as_bool_list _) => True
  | Tag.ListDouble, .copyable_union (.as_double_list _) => True
  | Tag.ListTensor, .copyable_union (.as_tensor_list _) => True
  | Tag.ListOptionalTensor, .copyable_union (.as_list_optional_tensor _) => True
  | _, _ => False

instance (e : EValue) : Decidable e.tag_identifies_payload := by
  unfold tag_identifies_payload
  split <;> infer_instance

end EValue

/-! ## EValue: reinterpreted logical types and the dereferencing constructor -/

/-- Modelled from the spec: the class Device of exec_aten.h, which is not among
the sources: a device type paired with a device index. -/
structure Device (DeviceType : Type) where
  type : DeviceType
  index : Int
  deriving DecidableEq

namespace EValue

/-- The accessor toScalarType. The enumeration ScalarType of exec_aten.h is not
among the sources: it is a parameter, together with the static_cast from
int64_t to it. -/
def toScalarType {ScalarType : Type} (static_cast : Int → ScalarType) (e : EValue) :
    Result ScalarType := do
  ET_CHECK_MSG e.isInt Check.not_a_ScalarType
  let i ← e.payload.read_as_int
  pure (static_cast i)

/-- The accessor toMemoryFormat, the enumeration and its static_cast being parameters. -/
def toMemoryFormat {MemoryFormat : Type} (static_cast : Int → MemoryFormat) (e : EValue) :
    Result MemoryFormat := do
  ET_CHECK_MSG e.isInt Check.not_a_MemoryFormat
  let i ← e.payload.read_as_int
  pure (static_cast i)

/-- The accessor toLayout, the enumeration and its static_cast being parameters. -/
def toLayout {Layout : Type} (static_cast : Int → Layout) (e : EValue) : Result Layout := do
  ET_CHECK_MSG e.isInt Check.not_a_Layout
  let i ← e.payload.read_as_int
  pure (static_cast i)

/-- The accessor toDevice: Device(static_cast<DeviceType>(as_int), -1), the
enumeration DeviceType and its static_cast being parameters. -/
def toDevice {DeviceType : Type} (static_cast : Int → DeviceType) (e : EValue) :
    Result (Device DeviceType) := do
  ET_CHECK_MSG e.isInt Check.not_a_Device
  let i ← e.payload.read_as_int
  pure { type := static_cast i, index := -1 }

/-- The template constructor EValue(T&& value) for a wrapper that dereferences
to something convertible to EValue. The wrapper is none when it compares equal
to nullptr and some x when its pointee is x; convert is the implicit
conversion of the pointee to the temporary EValue that moveFrom receives. The
tag of the new object is set by moveFrom alone; the temporary is destroyed
after the move. Returns the world and the new object. -/
def ctor_deref {U : Type} (convert : World → U → World × EValue) (w : World)
    (value : Option U) : Result (World × EValue) := do
  ET_CHECK_MSG value.isSome Check.pointer_is_null
  match value with
  | none => throw Fault.undefined_behavior
  | some x =>
    let tmp := convert w x
    let r ← moveFrom tmp.1 tmp.2
    let w2 ← destroy r.1 r.2.2
    pure (w2, r.2.1)

end EValue

/-! ## EValue: Scalar -/

/-- Modelled from the spec: the class Scalar of exec_aten.h, which is not among
the sources and which the specification does not describe. It is given the
cases evalue.h distinguishes: an integral scalar, a floating-point scalar, a
boolean scalar, and a scalar that is none of these. The first three
constructors are also the implicit constructors of Scalar from int64_t,
double and bool. -/
inductive Scalar where
  | integral (i : Int)
  | floating (d : double)
  | boolean (b : Bool)
  | other
  deriving DecidableEq

/-- The query isIntegral(includeBool) of Scalar. -/
def Scalar.isIntegral (s : Scalar) (includeBool : Bool) : Bool :=
  match s with
  | .integral _ => true
  | .boolean _ => includeBool
  | _ => false

/-- The query isFloatingPoint of Scalar. -/
def Scalar.isFloatingPoint (s : Scalar) : Bool :=
  match s with
  | .floating _ => true
  | _ => false

/-- The query isBoolean of Scalar. -/
def Scalar.isBoolean (s : Scalar) : Bool :=
  match s with
  | .boolean _ => true
  | _ => false

/-- The conversion to<int64_t>() of Scalar, on an integral scalar; evalue.h
converts a scalar to its own kind only, conversions across kinds are left out. -/
def Scalar.to_int64_t : Scalar → Result Int
  | .integral i => pure i
  | _ => throw Fault.undefined_behavior

/-- The conversion to<double>() of Scalar, on a floating-point scalar. -/
def Scalar.to_double : Scalar → Result double
  | .floating d => pure d
  | _ => throw Fault.undefined_behavior

/-- The conversion to<bool>() of Scalar, on a boolean scalar. -/
def Scalar.to_bool : Scalar → Result Bool
  | .boolean b => pure b
  | _ => throw Fault.undefined_behavior

namespace EValue

/-- The constructor EValue(Scalar s). -/
def ctor_Scalar (s : Scalar) : Result EValue :=
  if s.isIntegral false then do
    let i ← s.to_int64_t
    pure { payload := .copyable_union (.as_int i), tag := Tag.Int }
  else if s.isFloatingPoint then do
    let d ← s.to_double
    pure { payload := .copyable_union (.as_double d), tag := Tag.Double }
  else if s.isBoolean then do
    let b ← s.to_bool
    pure { payload := .copyable_union (.as_bool b), tag := Tag.Bool }
  else do
    ET_CHECK_MSG false Check.scalar_not_initialized
    throw Fault.undefined_behavior

/-- The accessor toScalar: the value of toDouble, toInt or toBool converted to
Scalar by its implicit constructors. -/
def toScalar (e : EValue) : Result Scalar :=
  if e.isDouble then do
    let d ← e.toDouble
    pure (Scalar.floating d)
  else if e.isInt then do
    let i ← e.toInt
    pure (Scalar.integral i)
  else if e.isBool then do
    let b ← e.toBool
    pure (Scalar.boolean b)
  else do
    ET_CHECK_MSG false Check.not_a_Scalar
    throw Fault.undefined_behavior

end EValue

/-! ## Specification-side definitions -/

/-- The sequence section 4.2 of the specification asks of materialization,
written without scratch memory: for each position in order, fail fast on an
absent reference, otherwise convert the entry with to<T>(); the result is the
list of the converted entries. To be compared with BoxedEvalueList.get_loop. -/
def materialized {T : Type} (to_T : EValue → Result T) (values : Nat → EValue) :
    List (Option Nat) → Result (List T)
  | [] => pure []
  | none :: _ => throw (Fault.check_failed Check.wrapped_val_is_nullptr)
  | some a :: rest => do
    let x ← to_T (values a)
    let xs ← materialized to_T values rest
    pure (x :: xs)

/-- An EValue that one of the eleven constructors of evalue.h built. -/
inductive Constructed : EValue → Prop where
  | none : Constructed EValue.ctor_None
  | int64_t (i : Int) : Constructed (EValue.ctor_int64_t i)
  | double (d : double) : Constructed (EValue.ctor_double d)
  | bool (b : Bool) : Constructed (EValue.ctor_bool b)
  | string (s size : Nat) : Constructed (EValue.ctor_string s size)
  | tensor (w : World) (t : Tensor) : Constructed (EValue.ctor_Tensor w t).2
  | int_list (l : BoxedEvalueList Int) : Constructed (EValue.ctor_int_list l)
  | bool_list (l : ArrayRef Bool) : Constructed (EValue.ctor_bool_list l)
  | double_list (l : ArrayRef double) : Constructed (EValue.ctor_double_list l)
  | tensor_list (l : BoxedEvalueList Tensor) : Constructed (EValue.ctor_tensor_list l)
  | list_optional_tensor (l : BoxedEvalueList (Option Tensor)) :
      Constructed (EValue.ctor_list_optional_tensor l)

/-- Store of an EValue at an address. -/
def World.put (w : World) (a : Nat) (e : EValue) : World :=
  { w with values := upd w.values a e }

/-- The worlds reachable from objects built by the constructors through copy
construction, move construction, copy and move assignment and the consuming
toTensor. A newly constructed object is stored at an address b; a consumed or
moved-from source is stored back at its own address. -/
inductive Reachable : World → Prop where
  | start (w : World) : (∀ a, Constructed (w.values a)) → Reachable w
  | construct (w : World) (b : Nat) (e : EValue) :
      Reachable w → Constructed e → Reachable (w.put b e)
  | copy_construct (w w1 : World) (a b : Nat) (B : EValue) :
      Reachable w → EValue.ctor_copy w (w.values a) = .ok (w1, B) → Reachable (w1.put b B)
  | move_construct (w w1 : World) (a b : Nat) (B A1 : EValue) :
      Reachable w → EValue.ctor_move w (w.values a) = .ok (w1, B, A1) →
      Reachable ((w1.put b B).put a A1)
  | move_assign (w w1 : World) (this rhs : Nat) :
      Reachable w → EValue.operator_assign_move w this rhs = .ok w1 → Reachable w1
  | copy_assign (w w1 : World) (this rhs : Nat) :
      Reachable w → EValue.operator_assign_copy w this rhs = .ok w1 → Reachable w1
  | consume (w : World) (a : Nat) (t : Tensor) (e1 : EValue) :
      Reachable w → (w.values a).toTensor_rvalue = .ok (t, e1) → Reachable (w.put a e1)

/-- A world for examples: every object is the default EValue, every scratch
cell is zero or an undefined handle, every count is one, nothing torn down. -/
def World.example : World :=
  { values := fun _ => EValue.ctor_None
    int64_mem := fun _ _ => 0
    tensor_mem := fun _ _ => { impl := none }
    optional_tensor_mem := fun _ _ => none
    refcount := fun _ => 1
    teardown_log := [] }

/-- A second world for examples. Objects 0, 1, 2 are the Int values 5, 10, 20;
objects 3 and 4 hold the tensor handles 7 and 8; object 5 is the tensor list
over the entries 3 and 4 with scratch buffer 9; object 6 is a tensor list, with
scratch buffer 11, whose only position refers to the Int entry 1; every other
object is the default EValue. -/
def World.sample : World :=
  { World.example with
    values := fun a =>
      match a with
      | 0 => EValue.ctor_int64_t 5
      | 1 => EValue.ctor_int64_t 10
      | 2 => EValue.ctor_int64_t 20
      | 3 => { payload := .as_tensor { impl := some 7 }, tag := Tag.Tensor }
      | 4 => { payload := .as_tensor { impl := some 8 }, tag := Tag.Tensor }
      | 5 => EValue.ctor_tensor_list (BoxedEvalueList.ctor [some 3, some 4] 9)
      | 6 => EValue.ctor_tensor_list (BoxedEvalueList.ctor [some 1] 11)
      | _ => EValue.ctor_None }

/-- A third world for examples: the sample world after entry 2 was overwritten
with a Double. -/
def World.sample_overwritten : World :=
  World.sample.put 2 (EValue.ctor_double { bits := 0 })

/-- A fourth world for examples: the sample world after a new object at address
7 was copy-constructed from object 3, so that objects 3 and 7 share the handle
7, whose count is two. -/
def World.sample_shared : World :=
  match EValue.ctor_copy World.sample (World.sample.values 3) with
  | .ok (w1, B) => w1.put 7 B
  | .error _ => World.sample

end runtime
end executorch

/-! ## Runtime (backends/vulkan/runtime/vk_api/Runtime.cpp) -/

namespace vkcompute
namespace vkapi

/-- Modelled from the spec: the class PhysicalDevice of vk_api/Device.h, which
is not among the sources and which the specification does not describe. Kept
are the device handle and the one member Runtime.cpp reads, the number of
compute queues. -/
structure PhysicalDevice where
  handle : Nat
  num_compute_queues : Nat
  deriving DecidableEq

/-- The type Runtime::DeviceMapping, as Runtime.cpp uses it: a physical device
paired with the int32_t index of its adapter, -1 when it has none. -/
abbrev DeviceMapping := PhysicalDevice × Int

/-- The constant UINT32_MAX. -/
def UINT32_MAX : Nat := 4294967295

/-- The loop of select_first from index i on, over the devices not yet
visited: the index of the first one with a compute queue, none when the loop
runs to its end. -/
def select_first_loop : List DeviceMapping → Nat → Option Nat
  | [], _ => none
  | d :: rest, i => if d.1.num_compute_queues > 0 then some i else select_first_loop rest (i + 1)

/-- The selector select_first. The size_t values are narrowed to the uint32_t
result. -/
def select_first (devices : List DeviceMapping) : Nat :=
  if devices.isEmpty then (devices.length + 1) % 4294967296
  else
    match select_first_loop devices 0 with
    | some i => i % 4294967296
    | none => (devices.length + 1) % 4294967296

/-- The failures of create_adapter: one for each message of its two
VK_CHECK_COND, and one for a failure raised by code that is not among the
sources. -/
inductive Error where
  | no_devices
  | no_suitable_device
  | external (code : Nat)
  deriving DecidableEq

/-- The enumeration AdapterSelector, as the constructor of Runtime uses it. -/
inductive AdapterSelector where
  | First
  deriving DecidableEq

/-- The struct RuntimeConfig, as init_global_vulkan_runtime fills it. -/
structure RuntimeConfig where
  enable_validation_messages : Bool
  init_default_device : Bool
  default_selector : AdapterSelector
  num_requested_queues : Nat
  cache_data_path : String
  deriving DecidableEq

/-- The type Selector: a function from the device mappings to a uint32_t index. -/
abbrev Selector := List DeviceMapping → Nat

/-- What create_adapter calls and the sources do not contain, taken as
parameters: utils::safe_downcast<int32_t> applied to a size, and the
constructor of Adapter applied to the instance, the physical device, the
number of requested queues and the cache path. Either can fail. -/
structure External (Adapter : Type) where
  safe_downcast : Nat → Except Error Int
  new_Adapter : Nat → PhysicalDevice → Nat → String → Except Error Adapter
  /-- the result of the downcast is an int32_t -/
  safe_downcast_int32 : ∀ n v, safe_downcast n = .ok v → -2147483648 ≤ v ∧ v < 2147483648

/-- The members of the class Runtime that Runtime.cpp assigns, the debug
report callback apart. instance_ is the handle of the Vulkan instance. -/
structure Runtime (Adapter : Type) where
  config_ : RuntimeConfig
  instance_ : Nat
  device_mappings_ : List DeviceMapping
  adapters_ : List Adapter
  default_adapter_i_ : Nat

/-- The conversion of an int32_t to the uint32_t result of create_adapter. -/
def to_uint32 (i : Int) : Nat := (i % 4294967296).toNat

/-- The member Runtime::create_adapter. Each VK_CHECK_COND is the test of its
condition and the failure with its message. Returns the index and the Runtime
afterwards; a failure is a thrown exception, before which nothing was written. -/
def Runtime.create_adapter {Adapter : Type} (ext : External Adapter) (rt : Runtime Adapter)
    (selector : Selector) : Except Error (Nat × Runtime Adapter) :=
  if rt.device_mappings_.isEmpty then throw Error.no_devices
  else
    let physical_device_i := selector rt.device_mappings_
    if h : physical_device_i < rt.device_mappings_.length then
      let device_mapping := rt.device_mappings_[physical_device_i]
      let adapter_i := device_mapping.2
      if adapter_i ≥ 0 then pure (to_uint32 adapter_i, rt)
      else do
        let adapter_i ← ext.safe_downcast rt.adapters_.length
        let adapter ← ext.new_Adapter rt.instance_ device_mapping.1
          rt.config_.num_requested_queues rt.config_.cache_data_path
        pure (to_uint32 adapter_i,
          { rt with
            adapters_ := rt.adapters_ ++ [adapter]
            device_mappings_ :=
              rt.device_mappings_.set physical_device_i (device_mapping.1, adapter_i) })
    else throw Error.no_suitable_device

/-- The constructor of Runtime, from the configuration, the instance handle
that create_instance returned and the physical devices that
create_physical_devices enumerated. An exception of create_adapter is caught
and leaves the default adapter index at UINT32_MAX. -/
def Runtime.ctor {Adapter : Type} (ext : External Adapter) (config : RuntimeConfig)
    (instance_ : Nat) (devices : List PhysicalDevice) : Runtime Adapter :=
  let rt : Runtime Adapter :=
    { config_ := config
      instance_ := instance_
      device_mappings_ := devices.map (fun d => (d, -1))
      adapters_ := []
      default_adapter_i_ := UINT32_MAX }
  if config.init_default_device then
    match config.default_selector with
    | AdapterSelector.First =>
      match rt.create_adapter ext select_first with
      | .ok r => { r.2 with default_adapter_i_ := r.1 }
      | .error _ => rt
  else rt

/-- A sequence of create_adapter calls, one for each selector in turn; a call
that throws leaves the Runtime as it was. -/
def Runtime.create_adapters {Adapter : Type} (ext : External Adapter) (rt : Runtime Adapter)
    (selectors : List Selector) : Runtime Adapter :=
  selectors.foldl
    (fun r selector =>
      match r.create_adapter ext selector with
      | .ok q => q.2
      | .error _ => r)
    rt

/-- An instance of the absent code for examples: the downcast succeeds on the
sizes that fit in int32_t, an adapter is the pair of the instance and the
device it was built for. -/
def External.sample : External (Nat × PhysicalDevice) where
  safe_downcast := fun n => if n < 2147483648 then .ok n else .error (Error.external 0)
  new_Adapter := fun i d _ _ => .ok (i, d)
  safe_downcast_int32 := by
    intro n v h
    by_cases hn : n < 2147483648
    · simp only [hn, if_true, Except.ok.injEq] at h
      subst h
      constructor <;> omega
    · simp only [hn, if_false] at h
      cases h

/-- A configuration for examples. -/
def RuntimeConfig.sample : RuntimeConfig where
  enable_validation_messages := false
  init_default_device := true
  default_selector := AdapterSelector.First
  num_requested_queues := 1
  cache_data_path := ""

/-- Three devices for examples: the first has no compute queue, the two others
have one and two. -/
def PhysicalDevice.samples : List PhysicalDevice :=
  [{ handle := 10, num_compute_queues := 0 }, { handle := 11, num_compute_queues := 1 },
   { handle := 12, num_compute_queues := 2 }]

/-- The adapters and the device mappings of a Runtime fit together: as many
devices hold a non-negative adapter index as there are adapters, every such
index is below the number of adapters, and no two devices hold the same one. -/
def Runtime.adapters_match_devices {Adapter : Type} (rt : Runtime Adapter) : Prop :=
  rt.device_mappings_.countP (fun m => decide (0 ≤ m.2)) = rt.adapters_.length ∧
  (∀ (i : Nat) (m : DeviceMapping), rt.device_mappings_[i]? = some m → 0 ≤ m.2 →
    m.2 < rt.adapters_.length) ∧
  (∀ (i j : Nat) (mi mj : DeviceMapping), i ≠ j → rt.device_mappings_[i]? = some mi →
    rt.device_mappings_[j]? = some mj → 0 ≤ mi.2 → 0 ≤ mj.2 → mi.2 ≠ mj.2)

end vkapi
end vkcompute

namespace executorch
namespace runtime

/-! ## Properties -/

/-- A failed ET_CHECK_MSG aborts whatever follows it. -/
theorem ET_CHECK_MSG_false_bind {α : Type} (msg : Check) (k : Unit → Result α) :
    (ET_CHECK_MSG false msg >>= k) = .error (Fault.check_failed msg) := rfl

/-- A passed ET_CHECK_MSG continues with what follows it. -/
theorem ET_CHECK_MSG_true_bind {α : Type} (msg : Check) (k : Unit → Result α) :
    (ET_CHECK_MSG true msg >>= k) = k () := rfl

/-- Every accessor that carries a tag check fails fast, with its own check, on
an EValue of any other tag. -/
theorem accessors_with_check_fail_fast (w : World) (e : EValue) :
    (e.tag ≠ Tag.Int → e.toInt = .error (Fault.check_failed Check.not_an_int)) ∧
    (e.tag ≠ Tag.Double → e.toDouble = .error (Fault.check_failed Check.not_a_Double)) ∧
    (e.tag ≠ Tag.Bool → e.toBool = .error (Fault.check_failed Check.not_a_Bool)) ∧
    (e.tag ≠ Tag.String → e.toString = .error (Fault.check_failed Check.not_a_String)) ∧
    (e.tag ≠ Tag.Tensor → e.toTensor_rvalue = .error (Fault.check_failed Check.not_a_Tensor)) ∧
    (e.tag ≠ Tag.Tensor → e.toTensor_ref = .error (Fault.check_failed Check.not_a_Tensor)) ∧
    (e.tag ≠ Tag.Tensor → e.toTensor_const_ref = .error (Fault.check_failed Check.not_a_Tensor)) ∧
    (e.tag ≠ Tag.ListInt → e.toIntList w = .error (Fault.check_failed Check.not_an_Int_List)) ∧
    (e.tag ≠ Tag.ListBool → e.toBoolList = .error (Fault.check_failed Check.not_a_Bool_List)) ∧
    (e.tag ≠ Tag.ListDouble →
      e.toDoubleList = .error (Fault.check_failed Check.not_a_Double_List)) ∧
    (e.tag ≠ Tag.ListTensor →
      e.toTensorList w = .error (Fault.check_failed Check.not_a_Tensor_List)) := by
  refine ⟨?_, ?_, ?_, ?_, ?_, ?_, ?_, ?_, ?_, ?_, ?_⟩ <;> intro h
  · simp only [EValue.toInt, EValue.isInt, h, decide_False, ET_CHECK_MSG_false_bind]
  · simp only [EValue.toDouble, EValue.isDouble, h, decide_False, ET_CHECK_MSG_false_bind]
  · simp only [EValue.toBool, EValue.isBool, h, decide_False, ET_CHECK_MSG_false_bind]
  · simp only [EValue.toString, EValue.isString, h, decide_False, ET_CHECK_MSG_false_bind]
  · simp only [EValue.toTensor_rvalue, EValue.isTensor, h, decide_False, ET_CHECK_MSG_false_bind]
  · simp only [EValue.toTensor_ref, EValue.isTensor, h, decide_False, ET_CHECK_MSG_false_bind]
  · simp only [EValue.toTensor_const_ref, EValue.isTensor, h, decide_False,
      ET_CHECK_MSG_false_bind]
  · simp only [EValue.toIntList, EValue.isIntList, h, decide_False, ET_CHECK_MSG_false_bind]
  · simp only [EValue.toBoolList, EValue.isBoolList, h, decide_False, ET_CHECK_MSG_false_bind]
  · simp only [EValue.toDoubleList, EValue.isDoubleList, h, decide_False,
      ET_CHECK_MSG_false_bind]
  · simp only [EValue.toTensorList, EValue.isTensorList, h, decide_False,
      ET_CHECK_MSG_false_bind]

/-- C1, at the failing input. On the Int EValue 5, in any world, toListOptionalTensor
fires no fatal check: it goes straight to reading the union member
as_list_optional_tensor, which is not the active one, while its sibling
toTensorList stops at its tag check on the same value. -/
theorem C1_toListOptionalTensor_has_no_tag_check (w : World) :
    (EValue.ctor_int64_t 5).toListOptionalTensor w = .error Fault.undefined_behavior ∧
    (EValue.ctor_int64_t 5).toTensorList w =
      .error (Fault.check_failed Check.not_a_Tensor_List) :=
  ⟨rfl, rfl⟩

/-- C2. The EValue built by each constructor satisfies the kind predicate of
its own kind and fails the ten others. The predicates are listed in the order
isNone, isInt, isDouble, isBool, isString, isTensor, isIntList, isBoolList,
isDoubleList, isTensorList, isListOptionalTensor. -/
theorem C2_constructor_sets_exactly_its_kind (w : World) (i : Int) (d : double) (b : Bool)
    (s size : Nat) (t : Tensor) (il : BoxedEvalueList Int) (bl : ArrayRef Bool)
    (dl : ArrayRef double) (tl : BoxedEvalueList Tensor)
    (ol : BoxedEvalueList (Option Tensor)) :
    EValue.ctor_None.kind_predicates =
      [true, false, false, false, false, false, false, false, false, false, false] ∧
    (EValue.ctor_int64_t i).kind_predicates =
      [false, true, false, false, false, false, false, false, false, false, false] ∧
    (EValue.ctor_double d).kind_predicates =
      [false, false, true, false, false, false, false, false, false, false, false] ∧
    (EValue.ctor_bool b).kind_predicates =
      [false, false, false, true, false, false, false, false, false, false, false] ∧
    (EValue.ctor_string s size).kind_predicates =
      [false, false, false, false, true, false, false, false, false, false, false] ∧
    (EValue.ctor_Tensor w t).2.kind_predicates =
      [false, false, false, false, false, true, false, false, false, false, false] ∧
    (EValue.ctor_int_list il).kind_predicates =
      [false, false, false, false, false, false, true, false, false, false, false] ∧
    (EValue.ctor_bool_list bl).kind_predicates =
      [false, false, false, false, false, false, false, true, false, false, false] ∧
    (EValue.ctor_double_list dl).kind_predicates =
      [false, false, false, false, false, false, false, false, true, false, false] ∧
    (EValue.ctor_tensor_list tl).kind_predicates =
      [false, false, false, false, false, false, false, false, false, true, false] ∧
    (EValue.ctor_list_optional_tensor ol).kind_predicates =
      [false, false, false, false, false, false, false, false, false, false, true] :=
  ⟨rfl, rfl, rfl, rfl, rfl, rfl, rfl, rfl, rfl, rfl, rfl⟩

/-- C3. Payload round trip: each accessor applied to the EValue constructed
from a payload succeeds and returns that payload (for the Tensor constructor
in all three ownership shapes, for a string the view with the same start and
the same length); and on every EValue each kind predicate is a plain test of
the tag, which has no failing path. -/
theorem C3_payload_round_trip (w : World) (i : Int) (d : double) (b : Bool) (s size : Nat)
    (t : Tensor) (bl : ArrayRef Bool) (dl : ArrayRef double) (e : EValue) :
    (EValue.ctor_int64_t i).toInt = .ok i ∧
    (EValue.ctor_double d).toDouble = .ok d ∧
    (EValue.ctor_bool b).toBool = .ok b ∧
    (EValue.ctor_string s size).toString = .ok { data := s, size := size } ∧
    (EValue.ctor_bool_list bl).toBoolList = .ok bl ∧
    (EValue.ctor_double_list dl).toDoubleList = .ok dl ∧
    (EValue.ctor_Tensor w t).2.toTensor_const_ref = .ok t ∧
    (EValue.ctor_Tensor w t).2.toTensor_ref = .ok t ∧
    ((EValue.ctor_Tensor w t).2.toTensor_rvalue).map Prod.fst = .ok t ∧
    e.kind_predicates =
      [decide (e.tag = Tag.None), decide (e.tag = Tag.Int), decide (e.tag = Tag.Double),
       decide (e.tag = Tag.Bool), decide (e.tag = Tag.String), decide (e.tag = Tag.Tensor),
       decide (e.tag = Tag.ListInt), decide (e.tag = Tag.ListBool),
       decide (e.tag = Tag.ListDouble), decide (e.tag = Tag.ListTensor),
       decide (e.tag = Tag.ListOptionalTensor)] :=
  ⟨rfl, rfl, rfl, rfl, rfl, rfl, rfl, rfl, rfl, rfl⟩

/-- C5. Self-move-assignment is a no-op: move-assigning the object at address a
to itself succeeds and leaves the whole world as it was, so the tag and the
payload of the object are unchanged, nothing is torn down and no count
moves, whatever the kind of the object. -/
theorem C5_self_move_assignment_is_a_no_op (w : World) (a : Nat) :
    EValue.operator_assign_move w a a = .ok w := by
  simp [EValue.operator_assign_move]
  rfl

/-! ### Frame lemmas for the tensor handle contract and the scratch writes -/

theorem upd2_same {α : Type} (f : Nat → Nat → α) (b i : Nat) (v : α) : upd2 f b i v b i = v := by
  simp [upd2]

theorem upd2_other {α : Type} (f : Nat → Nat → α) (b i : Nat) (v : α) (x y : Nat)
    (h : x ≠ b ∨ y ≠ i) : upd2 f b i v x y = f x y := by
  have : ¬ (x = b ∧ y = i) := by
    rintro ⟨hx, hy⟩
    rcases h with h | h
    · exact h hx
    · exact h hy
  simp [upd2, this]

theorem retain_values (w : World) (t : Tensor) : (w.retain t).values = w.values := by
  unfold World.retain; split <;> rfl

theorem release_values (w : World) (t : Tensor) : (w.release t).values = w.values := by
  unfold World.release; split <;> rfl

theorem retain_tensor_mem (w : World) (t : Tensor) : (w.retain t).tensor_mem = w.tensor_mem := by
  unfold World.retain; split <;> rfl

theorem release_tensor_mem (w : World) (t : Tensor) :
    (w.release t).tensor_mem = w.tensor_mem := by
  unfold World.release; split <;> rfl

theorem retain_teardown_log (w : World) (t : Tensor) :
    (w.retain t).teardown_log = w.teardown_log := by
  unfold World.retain; split <;> rfl

theorem release_teardown_log (w : World) (t : Tensor) :
    (w.release t).teardown_log = w.teardown_log := by
  unfold World.release; split <;> rfl

/-- Sharing a handle raises the count of its implementation object by one and
no other count. -/
theorem retain_refcount (w : World) (t : Tensor) (h : Nat) :
    (w.retain t).refcount h = w.refcount h + (if t = { impl := some h } then 1 else 0) := by
  obtain ⟨impl⟩ := t
  cases impl with
  | none => simp [World.retain]
  | some g =>
    by_cases hg : h = g
    · subst hg; simp [World.retain, upd]
    · have hg2 : ¬ g = h := fun e => hg e.symm
      simp [World.retain, upd, hg, hg2]

/-- Dropping a handle lowers the count of its implementation object by one and
no other count. -/
theorem release_refcount (w : World) (t : Tensor) (h : Nat) :
    (w.release t).refcount h = w.refcount h - (if t = { impl := some h } then 1 else 0) := by
  obtain ⟨impl⟩ := t
  cases impl with
  | none => simp [World.release]
  | some g =>
    by_cases hg : h = g
    · subst hg; simp [World.release, upd]
    · have hg2 : ¬ g = h := fun e => hg e.symm
      simp [World.release, upd, hg, hg2]

theorem destruct_values (w : World) (t : Tensor) : (Tensor.destruct w t).values = w.values := by
  simp [Tensor.destruct, release_values]

theorem destruct_tensor_mem (w : World) (t : Tensor) :
    (Tensor.destruct w t).tensor_mem = w.tensor_mem := by
  simp [Tensor.destruct, release_tensor_mem]

theorem destruct_teardown_log (w : World) (t : Tensor) :
    (Tensor.destruct w t).teardown_log = w.teardown_log ++ [t] := by
  simp [Tensor.destruct, release_teardown_log]

theorem destruct_refcount (w : World) (t : Tensor) (h : Nat) :
    (Tensor.destruct w t).refcount h =
      w.refcount h - (if t = { impl := some h } then 1 else 0) := by
  simp [Tensor.destruct, release_refcount]

theorem assign_int64_values (w : World) (b i : Nat) (v : Int) :
    (w.assign_int64 b i v).values = w.values := rfl

theorem assign_Tensor_values (w : World) (b i : Nat) (v : Tensor) :
    (w.assign_Tensor b i v).values = w.values := by
  simp [World.assign_Tensor, release_values, retain_values]

theorem assign_Tensor_tensor_mem (w : World) (b i : Nat) (v : Tensor) :
    (w.assign_Tensor b i v).tensor_mem = upd2 w.tensor_mem b i v := by
  simp [World.assign_Tensor, release_tensor_mem, retain_tensor_mem]

theorem assign_Tensor_teardown_log (w : World) (b i : Nat) (v : Tensor) :
    (w.assign_Tensor b i v).teardown_log = w.teardown_log := by
  simp [World.assign_Tensor, release_teardown_log, retain_teardown_log]

theorem assign_Tensor_refcount (w : World) (b i : Nat) (v : Tensor) (h : Nat) :
    (w.assign_Tensor b i v).refcount h =
      w.refcount h + (if v = { impl := some h } then 1 else 0)
        - (if w.tensor_mem b i = { impl := some h } then 1 else 0) := by
  simp [World.assign_Tensor, release_refcount, retain_refcount]

/-- The elements i, i+1, ... of a buffer, the first one split off. -/
theorem range_map_shift {α : Type} (g : Nat → α) (i n : Nat) :
    (List.range (n + 1)).map (fun k => g (i + k)) =
      g i :: (List.range n).map (fun k => g (i + 1 + k)) := by
  rw [List.range_succ_eq_map]
  simp only [List.map_cons, List.map_map, Nat.add_zero]
  congr 1
  apply List.map_congr_left
  intro k _
  simp only [Function.comp, Nat.succ_eq_add_one]
  congr 1
  omega

/-! ### The materialization loop -/

/-- The loop of get over positions that are all non-null and all convertible:
it succeeds, leaves the objects alone, leaves in cell i + k the conversion of
the entry at position k, and writes no other cell. Stated for any element
type through its scratch memory mem and its assignment. -/
theorem get_loop_spec {T : Type} (to_T : EValue → Result T)
    (assign : World → Nat → Nat → T → World) (mem : World → Nat → Nat → T)
    (h_values : ∀ w b i v, (assign w b i v).values = w.values)
    (h_same : ∀ w b i v, mem (assign w b i v) b i = v)
    (h_other : ∀ w b i v x y, (x ≠ b ∨ y ≠ i) → mem (assign w b i v) x y = mem w x y)
    (base : Nat) :
    ∀ (ps : List (Option Nat)) (i : Nat) (w : World),
      (∀ p ∈ ps, ∃ a x, p = some a ∧ to_T (w.values a) = .ok x) →
      ∃ w1, BoxedEvalueList.get_loop to_T assign base ps i w = .ok w1 ∧
        w1.values = w.values ∧
        (∀ k, k < ps.length →
          ∃ a, ps[k]? = some (some a) ∧ to_T (w.values a) = .ok (mem w1 base (i + k))) ∧
        (∀ x y, (x ≠ base ∨ y < i ∨ i + ps.length ≤ y) → mem w1 x y = mem w x y) := by
  intro ps
  induction ps with
  | nil =>
    intro i w _
    exact ⟨w, rfl, rfl, fun k hk => absurd hk (by simp), fun _ _ _ => rfl⟩
  | cons p rest ih =>
    intro i w hps
    obtain ⟨a, x, hp, hx⟩ := hps p (List.mem_cons_self _ _)
    subst hp
    have hrest : ∀ q ∈ rest, ∃ a2 x2, q = some a2 ∧
        to_T ((assign w base i x).values a2) = .ok x2 := by
      intro q hq
      obtain ⟨a2, x2, hq2, hx2⟩ := hps q (List.mem_cons_of_mem _ hq)
      exact ⟨a2, x2, hq2, by rw [h_values]; exact hx2⟩
    obtain ⟨w1, hrun, hval, hcells, hframe⟩ := ih (i + 1) (assign w base i x) hrest
    refine ⟨w1, ?_, ?_, ?_, ?_⟩
    · simp only [BoxedEvalueList.get_loop, ne_eq, reduceCtorEq, not_false_eq_true, decide_True,
        ET_CHECK_MSG_true_bind, hx]
      exact hrun
    · rw [hval, h_values]
    · intro k hk
      cases k with
      | zero =>
        refine ⟨a, by simp, ?_⟩
        rw [hx, Nat.add_zero, hframe base i (Or.inr (Or.inl (Nat.lt_succ_self i))), h_same]
      | succ k =>
        have hk2 : k < rest.length := by simpa using hk
        obtain ⟨a2, hget, hconv⟩ := hcells k hk2
        refine ⟨a2, by simpa using hget, ?_⟩
        rw [h_values] at hconv
        rw [hconv]
        congr 2
        omega
    · intro x2 y2 hxy
      have h1 : x2 ≠ base ∨ y2 < i + 1 ∨ i + 1 + rest.length ≤ y2 := by
        rcases hxy with h | h | h
        · exact Or.inl h
        · exact Or.inr (Or.inl (by omega))
        · exact Or.inr (Or.inr (by simp only [List.length_cons] at h; omega))
      rw [hframe x2 y2 h1]
      apply h_other
      rcases hxy with h | h | h
      · exact Or.inl h
      · exact Or.inr (by omega)
      · exact Or.inr (by simp only [List.length_cons] at h; omega)

/-- An EValue tagged Int that obeys the representation invariant holds as_int. -/
theorem payload_of_tag_Int (e : EValue) (ht : e.tag = Tag.Int) (hi : e.tag_identifies_payload) :
    ∃ i, e = { payload := .copyable_union (.as_int i), tag := Tag.Int } := by
  obtain ⟨payload, tag⟩ := e
  simp only at ht
  subst ht
  cases payload with
  | as_tensor t => simp [EValue.tag_identifies_payload] at hi
  | copyable_union c => cases c <;> simp [EValue.tag_identifies_payload] at hi ⊢

/-- An EValue tagged Tensor that obeys the representation invariant holds as_tensor. -/
theorem payload_of_tag_Tensor (e : EValue) (ht : e.tag = Tag.Tensor)
    (hi : e.tag_identifies_payload) :
    ∃ t, e = { payload := .as_tensor t, tag := Tag.Tensor } := by
  obtain ⟨payload, tag⟩ := e
  simp only at ht
  subst ht
  cases payload with
  | as_tensor t => exact ⟨t, rfl⟩
  | copyable_union c => cases c <;> simp [EValue.tag_identifies_payload] at hi

/-- An EValue not tagged Tensor that obeys the representation invariant holds
its data in the trivially copyable part. -/
theorem payload_of_tag_not_Tensor (e : EValue) (ht : e.tag ≠ Tag.Tensor)
    (hi : e.tag_identifies_payload) :
    ∃ c, e.payload = .copyable_union c := by
  obtain ⟨payload, tag⟩ := e
  cases payload with
  | copyable_union c => exact ⟨c, rfl⟩
  | as_tensor t =>
    simp only at ht
    cases tag <;> simp [EValue.tag_identifies_payload] at hi ht

theorem read_int64_getElem (w : World) (v : ArrayRef Int) (i : Nat) (h : i < v.size) :
    (w.read_int64 v)[i]? = some (w.int64_mem v.data i) := by
  simp [World.read_int64, List.getElem?_map, List.getElem?_range h]

theorem read_Tensor_getElem (w : World) (v : ArrayRef Tensor) (i : Nat) (h : i < v.size) :
    (w.read_Tensor v)[i]? = some (w.tensor_mem v.data i) := by
  simp [World.read_Tensor, List.getElem?_map, List.getElem?_range h]

/-- C10. Materialization correctness. When every position of a
BoxedEvalueList of int64_t (of Tensor) is non-null and refers to an entry tagged
Int (Tensor) that obeys the representation invariant of EValue, get succeeds
and returns the view that starts at the scratch buffer and has as many
elements as there are positions; for every index i below that number, to<T>()
succeeds on the entry at position i and element i of the view is its result. -/
theorem C10_materialization_correct (w : World) :
    (∀ l : BoxedEvalueList Int,
      (∀ p ∈ l.wrapped_vals_, ∃ a, p = some a ∧ (w.values a).tag = Tag.Int ∧
        (w.values a).tag_identifies_payload) →
      ∃ w1 v, BoxedEvalueList.get_int64_t w l = .ok (w1, v) ∧
        v = { data := l.unwrapped_vals_, size := l.wrapped_vals_.length } ∧
        (w1.read_int64 v).length = l.wrapped_vals_.length ∧
        ∀ i, i < l.wrapped_vals_.length →
          ∃ a x, l.wrapped_vals_[i]? = some (some a) ∧ (w.values a).to_int64_t = .ok x ∧
            (w1.read_int64 v)[i]? = some x) ∧
    (∀ l : BoxedEvalueList Tensor,
      (∀ p ∈ l.wrapped_vals_, ∃ a, p = some a ∧ (w.values a).tag = Tag.Tensor ∧
        (w.values a).tag_identifies_payload) →
      ∃ w1 v, BoxedEvalueList.get_Tensor w l = .ok (w1, v) ∧
        v = { data := l.unwrapped_vals_, size := l.wrapped_vals_.length } ∧
        (w1.read_Tensor v).length = l.wrapped_vals_.length ∧
        ∀ i, i < l.wrapped_vals_.length →
          ∃ a x, l.wrapped_vals_[i]? = some (some a) ∧ (w.values a).to_Tensor = .ok x ∧
            (w1.read_Tensor v)[i]? = some x) := by
  constructor
  · intro l hl
    have hconv : ∀ p ∈ l.wrapped_vals_, ∃ a x, p = some a ∧
        EValue.to_int64_t (w.values a) = .ok x := by
      intro p hp
      obtain ⟨a, hpa, htag, hinv⟩ := hl p hp
      obtain ⟨x, hx⟩ := payload_of_tag_Int _ htag hinv
      exact ⟨a, x, hpa, by rw [hx]; rfl⟩
    obtain ⟨w1, hrun, _, hcells, _⟩ :=
      get_loop_spec EValue.to_int64_t World.assign_int64 (fun w => w.int64_mem)
        (fun _ _ _ _ => rfl) (fun w b i v => upd2_same w.int64_mem b i v)
        (fun w b i v x y h => upd2_other w.int64_mem b i v x y h)
        l.unwrapped_vals_ l.wrapped_vals_ 0 w hconv
    refine ⟨w1, _, ?_, rfl, by simp [World.read_int64], ?_⟩
    · simp only [BoxedEvalueList.get_int64_t, hrun]
      rfl
    · intro i hi
      obtain ⟨a, hget, hx⟩ := hcells i hi
      refine ⟨a, _, hget, hx, ?_⟩
      rw [read_int64_getElem w1 _ i hi]
      simp
  · intro l hl
    have hconv : ∀ p ∈ l.wrapped_vals_, ∃ a x, p = some a ∧
        EValue.to_Tensor (w.values a) = .ok x := by
      intro p hp
      obtain ⟨a, hpa, htag, hinv⟩ := hl p hp
      obtain ⟨x, hx⟩ := payload_of_tag_Tensor _ htag hinv
      exact ⟨a, x, hpa, by rw [hx]; rfl⟩
    obtain ⟨w1, hrun, _, hcells, _⟩ :=
      get_loop_spec EValue.to_Tensor World.assign_Tensor (fun w => w.tensor_mem)
        assign_Tensor_values
        (fun w b i v => by simp only [assign_Tensor_tensor_mem]; exact upd2_same _ b i v)
        (fun w b i v x y h => by
          simp only [assign_Tensor_tensor_mem]; exact upd2_other _ b i v x y h)
        l.unwrapped_vals_ l.wrapped_vals_ 0 w hconv
    refine ⟨w1, _, ?_, rfl, by simp [World.read_Tensor], ?_⟩
    · simp only [BoxedEvalueList.get_Tensor, hrun]
      rfl
    · intro i hi
      obtain ⟨a, hget, hx⟩ := hcells i hi
      refine ⟨a, _, hget, hx, ?_⟩
      rw [read_Tensor_getElem w1 _ i hi]
      simp

/-! ### Materialization and teardown of a tensor list: counts and log -/

/-- A run of get never writes an EValue object. -/
theorem get_loop_values {T : Type} (to_T : EValue → Result T)
    (assign : World → Nat → Nat → T → World)
    (h_values : ∀ w b i v, (assign w b i v).values = w.values) (base : Nat) :
    ∀ (ps : List (Option Nat)) (i : Nat) (w w1 : World),
      BoxedEvalueList.get_loop to_T assign base ps i w = .ok w1 → w1.values = w.values := by
  intro ps
  induction ps with
  | nil =>
    intro i w w1 h
    simp only [BoxedEvalueList.get_loop, pure, Except.pure, Except.ok.injEq] at h
    rw [← h]
  | cons p rest ih =>
    intro i w w1 h
    cases p with
    | none =>
      simp [BoxedEvalueList.get_loop, ET_CHECK_MSG_false_bind] at h
    | some a =>
      simp only [BoxedEvalueList.get_loop, ne_eq, reduceCtorEq, not_false_eq_true, decide_True,
        ET_CHECK_MSG_true_bind] at h
      cases hx : to_T (w.values a) with
      | error f => simp [hx, bind, Except.bind] at h
      | ok x =>
        simp only [hx, bind, Except.bind] at h
        rw [ih _ _ _ h, h_values]

/-- A run of get over tensors tears nothing down, leaves the cells below its
start index alone, and moves each count by the handles it stored minus the
handles the cells held. -/
theorem get_loop_Tensor_counts (base : Nat) :
    ∀ (ps : List (Option Nat)) (i : Nat) (w w1 : World),
      BoxedEvalueList.get_loop EValue.to_Tensor World.assign_Tensor base ps i w = .ok w1 →
      w1.teardown_log = w.teardown_log ∧
      (∀ x y, (x ≠ base ∨ y < i) → w1.tensor_mem x y = w.tensor_mem x y) ∧
      ∀ h : Nat, w1.refcount h = w.refcount h
        + (((List.range ps.length).map (fun k => w1.tensor_mem base (i + k))).count
            { impl := some h } : Int)
        - (((List.range ps.length).map (fun k => w.tensor_mem base (i + k))).count
            { impl := some h } : Int) := by
  intro ps
  induction ps with
  | nil =>
    intro i w w1 h
    simp only [BoxedEvalueList.get_loop, pure, Except.pure, Except.ok.injEq] at h
    subst h
    simp
  | cons p rest ih =>
    intro i w w1 h
    cases p with
    | none =>
      simp [BoxedEvalueList.get_loop, ET_CHECK_MSG_false_bind] at h
    | some a =>
      simp only [BoxedEvalueList.get_loop, ne_eq, reduceCtorEq, not_false_eq_true, decide_True,
        ET_CHECK_MSG_true_bind] at h
      cases hx : EValue.to_Tensor (w.values a) with
      | error f => simp [hx, bind, Except.bind] at h
      | ok x =>
        simp only [hx, bind, Except.bind] at h
        obtain ⟨hlog, hframe, hcount⟩ := ih _ _ _ h
        refine ⟨?_, ?_, ?_⟩
        · rw [hlog, assign_Tensor_teardown_log]
        · intro x2 y2 hxy
          have h1 : x2 ≠ base ∨ y2 < i + 1 := by
            rcases hxy with h | h
            · exact Or.inl h
            · exact Or.inr (by omega)
          rw [hframe x2 y2 h1, assign_Tensor_tensor_mem]
          apply upd2_other
          rcases hxy with h | h
          · exact Or.inl h
          · exact Or.inr (by omega)
        · intro g
          have hcell : w1.tensor_mem base i = x := by
            rw [hframe base i (Or.inr (Nat.lt_succ_self i)), assign_Tensor_tensor_mem]
            exact upd2_same _ _ _ _
          have hold : (List.range rest.length).map
              (fun k => (w.assign_Tensor base i x).tensor_mem base (i + 1 + k)) =
              (List.range rest.length).map (fun k => w.tensor_mem base (i + 1 + k)) := by
            apply List.map_congr_left
            intro k _
            rw [assign_Tensor_tensor_mem]
            exact upd2_other _ _ _ _ _ _ (Or.inr (by omega))
          have hg := hcount g
          rw [hold, assign_Tensor_refcount] at hg
          rw [hg, List.length_cons, range_map_shift (fun j => w1.tensor_mem base j),
            range_map_shift (fun j => w.tensor_mem base j), List.count_cons, List.count_cons,
            hcell]
          simp only [beq_iff_eq]
          split_ifs <;> push_cast <;> ring

/-- The teardown loop of destroy over n cells from index i on: it writes no
object and no cell, logs the n elements in order, and lowers each count by the
number of elements holding that handle. -/
theorem destroy_Tensor_range_spec (data : Nat) :
    ∀ (n i : Nat) (w : World),
      (EValue.destroy_Tensor_range data n i w).values = w.values ∧
      (EValue.destroy_Tensor_range data n i w).tensor_mem = w.tensor_mem ∧
      (EValue.destroy_Tensor_range data n i w).teardown_log =
        w.teardown_log ++ (List.range n).map (fun k => w.tensor_mem data (i + k)) ∧
      ∀ h : Nat, (EValue.destroy_Tensor_range data n i w).refcount h = w.refcount h
        - (((List.range n).map (fun k => w.tensor_mem data (i + k))).count
            { impl := some h } : Int) := by
  intro n
  induction n with
  | zero =>
    intro i w
    simp [EValue.destroy_Tensor_range]
  | succ n ih =>
    intro i w
    obtain ⟨hv, hm, hlog, hcount⟩ := ih (i + 1) (Tensor.destruct w (w.tensor_mem data i))
    simp only [EValue.destroy_Tensor_range]
    refine ⟨?_, ?_, ?_, ?_⟩
    · rw [hv, destruct_values]
    · rw [hm, destruct_tensor_mem]
    · rw [hlog, destruct_teardown_log, destruct_tensor_mem,
        range_map_shift (fun j => w.tensor_mem data j)]
      simp
    · intro g
      rw [hcount g, destruct_refcount, destruct_tensor_mem,
        range_map_shift (fun j => w.tensor_mem data j), List.count_cons]
      simp only [beq_iff_eq]
      split_ifs <;> push_cast <;> ring

/-! ### Move and destruction -/

/-- What moveFrom does to a source that obeys the representation invariant:
the destination receives the source as it was, the source is cleared to the
default EValue, no object of the world and no count is touched, and the only
teardown is that of the emptied tensor member of a Tensor source. -/
theorem moveFrom_spec (w : World) (A : EValue) (hA : A.tag_identifies_payload) :
    ∃ w1, EValue.moveFrom w A = .ok (w1, A, EValue.ctor_None) ∧
      w1.values = w.values ∧ w1.refcount = w.refcount ∧
      w1.teardown_log =
        w.teardown_log ++ (if A.tag = Tag.Tensor then [{ impl := none }] else []) := by
  by_cases ht : A.tag = Tag.Tensor
  · obtain ⟨t, rfl⟩ := payload_of_tag_Tensor A ht hA
    exact ⟨Tensor.destruct w { impl := none }, rfl, rfl, rfl, rfl⟩
  · obtain ⟨c, hc⟩ := payload_of_tag_not_Tensor A ht hA
    obtain ⟨payload, tag⟩ := A
    simp only at hc ht
    subst hc
    refine ⟨w, ?_, rfl, rfl, by simp [ht]⟩
    simp only [EValue.moveFrom, EValue.isTensor, ht, decide_False]
    rfl

theorem assign_optional_Tensor_values (w : World) (b i : Nat) (v : Option Tensor) :
    (w.assign_optional_Tensor b i v).values = w.values := by
  unfold World.assign_optional_Tensor
  cases v <;> cases w.optional_tensor_mem b i <;> simp [release_values, retain_values]

theorem destroy_optional_Tensor_range_values (data : Nat) :
    ∀ (n i : Nat) (w : World),
      (EValue.destroy_optional_Tensor_range data n i w).values = w.values := by
  intro n
  induction n with
  | zero => intro i w; rfl
  | succ n ih =>
    intro i w
    simp only [EValue.destroy_optional_Tensor_range]
    rw [ih]
    cases w.optional_tensor_mem data i <;> simp [optional_Tensor_destruct, destruct_values]

/-- The helper destroy never writes an EValue object. -/
theorem destroy_values (w w1 : World) (e : EValue) (h : e.destroy w = .ok w1) :
    w1.values = w.values := by
  unfold EValue.destroy at h
  split_ifs at h with h1 h2 h3
  · cases hp : e.payload.read_as_tensor with
    | error f => simp [hp, bind, Except.bind] at h
    | ok t =>
      simp only [hp, bind, Except.bind, pure, Except.pure, Except.ok.injEq] at h
      rw [← h, destruct_values]
  · cases hp : e.toTensorList w with
    | error f => simp [hp, bind, Except.bind] at h
    | ok r =>
      simp only [hp, bind, Except.bind, pure, Except.pure, Except.ok.injEq] at h
      rw [← h, (destroy_Tensor_range_spec _ _ _ _).1]
      unfold EValue.toTensorList at hp
      simp only [h2, ET_CHECK_MSG_true_bind] at hp
      cases hl : e.payload.read_as_tensor_list with
      | error f => simp [hl, bind, Except.bind] at hp
      | ok l =>
        simp only [hl, bind, Except.bind, BoxedEvalueList.get_Tensor] at hp
        cases hg : BoxedEvalueList.get_loop EValue.to_Tensor World.assign_Tensor
            l.unwrapped_vals_ l.wrapped_vals_ 0 w with
        | error f => simp [hg] at hp
        | ok w2 =>
          simp only [hg, pure, Except.pure, Except.ok.injEq] at hp
          rw [← hp]
          exact get_loop_values _ _ assign_Tensor_values _ _ _ _ _ hg
  · cases hp : e.toListOptionalTensor w with
    | error f => simp [hp, bind, Except.bind] at h
    | ok r =>
      simp only [hp, bind, Except.bind, pure, Except.pure, Except.ok.injEq] at h
      rw [← h, destroy_optional_Tensor_range_values]
      unfold EValue.toListOptionalTensor at hp
      cases hl : e.payload.read_as_list_optional_tensor with
      | error f => simp [hl, bind, Except.bind] at hp
      | ok l =>
        simp only [hl, bind, Except.bind, BoxedEvalueList.get_optional_Tensor] at hp
        cases hg : BoxedEvalueList.get_loop EValue.to_optional_Tensor
            World.assign_optional_Tensor l.unwrapped_vals_ l.wrapped_vals_ 0 w with
        | error f => simp [hg] at hp
        | ok w2 =>
          simp only [hg, pure, Except.pure, Except.ok.injEq] at hp
          rw [← hp]
          exact get_loop_values _ _ assign_optional_Tensor_values _ _ _ _ _ hg
  · simp only [pure, Except.pure, Except.ok.injEq] at h
    rw [← h]

/-- The helper destroy does nothing on the eight kinds that own no tensor. -/
theorem destroy_trivial (w : World) (e : EValue)
    (h : e.tag ∈ [Tag.None, Tag.Int, Tag.Double, Tag.Bool, Tag.String, Tag.ListInt,
      Tag.ListBool, Tag.ListDouble]) : e.destroy w = .ok w := by
  simp only [List.mem_cons, List.mem_singleton, List.not_mem_nil, or_false] at h
  rcases h with h | h | h | h | h | h | h | h <;>
    simp [EValue.destroy, EValue.isTensor, EValue.isTensorList, EValue.isListOptionalTensor, h] <;>
    rfl

/-- C8. Destruction dispatches on the tag. Destroying a Tensor-tagged EValue
that obeys the representation invariant succeeds, runs the teardown of the held
handle once and nothing else (the log grows by that one instance), lowers the
count of that handle by one and leaves every other count and every object as
they were. Destroying an EValue tagged None, Int, Double, Bool, String, IntList,
BoolList or DoubleList succeeds and leaves the whole world as it was. -/
theorem C8_destroy_dispatches_on_tag (w : World) (e : EValue) :
    (e.tag = Tag.Tensor → e.tag_identifies_payload →
      ∃ t w1, e.payload = .as_tensor t ∧ e.destroy w = .ok w1 ∧
        w1.teardown_log = w.teardown_log ++ [t] ∧
        (∀ h, w1.refcount h = w.refcount h - (if t = { impl := some h } then 1 else 0)) ∧
        w1.values = w.values) ∧
    (e.tag ∈ [Tag.None, Tag.Int, Tag.Double, Tag.Bool, Tag.String, Tag.ListInt,
        Tag.ListBool, Tag.ListDouble] → e.destroy w = .ok w) := by
  refine ⟨?_, destroy_trivial w e⟩
  intro ht hi
  obtain ⟨t, rfl⟩ := payload_of_tag_Tensor e ht hi
  exact ⟨t, Tensor.destruct w t, rfl, rfl, destruct_teardown_log w t,
    destruct_refcount w t, destruct_values w t⟩

/-- C8 at concrete inputs: object 3 of the sample world, which holds handle 7,
and object 0, the Int 5. -/
theorem C8_destroy_dispatches_on_tag_witness :
    ((World.sample.values 3).tag = Tag.Tensor ∧
      (World.sample.values 3).tag_identifies_payload ∧
      ∃ t w1, (World.sample.values 3).payload = .as_tensor t ∧
        (World.sample.values 3).destroy World.sample = .ok w1 ∧
        w1.teardown_log = World.sample.teardown_log ++ [t] ∧
        (∀ h, w1.refcount h =
          World.sample.refcount h - (if t = { impl := some h } then 1 else 0)) ∧
        w1.values = World.sample.values) ∧
    ((World.sample.values 0).tag ∈ [Tag.None, Tag.Int, Tag.Double, Tag.Bool, Tag.String,
        Tag.ListInt, Tag.ListBool, Tag.ListDouble] ∧
      (World.sample.values 0).destroy World.sample = .ok World.sample) :=
  ⟨⟨rfl, by decide,
      (C8_destroy_dispatches_on_tag World.sample (World.sample.values 3)).1 rfl (by decide)⟩,
    ⟨by decide,
      (C8_destroy_dispatches_on_tag World.sample (World.sample.values 0)).2 (by decide)⟩⟩

/-- C9, the claim as stated fails. In the world where object 7 was
copy-constructed from object 3, the two distinct objects hold the same handle
7, so h_old and h_new are one handle, with count two. Move-assigning object 3
to object 7 succeeds, object 7 holds the handle and object 3 is the default
None value, and the count of the handle is one: the count of h_new is not
unchanged, it has dropped by one. -/
theorem C9_shared_handle_count_drops :
    (3 : Nat) ≠ 7 ∧
    World.sample_shared.values 7 =
      { payload := .as_tensor { impl := some 7 }, tag := Tag.Tensor } ∧
    World.sample_shared.values 3 =
      { payload := .as_tensor { impl := some 7 }, tag := Tag.Tensor } ∧
    World.sample_shared.refcount 7 = 2 ∧
    ∃ w1, EValue.operator_assign_move World.sample_shared 7 3 = .ok w1 ∧
      w1.values 7 = { payload := .as_tensor { impl := some 7 }, tag := Tag.Tensor } ∧
      w1.values 3 = { payload := .copyable_union (.as_int 0), tag := Tag.None } ∧
      w1.refcount 7 = 1 ∧
      w1.refcount 7 ≠ World.sample_shared.refcount 7 := by
  refine ⟨by decide, rfl, rfl, rfl, ?_⟩
  refine ⟨_, rfl, rfl, rfl, rfl, ?_⟩
  decide

/-- C9, amended. Move assignment onto a destination that holds a tensor. For
distinct objects at addresses a (source, holding handle h_new) and b
(destination, holding handle h_old), the assignment of a to b succeeds; the old
payload is torn down first (the log grows by the instance holding h_old, then
by the emptied tensor member of the source); the count of h_old is one lower,
also when h_new is the same handle; the count of h_new is unchanged when it is
a handle other than h_old; b holds h_new under the tag Tensor and a is the
default None value. -/
theorem C9_move_assignment_tears_old_payload_down (w : World) (a b h_old h_new : Nat)
    (hab : a ≠ b)
    (hB : w.values b = { payload := .as_tensor { impl := some h_old }, tag := Tag.Tensor })
    (hA : w.values a = { payload := .as_tensor { impl := some h_new }, tag := Tag.Tensor }) :
    ∃ w1, EValue.operator_assign_move w b a = .ok w1 ∧
      w1.teardown_log = w.teardown_log ++ [{ impl := some h_old }, { impl := none }] ∧
      w1.refcount h_old = w.refcount h_old - 1 ∧
      (h_new ≠ h_old → w1.refcount h_new = w.refcount h_new) ∧
      w1.values b = { payload := .as_tensor { impl := some h_new }, tag := Tag.Tensor } ∧
      w1.values a = { payload := .copyable_union (.as_int 0), tag := Tag.None } := by
  have hrun : EValue.operator_assign_move w b a =
      .ok { (Tensor.destruct (Tensor.destruct w { impl := some h_old }) { impl := none }) with
        values := upd (upd w.values b (w.values a)) a EValue.ctor_None } := by
    simp only [EValue.operator_assign_move, hab, if_false]
    rw [hB]
    simp only [EValue.destroy, EValue.isTensor, decide_True, if_true, Payload.read_as_tensor,
      pure, Except.pure, bind, Except.bind, destruct_values, hA]
    rfl
  refine ⟨_, hrun, ?_, ?_, ?_, ?_, ?_⟩
  · simp [destruct_teardown_log]
  · simp [destruct_refcount]
  · intro hne
    simp [destruct_refcount, hne.symm]
  · simp [upd, hab.symm, hA]
  · simp [upd, EValue.ctor_None]

/-- C9 amended, at a concrete input: in the sample world, object 4 (handle 8)
is move-assigned to object 3 (handle 7). -/
theorem C9_move_assignment_tears_old_payload_down_witness :
    ∃ w1, EValue.operator_assign_move World.sample 3 4 = .ok w1 ∧
      w1.teardown_log = World.sample.teardown_log ++ [{ impl := some 7 }, { impl := none }] ∧
      w1.refcount 7 = World.sample.refcount 7 - 1 ∧
      (8 ≠ 7 → w1.refcount 8 = World.sample.refcount 8) ∧
      w1.values 3 = { payload := .as_tensor { impl := some 8 }, tag := Tag.Tensor } ∧
      w1.values 4 = { payload := .copyable_union (.as_int 0), tag := Tag.None } :=
  C9_move_assignment_tears_old_payload_down World.sample 4 3 7 8 (by decide) rfl rfl

/-- C4, the claim as stated fails. In the sample world object 6 is a tensor list
whose position refers to an Int entry; move-assigning the Int object 0 to it
stops in the fatal tensor check of the teardown of the destination, so no
state in which the destination holds the payload of the source is reached. -/
theorem C4_move_assignment_can_abort :
    (0 : Nat) ≠ 6 ∧ (World.sample.values 0).tag_identifies_payload ∧
    EValue.operator_assign_move World.sample 6 0 =
      .error (Fault.check_failed Check.not_a_Tensor) ∧
    ¬ ∃ w1, EValue.operator_assign_move World.sample 6 0 = .ok w1 ∧
      w1.values 6 = World.sample.values 0 := by
  have h : EValue.operator_assign_move World.sample 6 0 =
      .error (Fault.check_failed Check.not_a_Tensor) := rfl
  refine ⟨by decide, by decide, h, ?_⟩
  rintro ⟨w1, h1, _⟩
  rw [h] at h1
  cases h1

/-- C4, amended. For every source A that obeys the representation invariant:
move construction from A succeeds, the new object has the tag and the payload
of A and A is left tagged None with as_int zero; and move assignment of A, at
address a, to a distinct destination at address b whose destroy completes
succeeds with the same result: b holds the tag and the payload A had and a is
tagged None with as_int zero. -/
theorem C4_move_transfers_payload (w : World) (a b : Nat) (hab : a ≠ b)
    (hA : (w.values a).tag_identifies_payload) :
    (∃ w1, EValue.ctor_move w (w.values a) =
      .ok (w1, w.values a, { payload := .copyable_union (.as_int 0), tag := Tag.None })) ∧
    (∀ w0, (w.values b).destroy w = .ok w0 →
      ∃ w1, EValue.operator_assign_move w b a = .ok w1 ∧
        w1.values b = w.values a ∧
        w1.values a = { payload := .copyable_union (.as_int 0), tag := Tag.None }) := by
  constructor
  · obtain ⟨w1, h1, _⟩ := moveFrom_spec w (w.values a) hA
    exact ⟨w1, h1⟩
  · intro w0 h0
    have hv := destroy_values w w0 _ h0
    have hA0 : (w0.values a).tag_identifies_payload := by rw [hv]; exact hA
    obtain ⟨w1, h1, hv1, _⟩ := moveFrom_spec w0 (w0.values a) hA0
    refine ⟨{ w1 with values := upd (upd w1.values b (w0.values a)) a EValue.ctor_None }, ?_, ?_, ?_⟩
    · simp only [EValue.operator_assign_move, hab, if_false, h0, bind, Except.bind, h1]
      rfl
    · simp [upd, hab.symm, hv]
    · simp [upd, EValue.ctor_None]

/-- C4 amended, at a concrete input: in the sample world the Int object 0 is
moved into a new object and move-assigned to object 3, a tensor whose destroy
completes. -/
theorem C4_move_transfers_payload_witness :
    (0 : Nat) ≠ 3 ∧ (World.sample.values 0).tag_identifies_payload ∧
    (∃ w1, EValue.ctor_move World.sample (World.sample.values 0) =
      .ok (w1, World.sample.values 0,
        { payload := .copyable_union (.as_int 0), tag := Tag.None })) ∧
    (∃ w1, EValue.operator_assign_move World.sample 3 0 = .ok w1 ∧
        w1.values 3 = World.sample.values 0 ∧
        w1.values 0 = { payload := .copyable_union (.as_int 0), tag := Tag.None }) :=
  ⟨by decide, by decide,
    (C4_move_transfers_payload World.sample 0 3 (by decide) (by decide)).1,
    (C4_move_transfers_payload World.sample 0 3 (by decide) (by decide)).2
      (Tensor.destruct World.sample { impl := some 7 }) rfl⟩

/-! ### Copy -/

/-- What the copy constructor does on a source that obeys the representation
invariant: the copy equals the source; a Tensor source has its handle shared,
any other source leaves the world as it was. -/
theorem ctor_copy_spec (w : World) (A : EValue) (hA : A.tag_identifies_payload) :
    ∃ w1, EValue.ctor_copy w A = .ok (w1, A) ∧ w1.values = w.values ∧
      w1.teardown_log = w.teardown_log ∧
      (∀ t, A.payload = .as_tensor t → w1 = w.retain t) ∧
      (A.tag ≠ Tag.Tensor → w1 = w) := by
  by_cases ht : A.tag = Tag.Tensor
  · obtain ⟨t, rfl⟩ := payload_of_tag_Tensor A ht hA
    refine ⟨w.retain t, rfl, retain_values w t, retain_teardown_log w t, ?_, ?_⟩
    · intro t2 h2
      simp only [Payload.as_tensor.injEq] at h2
      rw [h2]
    · intro h2
      exact absurd rfl h2
  · obtain ⟨c, hc⟩ := payload_of_tag_not_Tensor A ht hA
    obtain ⟨payload, tag⟩ := A
    simp only at hc ht
    subst hc
    refine ⟨w, ?_, rfl, rfl, ?_, fun _ => rfl⟩
    · simp only [EValue.ctor_copy, EValue.ctor_Payload_Tag, ht, decide_False]
      rfl
    · intro t2 h2
      simp at h2

theorem tag_of_isScalar (e : EValue) (h : e.isScalar = true) :
    e.tag ∈ [Tag.None, Tag.Int, Tag.Double, Tag.Bool, Tag.String, Tag.ListInt,
      Tag.ListBool, Tag.ListDouble] := by
  simp only [EValue.isScalar, Bool.or_eq_true, decide_eq_true_eq] at h
  rcases h with (h | h) | h <;> simp [h]

/-- Move assignment to a scalar destination at address a, from a source at
address c that obeys the representation invariant, succeeds and leaves every
object other than a and c as it was. -/
theorem move_assign_scalar_frame (w : World) (a b c : Nat) (hab : a ≠ b) (hcb : c ≠ b)
    (hs : (w.values a).isScalar = true) (hc : (w.values c).tag_identifies_payload) :
    ∃ w2, EValue.operator_assign_move w a c = .ok w2 ∧ w2.values b = w.values b := by
  by_cases hca : c = a
  · exact ⟨w, by simp [EValue.operator_assign_move, hca]; rfl, rfl⟩
  · obtain ⟨w1, h1, hv1, _⟩ := moveFrom_spec w (w.values c) hc
    refine ⟨{ w1 with values := upd (upd w1.values a (w.values c)) c EValue.ctor_None }, ?_, ?_⟩
    · simp only [EValue.operator_assign_move, hca, if_false,
        destroy_trivial w _ (tag_of_isScalar _ hs), bind, Except.bind, h1]
      rfl
    · simp [upd, hab.symm, hcb.symm, hv1]

/-- Copy assignment to a scalar destination at address a, from a source at
address c that obeys the representation invariant, succeeds and leaves every
object other than a as it was. -/
theorem copy_assign_scalar_frame (w : World) (a b c : Nat) (hab : a ≠ b)
    (hs : (w.values a).isScalar = true) (hc : (w.values c).tag_identifies_payload) :
    ∃ w2, EValue.operator_assign_copy w a c = .ok w2 ∧ w2.values b = w.values b := by
  obtain ⟨w1, h1, hv1, _⟩ := ctor_copy_spec w (w.values c) hc
  obtain ⟨w2, h2, hv2, _⟩ := moveFrom_spec w1 (w.values c) hc
  have hs1 : (w1.values a).isScalar = true := by rw [hv1]; exact hs
  refine ⟨{ w2 with values := upd w2.values a (w.values c) }, ?_, ?_⟩
  · simp only [EValue.operator_assign_copy, h1, bind, Except.bind,
      destroy_trivial w1 _ (tag_of_isScalar _ hs1), h2]
    exact destroy_trivial _ _ (by simp [EValue.ctor_None])
  · simp [upd, hab.symm, hv2, hv1]

/-- C6. Copy construction. For every EValue A that obeys the representation
invariant the copy constructor succeeds, the copy has the tag and the payload
of A, and no object of the world (A included) is written and nothing is torn
down. When A holds a tensor, the copy holds the same handle and the count of
that handle is one higher, every other count unchanged; when A is not tagged
Tensor the world is unchanged. When A is a scalar (Int, Double, Bool), an
object a holding A and a distinct object b holding the copy are independent:
a move or copy assignment to either of them, from any source c that obeys the
invariant (and, for a move, is not the other object), succeeds and leaves the
other holding A. -/
theorem C6_copy_construction (w : World) (A : EValue) (hA : A.tag_identifies_payload) :
    ∃ w1, EValue.ctor_copy w A = .ok (w1, A) ∧ w1.values = w.values ∧
      w1.teardown_log = w.teardown_log ∧
      (∀ t, A.payload = .as_tensor t →
        ∀ h, w1.refcount h = w.refcount h + (if t = { impl := some h } then 1 else 0)) ∧
      (A.tag ≠ Tag.Tensor → w1 = w) ∧
      (A.isScalar = true → ∀ a b c : Nat, a ≠ b → w1.values a = A → w1.values b = A →
        (w1.values c).tag_identifies_payload →
        (c ≠ b → ∃ w2, EValue.operator_assign_move w1 a c = .ok w2 ∧ w2.values b = A) ∧
        (c ≠ a → ∃ w2, EValue.operator_assign_move w1 b c = .ok w2 ∧ w2.values a = A) ∧
        (∃ w2, EValue.operator_assign_copy w1 a c = .ok w2 ∧ w2.values b = A) ∧
        (∃ w2, EValue.operator_assign_copy w1 b c = .ok w2 ∧ w2.values a = A)) := by
  obtain ⟨w1, h1, hv1, hlog, hten, hoth⟩ := ctor_copy_spec w A hA
  refine ⟨w1, h1, hv1, hlog, ?_, hoth, ?_⟩
  · intro t ht h
    rw [hten t ht, retain_refcount]
  · intro hs a b c hab ha hb hc
    have hsa : (w1.values a).isScalar = true := by rw [ha]; exact hs
    have hsb : (w1.values b).isScalar = true := by rw [hb]; exact hs
    refine ⟨fun hcb => ?_, fun hca => ?_, ?_, ?_⟩
    · obtain ⟨w2, h2, hv2⟩ := move_assign_scalar_frame w1 a b c hab hcb hsa hc
      exact ⟨w2, h2, by rw [hv2, hb]⟩
    · obtain ⟨w2, h2, hv2⟩ := move_assign_scalar_frame w1 b a c hab.symm hca hsb hc
      exact ⟨w2, h2, by rw [hv2, ha]⟩
    · obtain ⟨w2, h2, hv2⟩ := copy_assign_scalar_frame w1 a b c hab hsa hc
      exact ⟨w2, h2, by rw [hv2, hb]⟩
    · obtain ⟨w2, h2, hv2⟩ := copy_assign_scalar_frame w1 b a c hab.symm hsb hc
      exact ⟨w2, h2, by rw [hv2, ha]⟩

/-! ### Destruction of a tensor list -/

theorem range_map_zero_add {α : Type} (g : Nat → α) (n : Nat) :
    (List.range n).map (fun k => g (0 + k)) = (List.range n).map g := by
  apply List.map_congr_left
  intro k _
  rw [Nat.zero_add]

/-- C7. Destroying a TensorList EValue over K positions that all refer to live
Tensor entries succeeds. It materializes the list (v is the view get returns,
wg the world at that point: element i of v is the tensor of the entry at
position i, and each count went up by the handles stored and down by the
handles the scratch cells held before), then tears down exactly the K elements
of v, each once and in order (the log grows by the elements of v and by
nothing else), which lowers each count by the number of elements of v holding
that handle. In total each count ends lower by the references the scratch
buffer held before the call and by nothing else, so every share made by
materialization is released exactly once; no object is written. -/
theorem C7_destroy_tensor_list (w : World) (l : BoxedEvalueList Tensor)
    (hl : ∀ p ∈ l.wrapped_vals_, ∃ a t, p = some a ∧
      w.values a = { payload := .as_tensor t, tag := Tag.Tensor }) :
    ∃ wg v w1,
      (EValue.ctor_tensor_list l).toTensorList w = .ok (wg, v) ∧
      (EValue.ctor_tensor_list l).destroy w = .ok w1 ∧
      (wg.read_Tensor v).length = l.wrapped_vals_.length ∧
      (∀ i, i < l.wrapped_vals_.length → ∃ a t, l.wrapped_vals_[i]? = some (some a) ∧
        w.values a = { payload := .as_tensor t, tag := Tag.Tensor } ∧
        (wg.read_Tensor v)[i]? = some t) ∧
      w1.teardown_log = w.teardown_log ++ wg.read_Tensor v ∧
      (w1.teardown_log.length = w.teardown_log.length + l.wrapped_vals_.length) ∧
      (∀ h : Nat, wg.refcount h = w.refcount h
        + ((wg.read_Tensor v).count { impl := some h } : Int)
        - ((w.read_Tensor v).count { impl := some h } : Int)) ∧
      (∀ h : Nat, w1.refcount h =
        wg.refcount h - ((wg.read_Tensor v).count { impl := some h } : Int)) ∧
      (∀ h : Nat, w1.refcount h =
        w.refcount h - ((w.read_Tensor v).count { impl := some h } : Int)) ∧
      w1.values = w.values := by
  have hconv : ∀ p ∈ l.wrapped_vals_, ∃ a x, p = some a ∧
      EValue.to_Tensor (w.values a) = .ok x := by
    intro p hp
    obtain ⟨a, t, hpa, ha⟩ := hl p hp
    exact ⟨a, t, hpa, by rw [ha]; rfl⟩
  obtain ⟨wg, hrun, hval, hcells, _⟩ :=
    get_loop_spec EValue.to_Tensor World.assign_Tensor (fun w => w.tensor_mem)
      assign_Tensor_values
      (fun w b i v => by simp only [assign_Tensor_tensor_mem]; exact upd2_same _ b i v)
      (fun w b i v x y h => by
        simp only [assign_Tensor_tensor_mem]; exact upd2_other _ b i v x y h)
      l.unwrapped_vals_ l.wrapped_vals_ 0 w hconv
  obtain ⟨hlog, _, hcount⟩ := get_loop_Tensor_counts _ _ _ _ _ hrun
  obtain ⟨dv, _, dlog, dcount⟩ :=
    destroy_Tensor_range_spec l.unwrapped_vals_ l.wrapped_vals_.length 0 wg
  have hget : (EValue.ctor_tensor_list l).toTensorList w =
      .ok (wg, { data := l.unwrapped_vals_, size := l.wrapped_vals_.length }) := by
    simp only [EValue.toTensorList, EValue.ctor_tensor_list, EValue.isTensorList, decide_True,
      ET_CHECK_MSG_true_bind, Payload.read_as_tensor_list, pure, Except.pure, bind, Except.bind,
      BoxedEvalueList.get_Tensor, hrun]
    rfl
  have hdes : (EValue.ctor_tensor_list l).destroy w =
      .ok (EValue.destroy_Tensor_range l.unwrapped_vals_ l.wrapped_vals_.length 0 wg) := by
    unfold EValue.destroy
    rw [hget]
    rfl
  have hlen : (wg.read_Tensor { data := l.unwrapped_vals_, size := l.wrapped_vals_.length }).length
      = l.wrapped_vals_.length := by simp [World.read_Tensor]
  simp only [range_map_zero_add] at dlog dcount hcount
  refine ⟨wg, _, _, hget, hdes, hlen, ?_, ?_, ?_, ?_, ?_, ?_, ?_⟩
  · intro i hi
    obtain ⟨a, hpos, hx⟩ := hcells i hi
    obtain ⟨a2, t, hpa, ha⟩ := hl _ (List.getElem?_mem hpos)
    have hpa2 : a = a2 := Option.some.inj hpa
    subst hpa2
    refine ⟨a, t, hpos, ha, ?_⟩
    rw [read_Tensor_getElem wg _ i hi]
    rw [ha, Nat.zero_add] at hx
    simp only [EValue.to_Tensor, EValue.toTensor_ref, EValue.isTensor, decide_True,
      ET_CHECK_MSG_true_bind, Payload.read_as_tensor, pure, Except.pure, Except.ok.injEq] at hx
    simp [hx]
  · rw [dlog, hlog]; rfl
  · rw [dlog, hlog]; simp
  · intro h; exact hcount h
  · intro h; exact dcount h
  · intro h
    have h1 := dcount h
    have h2 := hcount h
    simp only [World.read_Tensor]
    rw [h1, h2]
    ring
  · rw [dv, hval]

/-! ### Concrete instances -/

/-- C7 at a concrete input: the tensor list over the entries 3 and 4 of the
sample world, which hold the handles 7 and 8, with scratch buffer 9. -/
theorem C7_destroy_tensor_list_witness :
    (∀ p ∈ (BoxedEvalueList.ctor [some 3, some 4] 9 : BoxedEvalueList Tensor).wrapped_vals_,
      ∃ a t, p = some a ∧
        World.sample.values a = { payload := .as_tensor t, tag := Tag.Tensor }) ∧
    ∃ w1, (EValue.ctor_tensor_list (BoxedEvalueList.ctor [some 3, some 4] 9)).destroy
        World.sample = .ok w1 ∧
      w1.teardown_log = [{ impl := some 7 }, { impl := some 8 }] ∧
      w1.refcount 7 = 1 ∧ w1.refcount 8 = 1 ∧
      w1.values = World.sample.values := by
  have hyp : ∀ p ∈ (BoxedEvalueList.ctor [some 3, some 4] 9 : BoxedEvalueList Tensor).wrapped_vals_,
      ∃ a t, p = some a ∧
        World.sample.values a = { payload := .as_tensor t, tag := Tag.Tensor } := by
    intro p hp
    simp only [BoxedEvalueList.ctor, List.mem_cons, List.mem_singleton, List.not_mem_nil,
      or_false] at hp
    rcases hp with rfl | rfl
    · exact ⟨3, { impl := some 7 }, rfl, rfl⟩
    · exact ⟨4, { impl := some 8 }, rfl, rfl⟩
  obtain ⟨wg, v, w1, hget, hdes, _, _, hlog, _, _, _, hcount, hv⟩ :=
    C7_destroy_tensor_list World.sample _ hyp
  have hwg : (EValue.ctor_tensor_list (BoxedEvalueList.ctor [some 3, some 4] 9)).toTensorList
      World.sample = .ok (wg, v) := hget
  have hv2 : v = { data := 9, size := 2 } := by
    have h2 := congrArg (fun r => r.toOption.map Prod.snd) hwg
    have h3 : some v = some { data := 9, size := 2 } := by
      rw [← (show _ = some v from h2)]
      decide
    exact Option.some.inj h3
  have hread : wg.read_Tensor v = [{ impl := some 7 }, { impl := some 8 }] := by
    have h2 := congrArg (fun r => r.toOption.map (fun q => q.1.read_Tensor q.2)) hwg
    have h3 : some (wg.read_Tensor v) = some [{ impl := some 7 }, { impl := some 8 }] := by
      rw [← (show _ = some (wg.read_Tensor v) from h2)]
      decide
    exact Option.some.inj h3
  refine ⟨hyp, w1, hdes, ?_, ?_, ?_, hv⟩
  · rw [hlog, hread]; rfl
  · rw [hcount 7, hv2]; decide
  · rw [hcount 8, hv2]; decide

/-- C10 at a concrete input: the int list over the entries 1 and 2 of the
sample world and the tensor list over its entries 3 and 4. -/
theorem C10_materialization_correct_witness :
    (∃ w1 v, BoxedEvalueList.get_int64_t World.sample (BoxedEvalueList.ctor [some 1, some 2] 12)
        = .ok (w1, v) ∧ w1.read_int64 v = [10, 20]) ∧
    (∃ w1 v, BoxedEvalueList.get_Tensor World.sample (BoxedEvalueList.ctor [some 3, some 4] 9)
        = .ok (w1, v) ∧ w1.read_Tensor v = [{ impl := some 7 }, { impl := some 8 }]) := by
  have hi : ∀ p ∈ (BoxedEvalueList.ctor [some 1, some 2] 12 : BoxedEvalueList Int).wrapped_vals_,
      ∃ a, p = some a ∧ (World.sample.values a).tag = Tag.Int ∧
        (World.sample.values a).tag_identifies_payload := by
    intro p hp
    simp only [BoxedEvalueList.ctor, List.mem_cons, List.mem_singleton, List.not_mem_nil,
      or_false] at hp
    rcases hp with rfl | rfl
    · exact ⟨1, rfl, rfl, by decide⟩
    · exact ⟨2, rfl, rfl, by decide⟩
  have ht : ∀ p ∈ (BoxedEvalueList.ctor [some 3, some 4] 9 : BoxedEvalueList Tensor).wrapped_vals_,
      ∃ a, p = some a ∧ (World.sample.values a).tag = Tag.Tensor ∧
        (World.sample.values a).tag_identifies_payload := by
    intro p hp
    simp only [BoxedEvalueList.ctor, List.mem_cons, List.mem_singleton, List.not_mem_nil,
      or_false] at hp
    rcases hp with rfl | rfl
    · exact ⟨3, rfl, rfl, by decide⟩
    · exact ⟨4, rfl, rfl, by decide⟩
  constructor
  · obtain ⟨w1, v, hrun, _, _, _⟩ := (C10_materialization_correct World.sample).1 _ hi
    refine ⟨w1, v, hrun, ?_⟩
    have h2 := congrArg (fun r => r.toOption.map (fun q => q.1.read_int64 q.2)) hrun
    have h3 : some (w1.read_int64 v) = some [10, 20] := by
      rw [← (show _ = some (w1.read_int64 v) from h2)]
      decide
    exact Option.some.inj h3
  · obtain ⟨w1, v, hrun, _, _, _⟩ := (C10_materialization_correct World.sample).2 _ ht
    refine ⟨w1, v, hrun, ?_⟩
    have h2 := congrArg (fun r => r.toOption.map (fun q => q.1.read_Tensor q.2)) hrun
    have h3 : some (w1.read_Tensor v) = some [{ impl := some 7 }, { impl := some 8 }] := by
      rw [← (show _ = some (w1.read_Tensor v) from h2)]
      decide
    exact Option.some.inj h3

/-- C6 at concrete inputs: the copy of object 3 of the sample world, a tensor
holding handle 7, and the copy of the Int 5 held by object 0. -/
theorem C6_copy_construction_witness :
    (World.sample.values 3).tag_identifies_payload ∧
    (∃ w1, EValue.ctor_copy World.sample (World.sample.values 3) =
        .ok (w1, World.sample.values 3) ∧
      w1.refcount 7 = World.sample.refcount 7 + 1 ∧
      w1.refcount 8 = World.sample.refcount 8) ∧
    (World.sample.values 0).tag_identifies_payload ∧
    (∃ w1, EValue.ctor_copy World.sample (World.sample.values 0) =
        .ok (w1, World.sample.values 0) ∧ w1 = World.sample) := by
  refine ⟨by decide, ?_, by decide, ?_⟩
  · obtain ⟨w1, h1, _, _, hten, _, _⟩ :=
      C6_copy_construction World.sample (World.sample.values 3) (by decide)
    exact ⟨w1, h1, by simpa using hten _ rfl 7, by simpa using hten _ rfl 8⟩
  · obtain ⟨w1, h1, _, _, _, hoth, _⟩ :=
      C6_copy_construction World.sample (World.sample.values 0) (by decide)
    exact ⟨w1, h1, hoth (by decide)⟩

/-! ### Materialization against its specification -/

/-- A run of get that completes leaves every scratch cell outside its own
buffer, and every cell of its buffer below its start index, as it was. -/
theorem get_loop_frame {T : Type} (to_T : EValue → Result T)
    (assign : World → Nat → Nat → T → World) (mem : World → Nat → Nat → T)
    (h_other : ∀ w b i v x y, (x ≠ b ∨ y ≠ i) → mem (assign w b i v) x y = mem w x y)
    (base : Nat) :
    ∀ (ps : List (Option Nat)) (i : Nat) (w w1 : World),
      BoxedEvalueList.get_loop to_T assign base ps i w = .ok w1 →
      ∀ x y, (x ≠ base ∨ y < i) → mem w1 x y = mem w x y := by
  intro ps
  induction ps with
  | nil =>
    intro i w w1 h x y _
    simp only [BoxedEvalueList.get_loop, pure, Except.pure, Except.ok.injEq] at h
    rw [← h]
  | cons p rest ih =>
    intro i w w1 h x y hxy
    cases p with
    | none =>
      simp [BoxedEvalueList.get_loop, ET_CHECK_MSG_false_bind] at h
    | some a =>
      simp only [BoxedEvalueList.get_loop, ne_eq, reduceCtorEq, not_false_eq_true, decide_True,
        ET_CHECK_MSG_true_bind] at h
      cases hx : to_T (w.values a) with
      | error f => simp [hx, bind, Except.bind] at h
      | ok v =>
        simp only [hx, bind, Except.bind] at h
        have h1 : x ≠ base ∨ y < i + 1 := by
          rcases hxy with h2 | h2
          · exact Or.inl h2
          · exact Or.inr (by omega)
        rw [ih _ _ _ h x y h1]
        apply h_other
        rcases hxy with h2 | h2
        · exact Or.inl h2
        · exact Or.inr (by omega)

/-- The loop of get refines the materialization of the specification: it
fails exactly when that fails, with the same failure, and when it completes
the cells from its start index on hold the specified sequence. -/
theorem get_loop_refines {T : Type} (to_T : EValue → Result T)
    (assign : World → Nat → Nat → T → World) (mem : World → Nat → Nat → T)
    (h_values : ∀ w b i v, (assign w b i v).values = w.values)
    (h_same : ∀ w b i v, mem (assign w b i v) b i = v)
    (h_other : ∀ w b i v x y, (x ≠ b ∨ y ≠ i) → mem (assign w b i v) x y = mem w x y)
    (base : Nat) :
    ∀ (ps : List (Option Nat)) (i : Nat) (w : World),
      (BoxedEvalueList.get_loop to_T assign base ps i w).map
          (fun w1 => (List.range ps.length).map (fun k => mem w1 base (i + k))) =
        materialized to_T w.values ps := by
  intro ps
  induction ps with
  | nil =>
    intro i w
    rfl
  | cons p rest ih =>
    intro i w
    cases p with
    | none => rfl
    | some a =>
      simp only [BoxedEvalueList.get_loop, ne_eq, reduceCtorEq, not_false_eq_true, decide_True,
        ET_CHECK_MSG_true_bind, materialized]
      cases hx : to_T (w.values a) with
      | error f => rfl
      | ok v =>
        have hih := ih (i + 1) (assign w base i v)
        rw [h_values] at hih
        simp only [bind, Except.bind]
        rw [← hih]
        cases hr : BoxedEvalueList.get_loop to_T assign base rest (i + 1)
            (assign w base i v) with
        | error f => rfl
        | ok w1 =>
          simp only [Except.map, pure, Except.pure, Except.ok.injEq, List.length_cons]
          rw [range_map_shift (fun j => mem w1 base j)]
          congr 1
          rw [get_loop_frame to_T assign mem h_other base _ _ _ _ hr base i
            (Or.inr (Nat.lt_succ_self i)), h_same]

/-- The specified materialization reads the table at the referenced positions only. -/
theorem materialized_congr {T : Type} (to_T : EValue → Result T) (values values1 : Nat → EValue) :
    ∀ ps : List (Option Nat), (∀ a, some a ∈ ps → values a = values1 a) →
      materialized to_T values ps = materialized to_T values1 ps := by
  intro ps
  induction ps with
  | nil => intro _; rfl
  | cons p rest ih =>
    intro h
    cases p with
    | none => rfl
    | some a =>
      simp only [materialized]
      rw [h a (List.mem_cons_self _ _), ih (fun b hb => h b (List.mem_cons_of_mem _ hb))]

/-- The specified materialization succeeds exactly when every position is
present and its entry converts. -/
theorem materialized_ok_iff {T : Type} (to_T : EValue → Result T) (values : Nat → EValue) :
    ∀ ps : List (Option Nat),
      (∃ xs, materialized to_T values ps = .ok xs) ↔
        ∀ p ∈ ps, ∃ a x, p = some a ∧ to_T (values a) = .ok x := by
  intro ps
  induction ps with
  | nil =>
    constructor
    · intro _ p hp
      cases hp
    · intro _
      exact ⟨[], rfl⟩
  | cons p rest ih =>
    cases p with
    | none =>
      constructor
      · rintro ⟨xs, h⟩
        cases h
      · intro h
        obtain ⟨a, x, ha, _⟩ := h none (List.mem_cons_self _ _)
        cases ha
    | some a =>
      simp only [materialized]
      cases hx : to_T (values a) with
      | error f =>
        constructor
        · rintro ⟨xs, h⟩
          cases h
        · intro h
          obtain ⟨a2, x, ha, hx2⟩ := h (some a) (List.mem_cons_self _ _)
          cases ha
          rw [hx] at hx2
          cases hx2
      | ok x =>
        constructor
        · rintro ⟨xs, h⟩ q hq
          rcases List.mem_cons.mp hq with rfl | hq2
          · exact ⟨a, x, rfl, hx⟩
          · cases hr : materialized to_T values rest with
            | error f =>
              rw [hr] at h
              cases h
            | ok ys => exact (ih.mp ⟨ys, hr⟩) q hq2
        · intro h
          obtain ⟨ys, hys⟩ := ih.mpr (fun q hq => h q (List.mem_cons_of_mem _ hq))
          exact ⟨x :: ys, by rw [hys]; rfl⟩

/-- The specified materialization fails with the failure of its first
offending position: the null check for an absent position, the failure of the
conversion for an entry that does not convert. -/
theorem materialized_first_failure {T : Type} (to_T : EValue → Result T)
    (values : Nat → EValue) :
    ∀ (pre : List (Option Nat)) (p : Option Nat) (post : List (Option Nat)),
      (∀ q ∈ pre, ∃ a x, q = some a ∧ to_T (values a) = .ok x) →
      (p = none → materialized to_T values (pre ++ p :: post) =
        .error (Fault.check_failed Check.wrapped_val_is_nullptr)) ∧
      (∀ a f, p = some a → to_T (values a) = .error f →
        materialized to_T values (pre ++ p :: post) = .error f) := by
  intro pre
  induction pre with
  | nil =>
    intro p post _
    constructor
    · intro hp
      subst hp
      rfl
    · intro a f hp hf
      subst hp
      simp only [List.nil_append, materialized, hf]
      rfl
  | cons q rest ih =>
    intro p post hpre
    obtain ⟨a, x, hq, hx⟩ := hpre q (List.mem_cons_self _ _)
    subst hq
    obtain ⟨h1, h2⟩ := ih p post (fun r hr => hpre r (List.mem_cons_of_mem _ hr))
    constructor
    · intro hp
      show materialized to_T values (some a :: (rest ++ p :: post)) = _
      unfold materialized
      rw [hx, h1 hp]
      rfl
    · intro b f hp hf
      show materialized to_T values (some a :: (rest ++ p :: post)) = _
      unfold materialized
      rw [hx, h2 b f hp hf]
      rfl

theorem map_eq_error_iff {α β : Type} (g : α → β) (r : Result α) (f : Fault) :
    r.map g = .error f ↔ r = .error f := by
  cases r <;> simp [Except.map]

/-- The member get for int64_t refines the specified materialization. -/
theorem get_int64_t_refines (w : World) (l : BoxedEvalueList Int) :
    (BoxedEvalueList.get_int64_t w l).map (fun q => q.1.read_int64 q.2) =
      materialized EValue.to_int64_t w.values l.wrapped_vals_ := by
  rw [← get_loop_refines EValue.to_int64_t World.assign_int64 (fun w => w.int64_mem)
    (fun _ _ _ _ => rfl) (fun w b i v => upd2_same w.int64_mem b i v)
    (fun w b i v x y h => upd2_other w.int64_mem b i v x y h) l.unwrapped_vals_
    l.wrapped_vals_ 0 w]
  simp only [BoxedEvalueList.get_int64_t, range_map_zero_add]
  cases BoxedEvalueList.get_loop EValue.to_int64_t World.assign_int64 l.unwrapped_vals_
    l.wrapped_vals_ 0 w <;> rfl

/-- The member get for Tensor refines the specified materialization. -/
theorem get_Tensor_refines (w : World) (l : BoxedEvalueList Tensor) :
    (BoxedEvalueList.get_Tensor w l).map (fun q => q.1.read_Tensor q.2) =
      materialized EValue.to_Tensor w.values l.wrapped_vals_ := by
  rw [← get_loop_refines EValue.to_Tensor World.assign_Tensor (fun w => w.tensor_mem)
    assign_Tensor_values
    (fun w b i v => by simp only [assign_Tensor_tensor_mem]; exact upd2_same _ b i v)
    (fun w b i v x y h => by
      simp only [assign_Tensor_tensor_mem]; exact upd2_other _ b i v x y h)
    l.unwrapped_vals_ l.wrapped_vals_ 0 w]
  simp only [BoxedEvalueList.get_Tensor, range_map_zero_add]
  cases BoxedEvalueList.get_loop EValue.to_Tensor World.assign_Tensor l.unwrapped_vals_
    l.wrapped_vals_ 0 w <;> rfl

/-- Failure of the specified materialization when conversion succeeds on the
referenced entries of the right kind and fails with one fixed check on every
entry of another kind: it fails exactly when a position is absent or an entry
is of another kind, with the failure of the first such position. -/
theorem materialized_failure {T : Type} (to_T : EValue → Result T) (values : Nat → EValue)
    (good : EValue → Prop) (c : Check) (ps : List (Option Nat))
    (hgood : ∀ a, some a ∈ ps → good (values a) → ∃ x, to_T (values a) = .ok x)
    (hbad : ∀ e, ¬ good e → to_T e = .error (Fault.check_failed c)) :
    ((∃ f, materialized to_T values ps = .error f) ↔
      (none ∈ ps ∨ ∃ a, some a ∈ ps ∧ ¬ good (values a))) ∧
    (∀ pre p post, ps = pre ++ p :: post →
      (∀ q ∈ pre, ∃ a, q = some a ∧ good (values a)) →
      (p = none → materialized to_T values ps =
        .error (Fault.check_failed Check.wrapped_val_is_nullptr)) ∧
      (∀ a, p = some a → ¬ good (values a) →
        materialized to_T values ps = .error (Fault.check_failed c))) := by
  constructor
  · constructor
    · rintro ⟨f, hf⟩
      by_contra hno
      have hall : ∀ p ∈ ps, ∃ a x, p = some a ∧ to_T (values a) = .ok x := by
        intro p hp
        cases p with
        | none => exact absurd (Or.inl hp) hno
        | some a =>
          have hg : good (values a) := by
            by_contra hng
            exact hno (Or.inr ⟨a, hp, hng⟩)
          obtain ⟨x, hx⟩ := hgood a hp hg
          exact ⟨a, x, rfl, hx⟩
      obtain ⟨xs, hxs⟩ := (materialized_ok_iff to_T values ps).mpr hall
      rw [hxs] at hf
      cases hf
    · intro hoff
      cases hr : materialized to_T values ps with
      | error f => exact ⟨f, rfl⟩
      | ok xs =>
        have hall := (materialized_ok_iff to_T values ps).mp ⟨xs, hr⟩
        rcases hoff with hnone | ⟨a, ha, hng⟩
        · obtain ⟨a, x, h1, _⟩ := hall none hnone
          cases h1
        · obtain ⟨a2, x, h1, h2⟩ := hall (some a) ha
          cases h1
          rw [hbad _ hng] at h2
          cases h2
  · intro pre p post hps hpre
    subst hps
    have hpre2 : ∀ q ∈ pre, ∃ a x, q = some a ∧ to_T (values a) = .ok x := by
      intro q hq
      obtain ⟨a, ha, hg⟩ := hpre q hq
      subst ha
      obtain ⟨x, hx⟩ := hgood a (List.mem_append_left _ hq) hg
      exact ⟨a, x, rfl, hx⟩
    obtain ⟨h1, h2⟩ := materialized_first_failure to_T values pre p post hpre2
    exact ⟨h1, fun a ha hng => h2 a _ ha (hbad _ hng)⟩

/-- C11. Materialization failure, for lists of int64_t and of Tensor whose
referenced entries obey the representation invariant. The member get fails
exactly when some position is null or some referenced entry is not tagged
with the kind of T. The failure is that of the first offending position: when
every earlier position is non-null and of the right kind, a null position
fails the null check of get, and an entry of another tag fails the tag check
of toInt (of toTensor), which is also what that accessor returns on the entry;
so an int list whose first offending entry is tagged Double fails with the
check of toInt. -/
theorem C11_materialization_failure (w : World) :
    (∀ l : BoxedEvalueList Int,
      (∀ a, some a ∈ l.wrapped_vals_ → (w.values a).tag_identifies_payload) →
      ((∃ f, BoxedEvalueList.get_int64_t w l = .error f) ↔
        (none ∈ l.wrapped_vals_ ∨
          ∃ a, some a ∈ l.wrapped_vals_ ∧ ¬ (w.values a).tag = Tag.Int)) ∧
      (∀ pre p post, l.wrapped_vals_ = pre ++ p :: post →
        (∀ q ∈ pre, ∃ a, q = some a ∧ (w.values a).tag = Tag.Int) →
        (p = none → BoxedEvalueList.get_int64_t w l =
          .error (Fault.check_failed Check.wrapped_val_is_nullptr)) ∧
        (∀ a, p = some a → ¬ (w.values a).tag = Tag.Int →
          BoxedEvalueList.get_int64_t w l = .error (Fault.check_failed Check.not_an_int) ∧
          (w.values a).toInt = .error (Fault.check_failed Check.not_an_int)) ∧
        (∀ a, p = some a → (w.values a).tag = Tag.Double →
          BoxedEvalueList.get_int64_t w l = .error (Fault.check_failed Check.not_an_int) ∧
          (w.values a).toInt = .error (Fault.check_failed Check.not_an_int)))) ∧
    (∀ l : BoxedEvalueList Tensor,
      (∀ a, some a ∈ l.wrapped_vals_ → (w.values a).tag_identifies_payload) →
      ((∃ f, BoxedEvalueList.get_Tensor w l = .error f) ↔
        (none ∈ l.wrapped_vals_ ∨
          ∃ a, some a ∈ l.wrapped_vals_ ∧ ¬ (w.values a).tag = Tag.Tensor)) ∧
      (∀ pre p post, l.wrapped_vals_ = pre ++ p :: post →
        (∀ q ∈ pre, ∃ a, q = some a ∧ (w.values a).tag = Tag.Tensor) →
        (p = none → BoxedEvalueList.get_Tensor w l =
          .error (Fault.check_failed Check.wrapped_val_is_nullptr)) ∧
        (∀ a, p = some a → ¬ (w.values a).tag = Tag.Tensor →
          BoxedEvalueList.get_Tensor w l = .error (Fault.check_failed Check.not_a_Tensor) ∧
          (w.values a).toTensor_ref = .error (Fault.check_failed Check.not_a_Tensor)))) := by
  constructor
  · intro l hinv
    have hgood : ∀ a, some a ∈ l.wrapped_vals_ → (w.values a).tag = Tag.Int →
        ∃ x, EValue.to_int64_t (w.values a) = .ok x := by
      intro a ha ht
      obtain ⟨x, hx⟩ := payload_of_tag_Int _ ht (hinv a ha)
      exact ⟨x, by rw [hx]; rfl⟩
    have hbad : ∀ e : EValue, ¬ e.tag = Tag.Int →
        EValue.to_int64_t e = .error (Fault.check_failed Check.not_an_int) :=
      fun e he => (accessors_with_check_fail_fast w e).1 he
    obtain ⟨hiff, hfirst⟩ := materialized_failure EValue.to_int64_t w.values
      (fun e => e.tag = Tag.Int) Check.not_an_int l.wrapped_vals_ hgood hbad
    have hfail : ∀ f, BoxedEvalueList.get_int64_t w l = .error f ↔
        materialized EValue.to_int64_t w.values l.wrapped_vals_ = .error f := by
      intro f
      rw [← get_int64_t_refines, map_eq_error_iff]
    refine ⟨?_, ?_⟩
    · rw [← hiff]
      exact ⟨fun ⟨f, hf⟩ => ⟨f, (hfail f).mp hf⟩, fun ⟨f, hf⟩ => ⟨f, (hfail f).mpr hf⟩⟩
    · intro pre p post hps hpre
      obtain ⟨h1, h2⟩ := hfirst pre p post hps hpre
      refine ⟨fun hp => (hfail _).mpr (h1 hp), fun a ha hng => ?_, fun a ha hd => ?_⟩
      · exact ⟨(hfail _).mpr (h2 a ha hng), hbad _ hng⟩
      · have hng : ¬ (w.values a).tag = Tag.Int := by rw [hd]; decide
        exact ⟨(hfail _).mpr (h2 a ha hng), hbad _ hng⟩
  · intro l hinv
    have hgood : ∀ a, some a ∈ l.wrapped_vals_ → (w.values a).tag = Tag.Tensor →
        ∃ x, EValue.to_Tensor (w.values a) = .ok x := by
      intro a ha ht
      obtain ⟨x, hx⟩ := payload_of_tag_Tensor _ ht (hinv a ha)
      exact ⟨x, by rw [hx]; rfl⟩
    have hbad : ∀ e : EValue, ¬ e.tag = Tag.Tensor →
        EValue.to_Tensor e = .error (Fault.check_failed Check.not_a_Tensor) :=
      fun e he => (accessors_with_check_fail_fast w e).2.2.2.2.2.1 he
    obtain ⟨hiff, hfirst⟩ := materialized_failure EValue.to_Tensor w.values
      (fun e => e.tag = Tag.Tensor) Check.not_a_Tensor l.wrapped_vals_ hgood hbad
    have hfail : ∀ f, BoxedEvalueList.get_Tensor w l = .error f ↔
        materialized EValue.to_Tensor w.values l.wrapped_vals_ = .error f := by
      intro f
      rw [← get_Tensor_refines, map_eq_error_iff]
    refine ⟨?_, ?_⟩
    · rw [← hiff]
      exact ⟨fun ⟨f, hf⟩ => ⟨f, (hfail f).mp hf⟩, fun ⟨f, hf⟩ => ⟨f, (hfail f).mpr hf⟩⟩
    · intro pre p post hps hpre
      obtain ⟨h1, h2⟩ := hfirst pre p post hps hpre
      refine ⟨fun hp => (hfail _).mpr (h1 hp), fun a ha hng => ?_⟩
      exact ⟨(hfail _).mpr (h2 a ha hng), hbad _ hng⟩

theorem map_eq_ok {α β : Type} (g : α → β) (r : Result α) (y : β) (h : r.map g = .ok y) :
    ∃ q, r = .ok q ∧ g q = y := by
  cases r with
  | error f => cases h
  | ok q =>
    simp only [Except.map, Except.ok.injEq] at h
    exact ⟨q, rfl, h⟩

/-- The member get for int64_t never writes an EValue object. -/
theorem get_int64_t_values (w w1 : World) (l : BoxedEvalueList Int) (v : ArrayRef Int)
    (h : BoxedEvalueList.get_int64_t w l = .ok (w1, v)) : w1.values = w.values := by
  unfold BoxedEvalueList.get_int64_t at h
  cases hg : BoxedEvalueList.get_loop EValue.to_int64_t World.assign_int64
      l.unwrapped_vals_ l.wrapped_vals_ 0 w with
  | error f => simp [hg, bind, Except.bind] at h
  | ok w2 =>
    simp only [hg, bind, Except.bind, pure, Except.pure, Except.ok.injEq, Prod.mk.injEq] at h
    rw [← h.1]
    exact get_loop_values EValue.to_int64_t World.assign_int64 assign_int64_values _ _ _ _ _ hg

/-- The member get for Tensor never writes an EValue object. -/
theorem get_Tensor_values (w w1 : World) (l : BoxedEvalueList Tensor) (v : ArrayRef Tensor)
    (h : BoxedEvalueList.get_Tensor w l = .ok (w1, v)) : w1.values = w.values := by
  unfold BoxedEvalueList.get_Tensor at h
  cases hg : BoxedEvalueList.get_loop EValue.to_Tensor World.assign_Tensor
      l.unwrapped_vals_ l.wrapped_vals_ 0 w with
  | error f => simp [hg, bind, Except.bind] at h
  | ok w2 =>
    simp only [hg, bind, Except.bind, pure, Except.pure, Except.ok.injEq, Prod.mk.injEq] at h
    rw [← h.1]
    exact get_loop_values _ _ assign_Tensor_values _ _ _ _ _ hg

theorem put_values_same (w : World) (a : Nat) (e : EValue) : (w.put a e).values a = e := by
  simp [World.put, upd]

theorem put_values_other (w : World) (a b : Nat) (e : EValue) (h : b ≠ a) :
    (w.put a e).values b = w.values b := by
  simp [World.put, upd, h]

theorem upd_apply {α : Type} (f : Nat → α) (a : Nat) (v : α) (x : Nat) :
    upd f a v x = if x = a then v else f x := rfl

/-- The objects after a completed copy assignment from a source that obeys
the representation invariant: the destination holds the source as it was and
every other object is as it was. -/
theorem copy_assign_values (w w1 : World) (this rhs : Nat)
    (hinv : (w.values rhs).tag_identifies_payload)
    (h : EValue.operator_assign_copy w this rhs = .ok w1) :
    w1.values = upd w.values this (w.values rhs) := by
  unfold EValue.operator_assign_copy at h
  obtain ⟨wc, hc, hvc, _⟩ := ctor_copy_spec w (w.values rhs) hinv
  simp only [hc, bind, Except.bind] at h
  cases hd : EValue.destroy wc (wc.values this) with
  | error f => simp [hd] at h
  | ok w0 =>
    have hv0 := destroy_values wc w0 _ hd
    obtain ⟨w2, h2, hv2, _⟩ := moveFrom_spec w0 (w.values rhs) hinv
    simp only [hd, h2] at h
    rw [destroy_trivial _ EValue.ctor_None (by simp [EValue.ctor_None])] at h
    simp only [Except.ok.injEq] at h
    rw [← h]
    simp only [hv2, hv0, hvc]

/-- C12. Materialization is not cached. In general the outcome of get (its
failure, or the sequence read through the view it returns) is the same in any
two worlds whose tables agree at the referenced positions, whatever the
scratch buffers hold from earlier calls. In particular, for a list over two
distinct positions p0 and p1 whose entries hold x0 and x1, get returns the
sequence x0, x1; once the entry at p1 holds another value y of the same kind,
get on the same list returns x0, y. Both for lists of int64_t and of Tensor.
For int64_t the same is stated with the entry at p1 overwritten by the copy
assignment of EValue from an object that holds y. -/
theorem C12_materialization_not_cached (w : World) :
    (∀ (w2 : World) (l : BoxedEvalueList Int),
      (∀ a, some a ∈ l.wrapped_vals_ → w.values a = w2.values a) →
      (BoxedEvalueList.get_int64_t w l).map (fun q => q.1.read_int64 q.2) =
        (BoxedEvalueList.get_int64_t w2 l).map (fun q => q.1.read_int64 q.2)) ∧
    (∀ (w2 : World) (l : BoxedEvalueList Tensor),
      (∀ a, some a ∈ l.wrapped_vals_ → w.values a = w2.values a) →
      (BoxedEvalueList.get_Tensor w l).map (fun q => q.1.read_Tensor q.2) =
        (BoxedEvalueList.get_Tensor w2 l).map (fun q => q.1.read_Tensor q.2)) ∧
    (∀ (base p0 p1 : Nat) (x0 x1 y : Int), p0 ≠ p1 →
      w.values p0 = EValue.ctor_int64_t x0 → w.values p1 = EValue.ctor_int64_t x1 →
      ∃ w1 v, BoxedEvalueList.get_int64_t w (BoxedEvalueList.ctor [some p0, some p1] base) =
          .ok (w1, v) ∧ w1.read_int64 v = [x0, x1] ∧
        ∃ w3 v3, BoxedEvalueList.get_int64_t (w1.put p1 (EValue.ctor_int64_t y))
            (BoxedEvalueList.ctor [some p0, some p1] base) = .ok (w3, v3) ∧
          w3.read_int64 v3 = [x0, y]) ∧
    (∀ (base p0 p1 : Nat) (t0 t1 y : Tensor), p0 ≠ p1 →
      w.values p0 = { payload := .as_tensor t0, tag := Tag.Tensor } →
      w.values p1 = { payload := .as_tensor t1, tag := Tag.Tensor } →
      ∃ w1 v, BoxedEvalueList.get_Tensor w (BoxedEvalueList.ctor [some p0, some p1] base) =
          .ok (w1, v) ∧ w1.read_Tensor v = [t0, t1] ∧
        ∃ w3 v3, BoxedEvalueList.get_Tensor
            (w1.put p1 { payload := .as_tensor y, tag := Tag.Tensor })
            (BoxedEvalueList.ctor [some p0, some p1] base) = .ok (w3, v3) ∧
          w3.read_Tensor v3 = [t0, y]) ∧
    (∀ (base p0 p1 c : Nat) (x0 x1 y : Int), p0 ≠ p1 →
      w.values p0 = EValue.ctor_int64_t x0 → w.values p1 = EValue.ctor_int64_t x1 →
      w.values c = EValue.ctor_int64_t y →
      ∃ w1 v w2 w3 v3,
        BoxedEvalueList.get_int64_t w (BoxedEvalueList.ctor [some p0, some p1] base) =
          .ok (w1, v) ∧ w1.read_int64 v = [x0, x1] ∧
        EValue.operator_assign_copy w1 p1 c = .ok w2 ∧
        BoxedEvalueList.get_int64_t w2 (BoxedEvalueList.ctor [some p0, some p1] base) =
          .ok (w3, v3) ∧ w3.read_int64 v3 = [x0, y]) := by
  refine ⟨?_, ?_, ?_, ?_, ?_⟩
  · intro w2 l h
    rw [get_int64_t_refines, get_int64_t_refines, materialized_congr _ _ _ _ h]
  · intro w2 l h
    rw [get_Tensor_refines, get_Tensor_refines, materialized_congr _ _ _ _ h]
  · intro base p0 p1 x0 x1 y hne h0 h1
    have hfirst : (BoxedEvalueList.get_int64_t w
        (BoxedEvalueList.ctor [some p0, some p1] base)).map (fun q => q.1.read_int64 q.2) =
        .ok [x0, x1] := by
      rw [get_int64_t_refines]
      simp only [BoxedEvalueList.ctor, materialized, h0, h1]
      rfl
    obtain ⟨⟨w1, v⟩, hrun, hread⟩ := map_eq_ok _ _ _ hfirst
    have hv := get_int64_t_values _ _ _ _ hrun
    have hsecond : (BoxedEvalueList.get_int64_t (w1.put p1 (EValue.ctor_int64_t y))
        (BoxedEvalueList.ctor [some p0, some p1] base)).map (fun q => q.1.read_int64 q.2) =
        .ok [x0, y] := by
      rw [get_int64_t_refines]
      simp only [BoxedEvalueList.ctor, materialized, put_values_same,
        put_values_other _ _ _ _ hne, hv, h0]
      rfl
    obtain ⟨⟨w3, v3⟩, hrun3, hread3⟩ := map_eq_ok _ _ _ hsecond
    exact ⟨w1, v, hrun, hread, w3, v3, hrun3, hread3⟩
  · intro base p0 p1 t0 t1 y hne h0 h1
    have hfirst : (BoxedEvalueList.get_Tensor w
        (BoxedEvalueList.ctor [some p0, some p1] base)).map (fun q => q.1.read_Tensor q.2) =
        .ok [t0, t1] := by
      rw [get_Tensor_refines]
      simp only [BoxedEvalueList.ctor, materialized, h0, h1]
      rfl
    obtain ⟨⟨w1, v⟩, hrun, hread⟩ := map_eq_ok _ _ _ hfirst
    have hv := get_Tensor_values _ _ _ _ hrun
    have hsecond : (BoxedEvalueList.get_Tensor
        (w1.put p1 { payload := .as_tensor y, tag := Tag.Tensor })
        (BoxedEvalueList.ctor [some p0, some p1] base)).map (fun q => q.1.read_Tensor q.2) =
        .ok [t0, y] := by
      rw [get_Tensor_refines]
      simp only [BoxedEvalueList.ctor, materialized, put_values_same,
        put_values_other _ _ _ _ hne, hv, h0]
      rfl
    obtain ⟨⟨w3, v3⟩, hrun3, hread3⟩ := map_eq_ok _ _ _ hsecond
    exact ⟨w1, v, hrun, hread, w3, v3, hrun3, hread3⟩
  · intro base p0 p1 c x0 x1 y hne h0 h1 hc
    have hfirst : (BoxedEvalueList.get_int64_t w
        (BoxedEvalueList.ctor [some p0, some p1] base)).map (fun q => q.1.read_int64 q.2) =
        .ok [x0, x1] := by
      rw [get_int64_t_refines]
      simp only [BoxedEvalueList.ctor, materialized, h0, h1]
      rfl
    obtain ⟨⟨w1, v⟩, hrun, hread⟩ := map_eq_ok _ _ _ hfirst
    have hv := get_int64_t_values _ _ _ _ hrun
    have hs : (w1.values p1).isScalar = true := by
      simp only [hv, h1]
      rfl
    have hci : (w1.values c).tag_identifies_payload := by
      simp only [hv, hc]
      exact trivial
    obtain ⟨w2, hassign, _⟩ := copy_assign_scalar_frame w1 p1 p0 c hne.symm hs hci
    have hv2 := copy_assign_values w1 w2 p1 c hci hassign
    have hsecond : (BoxedEvalueList.get_int64_t w2
        (BoxedEvalueList.ctor [some p0, some p1] base)).map (fun q => q.1.read_int64 q.2) =
        .ok [x0, y] := by
      rw [get_int64_t_refines]
      simp only [BoxedEvalueList.ctor, materialized, hv2, upd_apply, hne, if_false, if_true, hv,
        h0, hc]
      rfl
    obtain ⟨⟨w3, v3⟩, hrun3, hread3⟩ := map_eq_ok _ _ _ hsecond
    exact ⟨w1, v, w2, w3, v3, hrun, hread, hassign, hrun3, hread3⟩

/-! ### Optional conversion, empty lists, accessor shapes -/

theorem assign_optional_Tensor_mem (w : World) (b i : Nat) (v : Option Tensor) :
    (w.assign_optional_Tensor b i v).optional_tensor_mem = upd2 w.optional_tensor_mem b i v := by
  unfold World.assign_optional_Tensor
  cases v <;> cases w.optional_tensor_mem b i <;>
    simp only [World.retain, World.release] <;> (repeat' split) <;> rfl

theorem read_optional_Tensor_getElem (w : World) (v : ArrayRef (Option Tensor)) (i : Nat)
    (h : i < v.size) :
    (w.read_optional_Tensor v)[i]? = some (w.optional_tensor_mem v.data i) := by
  simp [World.read_optional_Tensor, List.getElem?_map, List.getElem?_range h]

/-- The conversion of an entry to an optional Tensor: absent for None, the
held tensor for Tensor, the tensor check for any other tag. -/
theorem toOptional_Tensor_cases (e : EValue) :
    (e.tag = Tag.None → e.toOptional_Tensor = .ok none) ∧
    (∀ t, e = { payload := .as_tensor t, tag := Tag.Tensor } →
      e.toOptional_Tensor = .ok (some t)) ∧
    (¬ e.tag = Tag.None → ¬ e.tag = Tag.Tensor →
      e.toOptional_Tensor = .error (Fault.check_failed Check.not_a_Tensor)) := by
  refine ⟨?_, ?_, ?_⟩
  · intro h
    simp only [EValue.toOptional_Tensor, EValue.isNone, h, decide_True, if_true]
    rfl
  · intro t h
    subst h
    rfl
  · intro h1 h2
    simp only [EValue.toOptional_Tensor, EValue.isNone, h1, decide_False, Bool.false_eq_true,
      if_false, EValue.to_Tensor_const_ref, EValue.toTensor_const_ref, EValue.isTensor, h2,
      ET_CHECK_MSG_false_bind]
    rfl

/-- C13. Optional conversion relaxation. The conversion toOptional<Tensor>, which
is also to<optional<Tensor>>(), gives an absent optional without failing on an
entry tagged None, a present optional holding the tensor of the entry on an
entry tagged Tensor that obeys the representation invariant, and fails with
the tensor check on every other tag. Hence materializing an optional tensor
list whose positions are non-null and refer to entries tagged None or Tensor
succeeds, and element i of the result is absent when entry i is tagged None
and holds the tensor of entry i when it is tagged Tensor. -/
theorem C13_optional_conversion (w : World) (e : EValue) :
    (e.tag = Tag.None → e.toOptional_Tensor = .ok none ∧ e.to_optional_Tensor = .ok none) ∧
    (e.tag = Tag.Tensor → e.tag_identifies_payload →
      ∃ t, e.payload = .as_tensor t ∧ e.toOptional_Tensor = .ok (some t) ∧
        e.to_optional_Tensor = .ok (some t)) ∧
    (¬ e.tag = Tag.None → ¬ e.tag = Tag.Tensor →
      e.toOptional_Tensor = .error (Fault.check_failed Check.not_a_Tensor) ∧
      e.to_optional_Tensor = .error (Fault.check_failed Check.not_a_Tensor)) ∧
    (∀ l : BoxedEvalueList (Option Tensor),
      (∀ p ∈ l.wrapped_vals_, ∃ a, p = some a ∧ ((w.values a).tag = Tag.None ∨
        ∃ t, w.values a = { payload := .as_tensor t, tag := Tag.Tensor })) →
      ∃ w1 v, BoxedEvalueList.get_optional_Tensor w l = .ok (w1, v) ∧
        (w1.read_optional_Tensor v).length = l.wrapped_vals_.length ∧
        ∀ i, i < l.wrapped_vals_.length → ∃ a, l.wrapped_vals_[i]? = some (some a) ∧
          ((w.values a).tag = Tag.None → (w1.read_optional_Tensor v)[i]? = some none) ∧
          (∀ t, w.values a = { payload := .as_tensor t, tag := Tag.Tensor } →
            (w1.read_optional_Tensor v)[i]? = some (some t))) := by
  obtain ⟨hnone, hten, hoth⟩ := toOptional_Tensor_cases e
  refine ⟨fun h => ⟨hnone h, hnone h⟩, ?_, fun h1 h2 => ⟨hoth h1 h2, hoth h1 h2⟩, ?_⟩
  · intro ht hi
    obtain ⟨t, he⟩ := payload_of_tag_Tensor e ht hi
    exact ⟨t, by rw [he], hten t he, hten t he⟩
  · intro l hl
    have hconv : ∀ p ∈ l.wrapped_vals_, ∃ a x, p = some a ∧
        EValue.to_optional_Tensor (w.values a) = .ok x := by
      intro p hp
      obtain ⟨a, hpa, hk⟩ := hl p hp
      rcases hk with hk | ⟨t, hk⟩
      · exact ⟨a, none, hpa, (toOptional_Tensor_cases _).1 hk⟩
      · exact ⟨a, some t, hpa, (toOptional_Tensor_cases _).2.1 t hk⟩
    obtain ⟨w1, hrun, _, hcells, _⟩ :=
      get_loop_spec EValue.to_optional_Tensor World.assign_optional_Tensor
        (fun w => w.optional_tensor_mem) assign_optional_Tensor_values
        (fun w b i v => by simp only [assign_optional_Tensor_mem]; exact upd2_same _ b i v)
        (fun w b i v x y h => by
          simp only [assign_optional_Tensor_mem]; exact upd2_other _ b i v x y h)
        l.unwrapped_vals_ l.wrapped_vals_ 0 w hconv
    refine ⟨w1, { data := l.unwrapped_vals_, size := l.wrapped_vals_.length }, ?_,
      by simp [World.read_optional_Tensor], ?_⟩
    · simp only [BoxedEvalueList.get_optional_Tensor, hrun]
      rfl
    · intro i hi
      obtain ⟨a, hget, hx⟩ := hcells i hi
      rw [Nat.zero_add] at hx
      refine ⟨a, hget, ?_, ?_⟩
      · intro hk
        rw [read_optional_Tensor_getElem w1 _ i hi]
        have h2 := (toOptional_Tensor_cases (w.values a)).1 hk
        have h3 : EValue.toOptional_Tensor (w.values a) =
            .ok (w1.optional_tensor_mem l.unwrapped_vals_ i) := hx
        rw [h2] at h3
        simp only [Except.ok.injEq] at h3
        rw [← h3]
      · intro t hk
        rw [read_optional_Tensor_getElem w1 _ i hi]
        have h2 := (toOptional_Tensor_cases (w.values a)).2.1 t hk
        have h3 : EValue.toOptional_Tensor (w.values a) =
            .ok (w1.optional_tensor_mem l.unwrapped_vals_ i) := hx
        rw [h2] at h3
        simp only [Except.ok.injEq] at h3
        rw [← h3]

/-- C14. An empty BoxedEvalueList materializes to an empty sequence. Whatever
the world holds, the loop of get over no position returns at once with the
world as it was, for every element type; the members get for int64_t, for
Tensor and for optional Tensor succeed with the view of length 0 over the
scratch buffer, the world unchanged (no table entry is read, no scratch cell
written), and the sequence read through that view is empty. -/
theorem C14_empty_list_materializes_empty (w : World) (base : Nat) :
    (∀ (T : Type) (to_T : EValue → Result T) (assign : World → Nat → Nat → T → World) (i : Nat),
      BoxedEvalueList.get_loop to_T assign base [] i w = .ok w) ∧
    BoxedEvalueList.get_int64_t w (BoxedEvalueList.ctor [] base) =
      .ok (w, { data := base, size := 0 }) ∧
    w.read_int64 { data := base, size := 0 } = [] ∧
    BoxedEvalueList.get_Tensor w (BoxedEvalueList.ctor [] base) =
      .ok (w, { data := base, size := 0 }) ∧
    w.read_Tensor { data := base, size := 0 } = [] ∧
    BoxedEvalueList.get_optional_Tensor w (BoxedEvalueList.ctor [] base) =
      .ok (w, { data := base, size := 0 }) ∧
    w.read_optional_Tensor { data := base, size := 0 } = [] :=
  ⟨fun _ _ _ _ => rfl, rfl, rfl, rfl, rfl, rfl, rfl⟩

/-- C15. Tensor accessor ownership shapes. On a Tensor-tagged EValue that obeys
the representation invariant and holds the tensor t: the consuming toTensor
returns t and leaves the source tagged None with as_int zero; the mutable
reference and the const reference shapes return t. None of the three takes or
returns the world, so no count, no scratch cell and no other object can
change, and the two reference shapes do not return a new source either. The
reference held by the source moves with the result of the consuming shape:
destroying the source before the call tears t down once, destroying the
source left by the call tears nothing down. -/
theorem C15_toTensor_ownership_shapes (w : World) (e : EValue) (ht : e.tag = Tag.Tensor)
    (hi : e.tag_identifies_payload) :
    ∃ t, e.payload = .as_tensor t ∧
      e.toTensor_rvalue =
        .ok (t, { payload := .copyable_union (.as_int 0), tag := Tag.None }) ∧
      e.toTensor_ref = .ok t ∧
      e.toTensor_const_ref = .ok t ∧
      e.destroy w = .ok (Tensor.destruct w t) ∧
      (∀ r, e.toTensor_rvalue = .ok r → r.2.destroy w = .ok w) := by
  obtain ⟨t, rfl⟩ := payload_of_tag_Tensor e ht hi
  refine ⟨t, rfl, rfl, rfl, rfl, rfl, ?_⟩
  intro r hr
  have h2 : r = (t, { payload := .copyable_union (.as_int 0), tag := Tag.None }) := by
    have h3 : (Except.ok (t, ({ payload := .copyable_union (.as_int 0), tag := Tag.None } :
        EValue)) : Result (Tensor × EValue)) = .ok r := hr
    exact (Except.ok.inj h3).symm
  rw [h2]
  rfl

/-- C15 at a concrete input: object 3 of the sample world, which holds handle 7. -/
theorem C15_toTensor_ownership_shapes_witness :
    (World.sample.values 3).tag = Tag.Tensor ∧
    (World.sample.values 3).tag_identifies_payload ∧
    ∃ t, (World.sample.values 3).payload = .as_tensor t ∧
      (World.sample.values 3).toTensor_rvalue =
        .ok (t, { payload := .copyable_union (.as_int 0), tag := Tag.None }) ∧
      (World.sample.values 3).toTensor_ref = .ok t ∧
      (World.sample.values 3).toTensor_const_ref = .ok t ∧
      (World.sample.values 3).destroy World.sample = .ok (Tensor.destruct World.sample t) ∧
      (∀ r, (World.sample.values 3).toTensor_rvalue = .ok r →
        r.2.destroy World.sample = .ok World.sample) :=
  ⟨rfl, by decide,
    C15_toTensor_ownership_shapes World.sample (World.sample.values 3) rfl (by decide)⟩

/-! ### Reinterpreted logical types, dereferencing constructor, default value -/

/-- C16. Reinterpreted logical types, for any target enumerations and any casts
from int64_t to them. On an EValue that obeys the representation invariant,
each of toScalarType, toMemoryFormat, toLayout and toDevice succeeds exactly
when the tag is Int. On an Int EValue holding i they return the cast of i,
whatever i is, toDevice pairing the cast device type with the index -1; on any
other tag each fails with its own check. In particular the accessors applied
to the EValue constructed from any i return the cast of i. -/
theorem C16_reinterpreted_logical_types {S M L D : Type} (cs : Int → S) (cm : Int → M)
    (cl : Int → L) (cd : Int → D) (e : EValue) :
    (e.tag_identifies_payload →
      ((∃ x, e.toScalarType cs = .ok x) ↔ e.tag = Tag.Int) ∧
      ((∃ x, e.toMemoryFormat cm = .ok x) ↔ e.tag = Tag.Int) ∧
      ((∃ x, e.toLayout cl = .ok x) ↔ e.tag = Tag.Int) ∧
      ((∃ x, e.toDevice cd = .ok x) ↔ e.tag = Tag.Int)) ∧
    (∀ i, e = { payload := .copyable_union (.as_int i), tag := Tag.Int } →
      e.toScalarType cs = .ok (cs i) ∧ e.toMemoryFormat cm = .ok (cm i) ∧
      e.toLayout cl = .ok (cl i) ∧ e.toDevice cd = .ok { type := cd i, index := -1 }) ∧
    (¬ e.tag = Tag.Int →
      e.toScalarType cs = .error (Fault.check_failed Check.not_a_ScalarType) ∧
      e.toMemoryFormat cm = .error (Fault.check_failed Check.not_a_MemoryFormat) ∧
      e.toLayout cl = .error (Fault.check_failed Check.not_a_Layout) ∧
      e.toDevice cd = .error (Fault.check_failed Check.not_a_Device)) ∧
    (∀ i : Int, (EValue.ctor_int64_t i).toScalarType cs = .ok (cs i) ∧
      (EValue.ctor_int64_t i).toMemoryFormat cm = .ok (cm i) ∧
      (EValue.ctor_int64_t i).toLayout cl = .ok (cl i) ∧
      (EValue.ctor_int64_t i).toDevice cd = .ok { type := cd i, index := -1 }) := by
  have hok : ∀ i, e = { payload := .copyable_union (.as_int i), tag := Tag.Int } →
      e.toScalarType cs = .ok (cs i) ∧ e.toMemoryFormat cm = .ok (cm i) ∧
      e.toLayout cl = .ok (cl i) ∧ e.toDevice cd = .ok { type := cd i, index := -1 } := by
    intro i he
    subst he
    exact ⟨rfl, rfl, rfl, rfl⟩
  have hbad : ¬ e.tag = Tag.Int →
      e.toScalarType cs = .error (Fault.check_failed Check.not_a_ScalarType) ∧
      e.toMemoryFormat cm = .error (Fault.check_failed Check.not_a_MemoryFormat) ∧
      e.toLayout cl = .error (Fault.check_failed Check.not_a_Layout) ∧
      e.toDevice cd = .error (Fault.check_failed Check.not_a_Device) := by
    intro h
    refine ⟨?_, ?_, ?_, ?_⟩
    · simp only [EValue.toScalarType, EValue.isInt, h, decide_False, ET_CHECK_MSG_false_bind]
    · simp only [EValue.toMemoryFormat, EValue.isInt, h, decide_False, ET_CHECK_MSG_false_bind]
    · simp only [EValue.toLayout, EValue.isInt, h, decide_False, ET_CHECK_MSG_false_bind]
    · simp only [EValue.toDevice, EValue.isInt, h, decide_False, ET_CHECK_MSG_false_bind]
  refine ⟨?_, hok, hbad, fun i => ⟨rfl, rfl, rfl, rfl⟩⟩
  intro hi
  by_cases ht : e.tag = Tag.Int
  · obtain ⟨i, he⟩ := payload_of_tag_Int e ht hi
    obtain ⟨h1, h2, h3, h4⟩ := hok i he
    exact ⟨⟨fun _ => ht, fun _ => ⟨_, h1⟩⟩, ⟨fun _ => ht, fun _ => ⟨_, h2⟩⟩,
      ⟨fun _ => ht, fun _ => ⟨_, h3⟩⟩, ⟨fun _ => ht, fun _ => ⟨_, h4⟩⟩⟩
  · obtain ⟨h1, h2, h3, h4⟩ := hbad ht
    refine ⟨⟨?_, fun h => absurd h ht⟩, ⟨?_, fun h => absurd h ht⟩,
      ⟨?_, fun h => absurd h ht⟩, ⟨?_, fun h => absurd h ht⟩⟩
    · rintro ⟨x, hx⟩
      rw [h1] at hx
      cases hx
    · rintro ⟨x, hx⟩
      rw [h2] at hx
      cases hx
    · rintro ⟨x, hx⟩
      rw [h3] at hx
      cases hx
    · rintro ⟨x, hx⟩
      rw [h4] at hx
      cases hx

/-- C16 at concrete inputs, the casts keeping the low eight bits: the Int EValue
300 and the tensor object 3 of the sample world. -/
theorem C16_reinterpreted_logical_types_witness :
    ((EValue.ctor_int64_t 300).toScalarType (fun i => i % 256) = .ok 44 ∧
      (EValue.ctor_int64_t 300).toDevice (fun i => i % 256) =
        .ok { type := 44, index := -1 }) ∧
    ¬ (World.sample.values 3).tag = Tag.Int ∧
    (World.sample.values 3).toLayout (fun i => i % 256) =
      .error (Fault.check_failed Check.not_a_Layout) := by
  have h1 := (C16_reinterpreted_logical_types (fun i => i % 256) (fun i => i % 256)
    (fun i => i % 256) (fun i => i % 256) (EValue.ctor_int64_t 300)).2.1 300 rfl
  have h2 := (C16_reinterpreted_logical_types (fun i => i % 256) (fun i => i % 256)
    (fun i => i % 256) (fun i => i % 256) (World.sample.values 3)).2.2.1 (by decide)
  exact ⟨⟨h1.1, h1.2.2.2⟩, by decide, h2.2.2.1⟩

/-- C17. Dereferencing-wrapper constructor, for any pointee type and any
conversion of the pointee to an EValue. From a wrapper that compares equal to
nullptr the constructor fails with the null pointer check. From a wrapper
whose pointee x converts to an EValue obeying the representation invariant it
succeeds, and the new object equals that EValue, tag and payload, the tag
being set by moveFrom; the objects and the counts of the world are those left
by the conversion. For an int64_t pointee i the result is the EValue
constructed from i and the world is unchanged. -/
theorem C17_dereferencing_constructor {U : Type} (convert : World → U → World × EValue)
    (w : World) :
    EValue.ctor_deref convert w none = .error (Fault.check_failed Check.pointer_is_null) ∧
    (∀ x, (convert w x).2.tag_identifies_payload →
      ∃ w1, EValue.ctor_deref convert w (some x) = .ok (w1, (convert w x).2) ∧
        w1.values = (convert w x).1.values ∧ w1.refcount = (convert w x).1.refcount) ∧
    (∀ i : Int, EValue.ctor_deref (fun w0 j => (w0, EValue.ctor_int64_t j)) w (some i) =
      .ok (w, EValue.ctor_int64_t i)) := by
  refine ⟨rfl, ?_, fun i => rfl⟩
  intro x hx
  obtain ⟨w1, h1, hv, hr, _⟩ := moveFrom_spec (convert w x).1 (convert w x).2 hx
  refine ⟨w1, ?_, hv, hr⟩
  simp only [EValue.ctor_deref, Option.isSome_some, ET_CHECK_MSG_true_bind, h1, bind,
    Except.bind, destroy_trivial w1 EValue.ctor_None (by simp [EValue.ctor_None])]
  rfl

/-- C17 at a concrete input: a wrapper around the tensor handle 7, converted by
the Tensor constructor, in the sample world. -/
theorem C17_dereferencing_constructor_witness :
    EValue.ctor_deref EValue.ctor_Tensor World.sample none =
      .error (Fault.check_failed Check.pointer_is_null) ∧
    (EValue.ctor_Tensor World.sample { impl := some 7 }).2.tag_identifies_payload ∧
    ∃ w1, EValue.ctor_deref EValue.ctor_Tensor World.sample (some { impl := some 7 }) =
        .ok (w1, (EValue.ctor_Tensor World.sample { impl := some 7 }).2) ∧
      w1.values = (EValue.ctor_Tensor World.sample { impl := some 7 }).1.values ∧
      w1.refcount = (EValue.ctor_Tensor World.sample { impl := some 7 }).1.refcount :=
  ⟨(C17_dereferencing_constructor EValue.ctor_Tensor World.sample).1, by decide,
    (C17_dereferencing_constructor EValue.ctor_Tensor World.sample).2.1 { impl := some 7 }
      (by decide)⟩

/-- C19. A default-constructed EValue is tagged None, isNone holds on it and
its payload is as_int zero. It is equal, tag and payload, to what clearToNone
makes of any EValue, hence to the source left by moveFrom and to the source
left by the consuming toTensor whenever these complete. -/
theorem C19_default_is_cleared_none (w : World) (e : EValue) :
    EValue.ctor_None.tag = Tag.None ∧ EValue.ctor_None.isNone = true ∧
    EValue.ctor_None.payload = .copyable_union (.as_int 0) ∧
    e.clearToNone = EValue.ctor_None ∧
    (∀ r, EValue.moveFrom w e = .ok r → r.2.2 = EValue.ctor_None) ∧
    (∀ r, e.toTensor_rvalue = .ok r → r.2 = EValue.ctor_None) ∧
    (e.tag_identifies_payload → ∃ r, EValue.moveFrom w e = .ok r) ∧
    (e.tag = Tag.Tensor → e.tag_identifies_payload → ∃ r, e.toTensor_rvalue = .ok r) := by
  refine ⟨rfl, rfl, rfl, rfl, ?_, ?_, ?_, ?_⟩
  · intro r hr
    unfold EValue.moveFrom at hr
    split_ifs at hr
    · cases hp : e.payload.read_as_tensor with
      | error f => simp [hp, bind, Except.bind] at hr
      | ok t =>
        simp only [hp, bind, Except.bind, pure, Except.pure, Except.ok.injEq] at hr
        rw [← hr]
        rfl
    · cases hp : e.payload.read_copyable_union with
      | error f => simp [hp, bind, Except.bind] at hr
      | ok c =>
        simp only [hp, bind, Except.bind, pure, Except.pure, Except.ok.injEq] at hr
        rw [← hr]
        rfl
  · intro r hr
    unfold EValue.toTensor_rvalue at hr
    cases hc : ET_CHECK_MSG e.isTensor Check.not_a_Tensor with
    | error f => simp [hc, bind, Except.bind] at hr
    | ok u =>
      cases hp : e.payload.read_as_tensor with
      | error f => simp [hc, hp, bind, Except.bind] at hr
      | ok t =>
        simp only [hc, hp, bind, Except.bind, pure, Except.pure, Except.ok.injEq] at hr
        rw [← hr]
        rfl
  · intro hi
    obtain ⟨w1, h1, _⟩ := moveFrom_spec w e hi
    exact ⟨_, h1⟩
  · intro ht hi
    obtain ⟨t, rfl⟩ := payload_of_tag_Tensor e ht hi
    exact ⟨_, rfl⟩

/-- C19 at a concrete input: the tensor object 3 of the sample world, moved
from and consumed. -/
theorem C19_default_is_cleared_none_witness :
    (∃ r, EValue.moveFrom World.sample (World.sample.values 3) = .ok r ∧
      r.2.2 = EValue.ctor_None) ∧
    (∃ r, (World.sample.values 3).toTensor_rvalue = .ok r ∧ r.2 = EValue.ctor_None) := by
  have h := C19_default_is_cleared_none World.sample (World.sample.values 3)
  obtain ⟨r1, hr1⟩ := h.2.2.2.2.2.2.1 (by decide)
  obtain ⟨r2, hr2⟩ := h.2.2.2.2.2.2.2 rfl (by decide)
  exact ⟨⟨r1, hr1, h.2.2.2.2.1 r1 hr1⟩, ⟨r2, hr2, h.2.2.2.2.2.1 r2 hr2⟩⟩

/-! ### Assignment and the representation invariant -/

/-- The objects after a completed move assignment from a source that obeys
the representation invariant: nothing changed for a self assignment;
otherwise the destination holds the source as it was, the source is the
default EValue, every other object is as it was. -/
theorem move_assign_values (w w1 : World) (this rhs : Nat)
    (hinv : (w.values rhs).tag_identifies_payload)
    (h : EValue.operator_assign_move w this rhs = .ok w1) :
    w1.values = if rhs = this then w.values
      else upd (upd w.values this (w.values rhs)) rhs EValue.ctor_None := by
  unfold EValue.operator_assign_move at h
  by_cases hs : rhs = this
  · simp only [hs, if_true, pure, Except.pure, Except.ok.injEq] at h ⊢
    rw [← h]
  · simp only [hs, if_false] at h ⊢
    cases hd : EValue.destroy w (w.values this) with
    | error f => simp [hd, bind, Except.bind] at h
    | ok w0 =>
      have hv0 := destroy_values w w0 _ hd
      have hinv0 : (w0.values rhs).tag_identifies_payload := by rw [hv0]; exact hinv
      obtain ⟨w2, h2, hv2, _⟩ := moveFrom_spec w0 (w0.values rhs) hinv0
      simp only [hd, bind, Except.bind, h2, pure, Except.pure, Except.ok.injEq] at h
      rw [← h]
      simp only [hv2, hv0]

/-- Each of the eleven constructors builds an EValue whose tag names the
active member of its payload. -/
theorem Constructed_tag_identifies_payload (e : EValue) (h : Constructed e) :
    e.tag_identifies_payload := by
  cases h <;> exact trivial

/-- C18. Tag and payload consistency is an invariant. In every world reachable
from objects built by the constructors through copy construction, move
construction, copy and move assignment and the consuming toTensor, every
object, moved-from and consumed sources included, has a tag that names the
active member of its payload; so the tensor member is the active one exactly
when the tag is Tensor, and the data sits in the trivially copyable part
exactly when the tag is another one. -/
theorem C18_tag_payload_invariant (w : World) (h : Reachable w) (a : Nat) :
    (w.values a).tag_identifies_payload ∧
    ((w.values a).tag = Tag.Tensor ↔ ∃ t, (w.values a).payload = .as_tensor t) ∧
    (¬ (w.values a).tag = Tag.Tensor ↔ ∃ c, (w.values a).payload = .copyable_union c) := by
  have hinv : ∀ w, Reachable w → ∀ a, (w.values a).tag_identifies_payload := by
    intro w h
    induction h with
    | start w hc => exact fun a => Constructed_tag_identifies_payload _ (hc a)
    | construct w b e _ hc ih =>
      intro a
      simp only [World.put, upd_apply]
      split_ifs
      · exact Constructed_tag_identifies_payload _ hc
      · exact ih a
    | copy_construct w w1 a0 b B _ hc ih =>
      intro a
      obtain ⟨wc, hc2, hvc, _⟩ := ctor_copy_spec w (w.values a0) (ih a0)
      rw [hc2] at hc
      simp only [Except.ok.injEq, Prod.mk.injEq] at hc
      obtain ⟨hw, hB⟩ := hc
      subst hw hB
      simp only [World.put, upd_apply, hvc]
      split_ifs
      · exact ih a0
      · exact ih a
    | move_construct w w1 a0 b B A1 _ hm ih =>
      intro a
      obtain ⟨wm, hm2, hvm, _⟩ := moveFrom_spec w (w.values a0) (ih a0)
      have hm3 : EValue.moveFrom w (w.values a0) = .ok (w1, B, A1) := hm
      rw [hm2] at hm3
      simp only [Except.ok.injEq, Prod.mk.injEq] at hm3
      obtain ⟨hw, hB, hA⟩ := hm3
      subst hw hB hA
      simp only [World.put, upd_apply, hvm]
      split_ifs
      · decide
      · exact ih a0
      · exact ih a
    | move_assign w w1 this rhs _ hm ih =>
      intro a
      rw [move_assign_values w w1 this rhs (ih rhs) hm]
      split_ifs
      · exact ih a
      · simp only [upd_apply]
        split_ifs
        · decide
        · exact ih rhs
        · exact ih a
    | copy_assign w w1 this rhs _ hm ih =>
      intro a
      rw [copy_assign_values w w1 this rhs (ih rhs) hm]
      simp only [upd_apply]
      split_ifs
      · exact ih rhs
      · exact ih a
    | consume w a0 t e1 _ hc ih =>
      intro a
      have he1 : e1 = EValue.ctor_None := by
        unfold EValue.toTensor_rvalue at hc
        cases hk : ET_CHECK_MSG (w.values a0).isTensor Check.not_a_Tensor with
        | error f => simp [hk, bind, Except.bind] at hc
        | ok u =>
          cases hp : (w.values a0).payload.read_as_tensor with
          | error f => simp [hk, hp, bind, Except.bind] at hc
          | ok t2 =>
            simp only [hk, hp, bind, Except.bind, pure, Except.pure, Except.ok.injEq,
              Prod.mk.injEq] at hc
            rw [← hc.2]
            rfl
      subst he1
      simp only [World.put, upd_apply]
      split_ifs
      · decide
      · exact ih a
  have hi := hinv w h a
  refine ⟨hi, ⟨fun ht => ?_, fun ⟨t, ht⟩ => ?_⟩, ⟨fun ht => ?_, fun ⟨c, hc⟩ ht => ?_⟩⟩
  · obtain ⟨t, he⟩ := payload_of_tag_Tensor _ ht hi
    exact ⟨t, by rw [he]⟩
  · by_contra hne
    obtain ⟨c, hc⟩ := payload_of_tag_not_Tensor _ hne hi
    rw [hc] at ht
    cases ht
  · exact payload_of_tag_not_Tensor _ ht hi
  · obtain ⟨t, he⟩ := payload_of_tag_Tensor _ ht hi
    rw [he] at hc
    cases hc

/-- Every object of the sample world was built by a constructor. -/
theorem sample_Constructed (a : Nat) : Constructed (World.sample.values a) := by
  rcases a with _ | _ | _ | _ | _ | _ | _ | a
  · exact Constructed.int64_t 5
  · exact Constructed.int64_t 10
  · exact Constructed.int64_t 20
  · exact Constructed.tensor World.example { impl := some 7 }
  · exact Constructed.tensor World.example { impl := some 8 }
  · exact Constructed.tensor_list _
  · exact Constructed.tensor_list _
  · exact Constructed.none

/-- C18 at a concrete input: the sample world after the tensor object 4 was
move-assigned to the tensor object 3. -/
theorem C18_tag_payload_invariant_witness :
    ∃ w1, EValue.operator_assign_move World.sample 3 4 = .ok w1 ∧ Reachable w1 ∧
      (w1.values 3).tag_identifies_payload ∧ (w1.values 4).tag_identifies_payload := by
  have hex : ∃ w1, EValue.operator_assign_move World.sample 3 4 = .ok w1 := by
    cases h : EValue.operator_assign_move World.sample 3 4 with
    | ok w1 => exact ⟨w1, rfl⟩
    | error f =>
      have h2 : (EValue.operator_assign_move World.sample 3 4).toOption.isSome = true := by
        decide
      rw [h] at h2
      cases h2
  obtain ⟨w1, h1⟩ := hex
  have hr : Reachable w1 :=
    Reachable.move_assign World.sample w1 3 4 (Reachable.start _ sample_Constructed) h1
  exact ⟨w1, h1, hr, (C18_tag_payload_invariant w1 hr 3).1, (C18_tag_payload_invariant w1 hr 4).1⟩

/-- C20, the claim as stated fails. In the sample world object 6 is a tensor
list whose position refers to an Int entry; copy-assigning the Int object 0 to
it stops in the fatal tensor check of the teardown of the destination, so no
state in which the destination holds the payload of the source is reached. -/
theorem C20_copy_assignment_can_abort :
    (World.sample.values 0).tag_identifies_payload ∧
    EValue.operator_assign_copy World.sample 6 0 =
      .error (Fault.check_failed Check.not_a_Tensor) ∧
    ¬ ∃ w1, EValue.operator_assign_copy World.sample 6 0 = .ok w1 ∧
      w1.values 6 = World.sample.values 0 := by
  have h : EValue.operator_assign_copy World.sample 6 0 =
      .error (Fault.check_failed Check.not_a_Tensor) := rfl
  refine ⟨by decide, h, ?_⟩
  rintro ⟨w1, h1, _⟩
  rw [h] at h1
  cases h1

/-- C20, amended. Copy assignment runs the copy constructor on the source, then
the move assignment from that temporary. For every source A, at address a,
that obeys the representation invariant, the copy succeeds and equals A; and
for every destination, at address b, whose destroy completes in the world
the copy left, the assignment succeeds: b holds the tag and the payload of A,
a still holds A, and every object other than b is as it was. For the self
copy-assignment of a Tensor-tagged A holding t the assignment succeeds, a
still holds t, every count is what it was (one share by the temporary, one
teardown of the old payload, which the log shows, followed by the teardown of
the emptied member of the temporary). -/
theorem C20_copy_assignment (w : World) (a b : Nat)
    (hA : (w.values a).tag_identifies_payload) :
    ∃ wc, EValue.ctor_copy w (w.values a) = .ok (wc, w.values a) ∧
      (∀ w0, (w.values b).destroy wc = .ok w0 →
        ∃ w2, EValue.operator_assign_copy w b a = .ok w2 ∧
          w2.values b = w.values a ∧ w2.values a = w.values a ∧
          ∀ c, c ≠ b → w2.values c = w.values c) ∧
      (∀ t, w.values a = { payload := .as_tensor t, tag := Tag.Tensor } →
        ∃ w2, EValue.operator_assign_copy w a a = .ok w2 ∧
          w2.values a = { payload := .as_tensor t, tag := Tag.Tensor } ∧
          (∀ h, w2.refcount h = w.refcount h) ∧
          w2.teardown_log = w.teardown_log ++ [t, { impl := none }]) := by
  obtain ⟨wc, hc, hvc, _⟩ := ctor_copy_spec w (w.values a) hA
  refine ⟨wc, hc, ?_, ?_⟩
  · intro w0 h0
    have hv0 := destroy_values wc w0 _ h0
    obtain ⟨w2, h2, hv2, _⟩ := moveFrom_spec w0 (w.values a) hA
    have hrun : EValue.operator_assign_copy w b a =
        .ok { w2 with values := upd w2.values b (w.values a) } := by
      simp only [EValue.operator_assign_copy, hc, bind, Except.bind, hvc, h0, h2]
      exact destroy_trivial _ EValue.ctor_None (by simp [EValue.ctor_None])
    refine ⟨_, hrun, ?_, ?_, ?_⟩
    · simp [upd_apply]
    · simp only [upd_apply, hv2, hv0, hvc]
      split_ifs with h
      · rfl
      · rfl
    · intro c hcb
      simp [upd_apply, hcb, hv2, hv0, hvc]
  · intro t ht
    have hcopy : EValue.ctor_copy w { payload := .as_tensor t, tag := Tag.Tensor } =
        .ok (w.retain t, { payload := .as_tensor t, tag := Tag.Tensor }) := rfl
    have hdes : ∀ W : World, EValue.destroy W { payload := .as_tensor t, tag := Tag.Tensor } =
        .ok (Tensor.destruct W t) := fun _ => rfl
    have hmove : ∀ W : World,
        EValue.moveFrom W { payload := .as_tensor t, tag := Tag.Tensor } =
          .ok (Tensor.destruct W { impl := none },
            { payload := .as_tensor t, tag := Tag.Tensor }, EValue.ctor_None) := fun _ => rfl
    have hnone : ∀ W : World, EValue.destroy W EValue.ctor_None = .ok W := fun _ => rfl
    have hrun : EValue.operator_assign_copy w a a =
        .ok { (Tensor.destruct (Tensor.destruct (w.retain t) t) { impl := none }) with
          values := upd (Tensor.destruct (Tensor.destruct (w.retain t) t)
            { impl := none }).values a { payload := .as_tensor t, tag := Tag.Tensor } } := by
      simp only [EValue.operator_assign_copy, hcopy, bind, Except.bind, retain_values, ht, hdes,
        hmove, hnone]
    refine ⟨_, hrun, ?_, ?_, ?_⟩
    · simp [upd_apply, ht]
    · intro h
      have hne : ¬ ({ impl := none } : Tensor) = { impl := some h } := by
        intro e
        cases e
      simp only [destruct_refcount, retain_refcount, hne, if_false]
      split_ifs <;> simp
    · simp [destruct_teardown_log, retain_teardown_log]

/-- C20 amended, at a concrete input: in the sample world the tensor object 4
is copy-assigned to the tensor object 3, and object 3 is copy-assigned to
itself. -/
theorem C20_copy_assignment_witness :
    (World.sample.values 4).tag_identifies_payload ∧
    (∃ w2, EValue.operator_assign_copy World.sample 3 4 = .ok w2 ∧
      w2.values 3 = World.sample.values 4 ∧ w2.values 4 = World.sample.values 4) ∧
    (∃ w2, EValue.operator_assign_copy World.sample 3 3 = .ok w2 ∧
      w2.values 3 = { payload := .as_tensor { impl := some 7 }, tag := Tag.Tensor } ∧
      w2.refcount 7 = World.sample.refcount 7) := by
  refine ⟨by decide, ?_, ?_⟩
  · obtain ⟨wc, hc, hassign, _⟩ := C20_copy_assignment World.sample 4 3 (by decide)
    have hwc : wc = World.sample.retain { impl := some 8 } := by
      have h2 : EValue.ctor_copy World.sample (World.sample.values 4) =
          .ok (World.sample.retain { impl := some 8 }, World.sample.values 4) := rfl
      rw [h2] at hc
      simp only [Except.ok.injEq, Prod.mk.injEq, and_true] at hc
      exact hc.symm
    subst hwc
    obtain ⟨w2, h2, hb, ha, _⟩ := hassign _ rfl
    exact ⟨w2, h2, hb, ha⟩
  · obtain ⟨wc, _, _, hself⟩ := C20_copy_assignment World.sample 3 3 (by decide)
    obtain ⟨w2, h2, hv, hr, _⟩ := hself { impl := some 7 } rfl
    exact ⟨w2, h2, hv, hr 7⟩

/-! ### Concrete instances, continued -/

/-- C11 at concrete inputs: the int list over the entries 1 and 2 of the sample
world after entry 2 was overwritten with a Double, and the tensor list of the
sample world over entry 3 and a null position. -/
theorem C11_materialization_failure_witness :
    (World.sample_overwritten.values 2).tag = Tag.Double ∧
    BoxedEvalueList.get_int64_t World.sample_overwritten
        (BoxedEvalueList.ctor [some 1, some 2] 12) =
      .error (Fault.check_failed Check.not_an_int) ∧
    (World.sample_overwritten.values 2).toInt = .error (Fault.check_failed Check.not_an_int) ∧
    BoxedEvalueList.get_Tensor World.sample (BoxedEvalueList.ctor [some 3, none] 9) =
      .error (Fault.check_failed Check.wrapped_val_is_nullptr) := by
  have hinv1 : ∀ a, some a ∈
      (BoxedEvalueList.ctor [some 1, some 2] 12 : BoxedEvalueList Int).wrapped_vals_ →
      (World.sample_overwritten.values a).tag_identifies_payload := by
    intro a ha
    simp only [BoxedEvalueList.ctor, List.mem_cons, Option.some.injEq, List.mem_singleton,
      List.not_mem_nil, or_false] at ha
    rcases ha with rfl | rfl <;> decide
  have hinv2 : ∀ a, some a ∈
      (BoxedEvalueList.ctor [some 3, none] 9 : BoxedEvalueList Tensor).wrapped_vals_ →
      (World.sample.values a).tag_identifies_payload := by
    intro a ha
    simp only [BoxedEvalueList.ctor, List.mem_cons, Option.some.injEq, List.mem_singleton,
      reduceCtorEq, List.not_mem_nil, or_false] at ha
    subst ha
    decide
  have hpre1 : ∀ q ∈ [some 1], ∃ a, q = some a ∧
      (World.sample_overwritten.values a).tag = Tag.Int := by
    intro q hq
    simp only [List.mem_singleton] at hq
    exact ⟨1, hq, rfl⟩
  have hpre2 : ∀ q ∈ [some 3], ∃ a, q = some a ∧ (World.sample.values a).tag = Tag.Tensor := by
    intro q hq
    simp only [List.mem_singleton] at hq
    exact ⟨3, hq, rfl⟩
  have h1 := (((C11_materialization_failure World.sample_overwritten).1 _ hinv1).2
    [some 1] (some 2) [] rfl hpre1).2.2 2 rfl rfl
  have h2 := (((C11_materialization_failure World.sample).2 _ hinv2).2
    [some 3] none [] rfl hpre2).1 rfl
  exact ⟨rfl, h1.1, h1.2, h2⟩

/-- C12 at a concrete input: the int list over the entries 1 and 2 of the
sample world, entry 2 then holding 99. -/
theorem C12_materialization_not_cached_witness :
    ∃ w1 v, BoxedEvalueList.get_int64_t World.sample (BoxedEvalueList.ctor [some 1, some 2] 12) =
        .ok (w1, v) ∧ w1.read_int64 v = [10, 20] ∧
      ∃ w3 v3, BoxedEvalueList.get_int64_t (w1.put 2 (EValue.ctor_int64_t 99))
          (BoxedEvalueList.ctor [some 1, some 2] 12) = .ok (w3, v3) ∧
        w3.read_int64 v3 = [10, 99] :=
  (C12_materialization_not_cached World.sample).2.2.1 12 1 2 10 20 99 (by decide) rfl rfl

/-- C13 at a concrete input: the optional tensor list over entry 3 of the
sample world, a tensor holding handle 7, and entry 7, which is tagged None. -/
theorem C13_optional_conversion_witness :
    (World.sample.values 7).tag = Tag.None ∧
    ∃ w1 v, BoxedEvalueList.get_optional_Tensor World.sample
        (BoxedEvalueList.ctor [some 3, some 7] 13) = .ok (w1, v) ∧
      w1.read_optional_Tensor v = [some { impl := some 7 }, none] := by
  have hl : ∀ p ∈ (BoxedEvalueList.ctor [some 3, some 7] 13 :
      BoxedEvalueList (Option Tensor)).wrapped_vals_,
      ∃ a, p = some a ∧ ((World.sample.values a).tag = Tag.None ∨
        ∃ t, World.sample.values a = { payload := .as_tensor t, tag := Tag.Tensor }) := by
    intro p hp
    simp only [BoxedEvalueList.ctor, List.mem_cons, List.mem_singleton, List.not_mem_nil,
      or_false] at hp
    rcases hp with rfl | rfl
    · exact ⟨3, rfl, Or.inr ⟨{ impl := some 7 }, rfl⟩⟩
    · exact ⟨7, rfl, Or.inl rfl⟩
  obtain ⟨w1, v, hrun, _, _⟩ :=
    (C13_optional_conversion World.sample (World.sample.values 7)).2.2.2 _ hl
  refine ⟨rfl, w1, v, hrun, ?_⟩
  have h2 := congrArg (fun r => r.toOption.map (fun q => q.1.read_optional_Tensor q.2)) hrun
  have h3 : some (w1.read_optional_Tensor v) = some [some { impl := some 7 }, none] := by
    rw [← (show _ = some (w1.read_optional_Tensor v) from h2)]
    decide
  exact Option.some.inj h3

/-! ### Scalar conversion -/

theorem payload_of_tag_Double (e : EValue) (ht : e.tag = Tag.Double)
    (hi : e.tag_identifies_payload) :
    ∃ d, e = { payload := .copyable_union (.as_double d), tag := Tag.Double } := by
  obtain ⟨payload, tag⟩ := e
  simp only at ht
  subst ht
  cases payload with
  | as_tensor t => simp [EValue.tag_identifies_payload] at hi
  | copyable_union c => cases c <;> simp [EValue.tag_identifies_payload] at hi ⊢

theorem payload_of_tag_Bool (e : EValue) (ht : e.tag = Tag.Bool)
    (hi : e.tag_identifies_payload) :
    ∃ b, e = { payload := .copyable_union (.as_bool b), tag := Tag.Bool } := by
  obtain ⟨payload, tag⟩ := e
  simp only at ht
  subst ht
  cases payload with
  | as_tensor t => simp [EValue.tag_identifies_payload] at hi
  | copyable_union c => cases c <;> simp [EValue.tag_identifies_payload] at hi ⊢

/-- The accessor toScalar fails with its own check when isScalar does not hold. -/
theorem toScalar_of_not_isScalar (e : EValue) (h : e.isScalar = false) :
    e.toScalar = .error (Fault.check_failed Check.not_a_Scalar) := by
  simp only [EValue.isScalar, Bool.or_eq_false_iff, decide_eq_false_iff_not] at h
  obtain ⟨⟨h1, h2⟩, h3⟩ := h
  simp only [EValue.toScalar, EValue.isDouble, EValue.isInt, EValue.isBool, h1, h2, h3,
    decide_False, Bool.false_eq_true, if_false, ET_CHECK_MSG_false_bind]

/-- C21. Scalar conversion. The constructor from a Scalar yields the Int EValue
of an integral scalar, the Double EValue of a floating-point scalar, the Bool
EValue of a boolean scalar, and fails with its check on a scalar that is none
of these. The predicate isScalar holds exactly when the tag is Int, Double or
Bool. On an EValue that obeys the representation invariant toScalar succeeds
exactly when isScalar holds, and it fails with its check whenever isScalar
does not hold. For every scalar s on which the constructor succeeds, toScalar
of the constructed EValue returns s itself, kind and value. -/
theorem C21_scalar_conversion (s : Scalar) (e : EValue) :
    (∀ i, EValue.ctor_Scalar (Scalar.integral i) = .ok (EValue.ctor_int64_t i)) ∧
    (∀ d, EValue.ctor_Scalar (Scalar.floating d) = .ok (EValue.ctor_double d)) ∧
    (∀ b, EValue.ctor_Scalar (Scalar.boolean b) = .ok (EValue.ctor_bool b)) ∧
    EValue.ctor_Scalar Scalar.other =
      .error (Fault.check_failed Check.scalar_not_initialized) ∧
    (s.isIntegral false = true → ∃ x, EValue.ctor_Scalar s = .ok x ∧ x.tag = Tag.Int) ∧
    (s.isIntegral false = false → s.isFloatingPoint = true →
      ∃ x, EValue.ctor_Scalar s = .ok x ∧ x.tag = Tag.Double) ∧
    (s.isIntegral false = false → s.isFloatingPoint = false → s.isBoolean = true →
      ∃ x, EValue.ctor_Scalar s = .ok x ∧ x.tag = Tag.Bool) ∧
    (s.isIntegral false = false → s.isFloatingPoint = false → s.isBoolean = false →
      EValue.ctor_Scalar s = .error (Fault.check_failed Check.scalar_not_initialized)) ∧
    (e.isScalar = true ↔ (e.tag = Tag.Int ∨ e.tag = Tag.Double ∨ e.tag = Tag.Bool)) ∧
    (e.tag_identifies_payload → ((∃ x, e.toScalar = .ok x) ↔ e.isScalar = true)) ∧
    (e.isScalar = false → e.toScalar = .error (Fault.check_failed Check.not_a_Scalar)) ∧
    (∀ x, EValue.ctor_Scalar s = .ok x → x.toScalar = .ok s) := by
  refine ⟨fun _ => rfl, fun _ => rfl, fun _ => rfl, rfl, ?_, ?_, ?_, ?_, ?_, ?_,
    toScalar_of_not_isScalar e, ?_⟩
  · intro h
    cases s <;> simp [Scalar.isIntegral] at h
    exact ⟨_, rfl, rfl⟩
  · intro _ h
    cases s <;> simp [Scalar.isFloatingPoint] at h
    exact ⟨_, rfl, rfl⟩
  · intro _ _ h
    cases s <;> simp [Scalar.isBoolean] at h
    exact ⟨_, rfl, rfl⟩
  · intro h1 h2 h3
    cases s
    · simp [Scalar.isIntegral] at h1
    · simp [Scalar.isFloatingPoint] at h2
    · simp [Scalar.isBoolean] at h3
    · rfl
  · simp only [EValue.isScalar, Bool.or_eq_true, decide_eq_true_eq, or_assoc]
  · intro hi
    constructor
    · rintro ⟨x, hx⟩
      by_contra hns
      have hf : e.isScalar = false := by simpa using hns
      rw [toScalar_of_not_isScalar e hf] at hx
      cases hx
    · intro hs
      simp only [EValue.isScalar, Bool.or_eq_true, decide_eq_true_eq] at hs
      rcases hs with (ht | ht) | ht
      · obtain ⟨i, rfl⟩ := payload_of_tag_Int e ht hi
        exact ⟨_, rfl⟩
      · obtain ⟨d, rfl⟩ := payload_of_tag_Double e ht hi
        exact ⟨_, rfl⟩
      · obtain ⟨b, rfl⟩ := payload_of_tag_Bool e ht hi
        exact ⟨_, rfl⟩
  · intro x hx
    cases s with
    | integral i =>
      have h2 : (Except.ok (EValue.ctor_int64_t i) : Result EValue) = .ok x := hx
      rw [← Except.ok.inj h2]
      rfl
    | floating d =>
      have h2 : (Except.ok (EValue.ctor_double d) : Result EValue) = .ok x := hx
      rw [← Except.ok.inj h2]
      rfl
    | boolean b =>
      have h2 : (Except.ok (EValue.ctor_bool b) : Result EValue) = .ok x := hx
      rw [← Except.ok.inj h2]
      rfl
    | other => cases hx

/-- C21 at concrete inputs: the integral scalar 5 and the tensor object 3 of
the sample world. -/
theorem C21_scalar_conversion_witness :
    (∃ x, EValue.ctor_Scalar (Scalar.integral 5) = .ok x ∧ x.tag = Tag.Int ∧
      x.toScalar = .ok (Scalar.integral 5)) ∧
    (World.sample.values 3).isScalar = false ∧
    (World.sample.values 3).toScalar = .error (Fault.check_failed Check.not_a_Scalar) := by
  have h := C21_scalar_conversion (Scalar.integral 5) (World.sample.values 3)
  obtain ⟨x, hx, ht⟩ := h.2.2.2.2.1 rfl
  exact ⟨⟨x, hx, ht, h.2.2.2.2.2.2.2.2.2.2.2 x hx⟩, rfl, h.2.2.2.2.2.2.2.2.2.2.1 rfl⟩

/-! ### Materialization leaves the table alone; destruction of a tensor list re-reads it -/

/-- C22. Materialization does not modify the value table. Whenever get succeeds
on a list of int64_t or of Tensor, no EValue object was written: every
referenced entry has the tag and the payload it had (a Tensor entry is still
tagged Tensor and holds the same tensor); and a second get right after it,
with no table write in between, succeeds and returns the same sequence. -/
theorem C22_materialization_leaves_table (w : World) :
    (∀ (l : BoxedEvalueList Int) (w1 : World) (v : ArrayRef Int),
      BoxedEvalueList.get_int64_t w l = .ok (w1, v) →
      w1.values = w.values ∧
      (∀ a, some a ∈ l.wrapped_vals_ → (w1.values a).tag = (w.values a).tag ∧
        (w1.values a).payload = (w.values a).payload) ∧
      ∃ w2 v2, BoxedEvalueList.get_int64_t w1 l = .ok (w2, v2) ∧
        w2.read_int64 v2 = w1.read_int64 v) ∧
    (∀ (l : BoxedEvalueList Tensor) (w1 : World) (v : ArrayRef Tensor),
      BoxedEvalueList.get_Tensor w l = .ok (w1, v) →
      w1.values = w.values ∧
      (∀ a, some a ∈ l.wrapped_vals_ → (w1.values a).tag = (w.values a).tag ∧
        (w1.values a).payload = (w.values a).payload) ∧
      ∃ w2 v2, BoxedEvalueList.get_Tensor w1 l = .ok (w2, v2) ∧
        w2.read_Tensor v2 = w1.read_Tensor v) := by
  constructor
  · intro l w1 v h
    have hv := get_int64_t_values w w1 l v h
    refine ⟨hv, fun a _ => by rw [hv]; exact ⟨rfl, rfl⟩, ?_⟩
    have h1 : (BoxedEvalueList.get_int64_t w1 l).map (fun q => q.1.read_int64 q.2) =
        .ok (w1.read_int64 v) := by
      rw [get_int64_t_refines, hv, ← get_int64_t_refines, h]
      rfl
    obtain ⟨⟨w2, v2⟩, h2, h3⟩ := map_eq_ok _ _ _ h1
    exact ⟨w2, v2, h2, h3⟩
  · intro l w1 v h
    have hv := get_Tensor_values w w1 l v h
    refine ⟨hv, fun a _ => by rw [hv]; exact ⟨rfl, rfl⟩, ?_⟩
    have h1 : (BoxedEvalueList.get_Tensor w1 l).map (fun q => q.1.read_Tensor q.2) =
        .ok (w1.read_Tensor v) := by
      rw [get_Tensor_refines, hv, ← get_Tensor_refines, h]
      rfl
    obtain ⟨⟨w2, v2⟩, h2, h3⟩ := map_eq_ok _ _ _ h1
    exact ⟨w2, v2, h2, h3⟩

/-- C22 at a concrete input: the tensor list over the entries 3 and 4 of the
sample world, materialized twice. -/
theorem C22_materialization_leaves_table_witness :
    ∃ w1 v, BoxedEvalueList.get_Tensor World.sample (BoxedEvalueList.ctor [some 3, some 4] 9) =
        .ok (w1, v) ∧ w1.values = World.sample.values ∧
      ∃ w2 v2, BoxedEvalueList.get_Tensor w1 (BoxedEvalueList.ctor [some 3, some 4] 9) =
          .ok (w2, v2) ∧ w2.read_Tensor v2 = w1.read_Tensor v := by
  have hex : ∃ r, BoxedEvalueList.get_Tensor World.sample
      (BoxedEvalueList.ctor [some 3, some 4] 9) = .ok r := by
    cases h : BoxedEvalueList.get_Tensor World.sample
        (BoxedEvalueList.ctor [some 3, some 4] 9) with
    | ok r => exact ⟨r, rfl⟩
    | error f =>
      have h2 : (BoxedEvalueList.get_Tensor World.sample
          (BoxedEvalueList.ctor [some 3, some 4] 9)).toOption.isSome = true := by decide
      rw [h] at h2
      cases h2
  obtain ⟨⟨w1, v⟩, h1⟩ := hex
  obtain ⟨hv, _, hsecond⟩ := (C22_materialization_leaves_table World.sample).2 _ w1 v h1
  exact ⟨w1, v, h1, hv, hsecond⟩

/-- Without a null position, and with a conversion that fails with one fixed
check only, the specified materialization fails with that check only. -/
theorem materialized_error_kind {T : Type} (to_T : EValue → Result T) (values : Nat → EValue)
    (c : Check) :
    ∀ ps : List (Option Nat), (∀ p ∈ ps, p ≠ none) →
      (∀ a f, some a ∈ ps → to_T (values a) = .error f → f = Fault.check_failed c) →
      ∀ f, materialized to_T values ps = .error f → f = Fault.check_failed c := by
  intro ps
  induction ps with
  | nil =>
    intro _ _ f h
    cases h
  | cons p rest ih =>
    intro hnn hbad f h
    cases p with
    | none => exact absurd rfl (hnn none (List.mem_cons_self _ _))
    | some a =>
      simp only [materialized] at h
      cases hx : to_T (values a) with
      | error g =>
        rw [hx] at h
        have hg := hbad a g (List.mem_cons_self _ _) hx
        cases h
        exact hg
      | ok x =>
        rw [hx] at h
        cases hr : materialized to_T values rest with
        | error g =>
          rw [hr] at h
          have hg := ih (fun q hq => hnn q (List.mem_cons_of_mem _ hq))
            (fun b g2 hb => hbad b g2 (List.mem_cons_of_mem _ hb)) g hr
          cases h
          exact hg
        | ok xs =>
          rw [hr] at h
          cases h

/-- The helper destroy on a tensor list is the member get followed by the
teardown loop over the view get returned. -/
theorem destroy_tensor_list_eq (w : World) (l : BoxedEvalueList Tensor) :
    (EValue.ctor_tensor_list l).destroy w =
      (BoxedEvalueList.get_Tensor w l >>= fun r =>
        pure (EValue.destroy_Tensor_range r.2.data r.2.size 0 r.1)) := rfl

/-- When destroy of a tensor list completes and when it fails, for referenced
entries that obey the representation invariant. -/
theorem destroy_tensor_list_outcome (w : World) (l : BoxedEvalueList Tensor)
    (hinv : ∀ a, some a ∈ l.wrapped_vals_ → (w.values a).tag_identifies_payload) :
    ((∃ w1, (EValue.ctor_tensor_list l).destroy w = .ok w1) ↔
      ∀ p ∈ l.wrapped_vals_, ∃ a, p = some a ∧ (w.values a).tag = Tag.Tensor) ∧
    ((∀ p ∈ l.wrapped_vals_, p ≠ none) →
      (∃ a, some a ∈ l.wrapped_vals_ ∧ ¬ (w.values a).tag = Tag.Tensor) →
      (EValue.ctor_tensor_list l).destroy w = .error (Fault.check_failed Check.not_a_Tensor)) := by
  have hgood : ∀ a, some a ∈ l.wrapped_vals_ → (w.values a).tag = Tag.Tensor →
      ∃ x, EValue.to_Tensor (w.values a) = .ok x := by
    intro a ha ht
    obtain ⟨x, hx⟩ := payload_of_tag_Tensor _ ht (hinv a ha)
    exact ⟨x, by rw [hx]; rfl⟩
  have hbad : ∀ e : EValue, ¬ e.tag = Tag.Tensor →
      EValue.to_Tensor e = .error (Fault.check_failed Check.not_a_Tensor) :=
    fun e he => (accessors_with_check_fail_fast w e).2.2.2.2.2.1 he
  obtain ⟨hiff, _⟩ := materialized_failure EValue.to_Tensor w.values
    (fun e => e.tag = Tag.Tensor) Check.not_a_Tensor l.wrapped_vals_ hgood hbad
  have hres : ∀ f, (EValue.ctor_tensor_list l).destroy w = .error f ↔
      materialized EValue.to_Tensor w.values l.wrapped_vals_ = .error f := by
    intro f
    rw [destroy_tensor_list_eq, ← get_Tensor_refines]
    cases BoxedEvalueList.get_Tensor w l <;> simp [bind, Except.bind, Except.map, pure,
      Except.pure]
  constructor
  · constructor
    · rintro ⟨w1, h1⟩ p hp
      cases p with
      | none =>
        obtain ⟨f, hf⟩ := hiff.mpr (Or.inl hp)
        rw [(hres f).mpr hf] at h1
        cases h1
      | some a =>
        by_cases ht : (w.values a).tag = Tag.Tensor
        · exact ⟨a, rfl, ht⟩
        · obtain ⟨f, hf⟩ := hiff.mpr (Or.inr ⟨a, hp, ht⟩)
          rw [(hres f).mpr hf] at h1
          cases h1
    · intro hall
      cases hd : (EValue.ctor_tensor_list l).destroy w with
      | ok w1 => exact ⟨w1, rfl⟩
      | error f =>
        rcases hiff.mp ⟨f, (hres f).mp hd⟩ with hnone | ⟨a, ha, hnt⟩
        · obtain ⟨a, h1, _⟩ := hall none hnone
          cases h1
        · obtain ⟨a2, h1, h2⟩ := hall (some a) ha
          cases h1
          exact absurd h2 hnt
  · intro hnn hex
    obtain ⟨f, hf⟩ := hiff.mpr (Or.inr hex)
    have hk := materialized_error_kind EValue.to_Tensor w.values Check.not_a_Tensor
      l.wrapped_vals_ hnn (fun a g ha hg => by
        by_cases ht : (w.values a).tag = Tag.Tensor
        · obtain ⟨x, hx⟩ := hgood a ha ht
          rw [hx] at hg
          cases hg
        · rw [hbad _ ht] at hg
          cases hg
          rfl) f hf
    rw [(hres f).mpr hf, hk]

/-- C23. Destruction of a TensorList EValue re-reads the table. For a tensor
list whose referenced entries obey the representation invariant, destroy
completes exactly when, in the world it runs in, every position is non-null
and refers to an entry tagged Tensor; the same holds for the move assignment
of a distinct source, and for the copy assignment of any source, onto an
object that holds the list. When no position is null and some referenced
entry is no longer tagged Tensor (overwritten with another kind, or moved
from and left None), destroy stops in the fatal tensor check. -/
theorem C23_destroy_tensor_list_rereads_table (w : World) (l : BoxedEvalueList Tensor)
    (hinv : ∀ a, some a ∈ l.wrapped_vals_ → (w.values a).tag_identifies_payload) :
    ((∃ w1, (EValue.ctor_tensor_list l).destroy w = .ok w1) ↔
      ∀ p ∈ l.wrapped_vals_, ∃ a, p = some a ∧ (w.values a).tag = Tag.Tensor) ∧
    (∀ a b : Nat, a ≠ b → w.values b = EValue.ctor_tensor_list l →
      (w.values a).tag_identifies_payload →
      ((∃ w1, EValue.operator_assign_move w b a = .ok w1) ↔
        ∀ p ∈ l.wrapped_vals_, ∃ c, p = some c ∧ (w.values c).tag = Tag.Tensor)) ∧
    (∀ a b : Nat, w.values b = EValue.ctor_tensor_list l →
      (w.values a).tag_identifies_payload →
      ((∃ w1, EValue.operator_assign_copy w b a = .ok w1) ↔
        ∀ p ∈ l.wrapped_vals_, ∃ c, p = some c ∧ (w.values c).tag = Tag.Tensor)) ∧
    ((∀ p ∈ l.wrapped_vals_, p ≠ none) →
      (∃ a, some a ∈ l.wrapped_vals_ ∧ ¬ (w.values a).tag = Tag.Tensor) →
      (EValue.ctor_tensor_list l).destroy w =
        .error (Fault.check_failed Check.not_a_Tensor)) := by
  obtain ⟨hiff, hfail⟩ := destroy_tensor_list_outcome w l hinv
  refine ⟨hiff, ?_, ?_, hfail⟩
  · intro a b hab hb ha
    rw [← hiff]
    constructor
    · rintro ⟨w1, h1⟩
      unfold EValue.operator_assign_move at h1
      simp only [hab, if_false, hb] at h1
      cases hd : (EValue.ctor_tensor_list l).destroy w with
      | ok w0 => exact ⟨w0, rfl⟩
      | error f =>
        rw [hd] at h1
        cases h1
    · rintro ⟨w0, h0⟩
      have hv0 := destroy_values w w0 _ h0
      have ha0 : (w0.values a).tag_identifies_payload := by rw [hv0]; exact ha
      obtain ⟨w2, h2, _⟩ := moveFrom_spec w0 (w0.values a) ha0
      refine ⟨{ w2 with values := upd (upd w2.values b (w0.values a)) a EValue.ctor_None }, ?_⟩
      simp only [EValue.operator_assign_move, hab, if_false, hb, h0, bind, Except.bind, h2]
      rfl
  · intro a b hb ha
    obtain ⟨wc, hc, hvc, _⟩ := ctor_copy_spec w (w.values a) ha
    have hinvc : ∀ c, some c ∈ l.wrapped_vals_ → (wc.values c).tag_identifies_payload := by
      intro c hcm
      rw [hvc]
      exact hinv c hcm
    obtain ⟨hiffc, _⟩ := destroy_tensor_list_outcome wc l hinvc
    rw [hvc] at hiffc
    rw [← hiffc]
    constructor
    · rintro ⟨w1, h1⟩
      unfold EValue.operator_assign_copy at h1
      simp only [hc, bind, Except.bind, hvc, hb] at h1
      cases hd : (EValue.ctor_tensor_list l).destroy wc with
      | ok w0 => exact ⟨w0, rfl⟩
      | error f =>
        rw [hd] at h1
        cases h1
    · rintro ⟨w0, h0⟩
      obtain ⟨w2, h2, _⟩ := moveFrom_spec w0 (w.values a) ha
      refine ⟨{ w2 with values := upd w2.values b (w.values a) }, ?_⟩
      simp only [EValue.operator_assign_copy, hc, bind, Except.bind, hvc, hb, h0, h2]
      exact destroy_trivial _ EValue.ctor_None (by simp [EValue.ctor_None])

/-- C23 at concrete inputs: in the sample world the tensor list of object 5,
over the tensor entries 3 and 4, and the tensor list of object 6, whose
position refers to the Int entry 1. -/
theorem C23_destroy_tensor_list_rereads_table_witness :
    (∃ w1, (EValue.ctor_tensor_list (BoxedEvalueList.ctor [some 3, some 4] 9)).destroy
      World.sample = .ok w1) ∧
    (EValue.ctor_tensor_list (BoxedEvalueList.ctor [some 1] 11)).destroy World.sample =
      .error (Fault.check_failed Check.not_a_Tensor) ∧
    ¬ ∃ w1, EValue.operator_assign_move World.sample 6 0 = .ok w1 := by
  have hinv1 : ∀ a, some a ∈
      (BoxedEvalueList.ctor [some 3, some 4] 9 : BoxedEvalueList Tensor).wrapped_vals_ →
      (World.sample.values a).tag_identifies_payload := by
    intro a ha
    simp only [BoxedEvalueList.ctor, List.mem_cons, Option.some.injEq, List.mem_singleton,
      List.not_mem_nil, or_false] at ha
    rcases ha with rfl | rfl <;> decide
  have hinv2 : ∀ a, some a ∈
      (BoxedEvalueList.ctor [some 1] 11 : BoxedEvalueList Tensor).wrapped_vals_ →
      (World.sample.values a).tag_identifies_payload := by
    intro a ha
    simp only [BoxedEvalueList.ctor, List.mem_cons, Option.some.injEq, List.mem_singleton,
      List.not_mem_nil, or_false] at ha
    subst ha
    decide
  refine ⟨?_, ?_, ?_⟩
  · apply (C23_destroy_tensor_list_rereads_table World.sample _ hinv1).1.mpr
    intro p hp
    simp only [BoxedEvalueList.ctor, List.mem_cons, List.mem_singleton, List.not_mem_nil,
      or_false] at hp
    rcases hp with rfl | rfl
    · exact ⟨3, rfl, rfl⟩
    · exact ⟨4, rfl, rfl⟩
  · apply (C23_destroy_tensor_list_rereads_table World.sample _ hinv2).2.2.2
    · intro p hp
      simp only [BoxedEvalueList.ctor, List.mem_singleton] at hp
      subst hp
      simp
    · exact ⟨1, by simp [BoxedEvalueList.ctor], by decide⟩
  · intro hex
    have h := ((C23_destroy_tensor_list_rereads_table World.sample _ hinv2).2.1 0 6
      (by decide) rfl (by decide)).mp hex (some 1) (by simp [BoxedEvalueList.ctor])
    obtain ⟨c, hc, ht⟩ := h
    cases hc
    revert ht
    decide

end runtime
end executorch

/-! ## Properties of the Vulkan Runtime -/

namespace vkcompute
namespace vkapi

/-- The loop of select_first returns the offset of the first device with a
compute queue, added to its start index, and runs to its end exactly when no
device has one. -/
theorem select_first_loop_spec :
    ∀ (devices : List DeviceMapping) (i : Nat),
      (∀ (k : Nat) (d : DeviceMapping), devices[k]? = some d → 0 < d.1.num_compute_queues →
        (∀ (j : Nat) (e : DeviceMapping), j < k → devices[j]? = some e →
          e.1.num_compute_queues = 0) →
        select_first_loop devices i = some (i + k)) ∧
      ((∀ d ∈ devices, d.1.num_compute_queues = 0) → select_first_loop devices i = none) := by
  intro devices
  induction devices with
  | nil =>
    intro i
    exact ⟨fun k d h => by simp at h, fun _ => rfl⟩
  | cons x rest ih =>
    intro i
    obtain ⟨ih1, ih2⟩ := ih (i + 1)
    constructor
    · intro k d hk hq hleast
      cases k with
      | zero =>
        simp only [List.getElem?_cons_zero, Option.some.injEq] at hk
        subst hk
        simp [select_first_loop, hq]
      | succ k =>
        have hx : x.1.num_compute_queues = 0 := hleast 0 x (Nat.succ_pos k) (by simp)
        simp only [List.getElem?_cons_succ] at hk
        have h2 := ih1 k d hk hq (fun j e hj he => hleast (j + 1) e (by omega) (by simpa using he))
        simp only [select_first_loop, hx, gt_iff_lt, lt_self_iff_false, if_false, h2]
        congr 1
        omega
    · intro hall
      have hx : x.1.num_compute_queues = 0 := hall x (List.mem_cons_self _ _)
      simp only [select_first_loop, hx, gt_iff_lt, lt_self_iff_false, if_false]
      exact ih2 (fun d hd => hall d (List.mem_cons_of_mem _ hd))

/-- In a list where some device has a compute queue there is a first such device. -/
theorem exists_first_compute_device :
    ∀ devices : List DeviceMapping, (∃ d ∈ devices, 0 < d.1.num_compute_queues) →
      ∃ (k : Nat) (d : DeviceMapping), devices[k]? = some d ∧ 0 < d.1.num_compute_queues ∧
        ∀ (j : Nat) (e : DeviceMapping), j < k → devices[j]? = some e →
          e.1.num_compute_queues = 0 := by
  intro devices
  induction devices with
  | nil =>
    rintro ⟨d, hd, _⟩
    cases hd
  | cons x rest ih =>
    rintro ⟨d, hd, hq⟩
    by_cases hx : 0 < x.1.num_compute_queues
    · exact ⟨0, x, by simp, hx, fun j e hj => absurd hj (Nat.not_lt_zero j)⟩
    · have hx0 : x.1.num_compute_queues = 0 := by omega
      have hd2 : d ∈ rest := by
        rcases List.mem_cons.mp hd with rfl | h
        · exact absurd hq hx
        · exact h
      obtain ⟨k, d2, hk, hq2, hleast⟩ := ih ⟨d, hd2, hq⟩
      refine ⟨k + 1, d2, by simpa using hk, hq2, ?_⟩
      intro j e hj he
      cases j with
      | zero =>
        simp only [List.getElem?_cons_zero, Option.some.injEq] at he
        rw [← he]
        exact hx0
      | succ j =>
        exact hleast j e (by omega) (by simpa using he)

/-- The selector select_first on every device list whose size plus one fits in
the uint32_t result: if some device has a compute queue, the result is the
least index of such a device, which is below the size; if the list is empty or
no device has a compute queue, the result is the size plus one, which is out of
range. -/
theorem select_first_within_uint32_range (devices : List DeviceMapping)
    (hfit : devices.length + 1 < 4294967296) :
    ((∃ d ∈ devices, 0 < d.1.num_compute_queues) →
      ∃ d : DeviceMapping, devices[select_first devices]? = some d ∧
        0 < d.1.num_compute_queues ∧ select_first devices < devices.length ∧
        ∀ (j : Nat) (e : DeviceMapping), j < select_first devices → devices[j]? = some e →
          e.1.num_compute_queues = 0) ∧
    ((∀ d ∈ devices, d.1.num_compute_queues = 0) →
      select_first devices = devices.length + 1 ∧ ¬ select_first devices < devices.length) ∧
    (devices = [] → select_first devices = devices.length + 1) := by
  have hnone : (∀ d ∈ devices, d.1.num_compute_queues = 0) →
      select_first devices = devices.length + 1 := by
    intro hall
    have hloop := (select_first_loop_spec devices 0).2 hall
    unfold select_first
    rw [hloop]
    split <;> exact Nat.mod_eq_of_lt hfit
  refine ⟨?_, ?_, ?_⟩
  · intro hex
    obtain ⟨k, d, hk, hq, hleast⟩ := exists_first_compute_device devices hex
    have hloop := (select_first_loop_spec devices 0).1 k d hk hq hleast
    have hklt : k < devices.length := by
      by_contra hge
      rw [List.getElem?_eq_none (by omega)] at hk
      cases hk
    have hne : devices.isEmpty = false := by
      cases devices with
      | nil => simp at hklt
      | cons x rest => rfl
    have hsel : select_first devices = k := by
      unfold select_first
      rw [hne, hloop]
      simp only [Bool.false_eq_true, if_false, Nat.zero_add]
      exact Nat.mod_eq_of_lt (by omega)
    rw [hsel]
    exact ⟨d, hk, hq, hklt, hleast⟩
  · intro hall
    have h := hnone hall
    exact ⟨h, by rw [h]; omega⟩
  · intro he
    apply hnone
    intro d hd
    rw [he] at hd
    cases hd

/-- The selector select_first at concrete inputs: three devices of which the
second is the first with a compute queue, and two devices without any. -/
theorem select_first_within_uint32_range_examples :
    select_first [(({ handle := 10, num_compute_queues := 0 }, -1) : DeviceMapping),
      ({ handle := 11, num_compute_queues := 1 }, -1),
      ({ handle := 12, num_compute_queues := 2 }, -1)] = 1 ∧
    select_first [(({ handle := 10, num_compute_queues := 0 }, -1) : DeviceMapping),
      ({ handle := 11, num_compute_queues := 0 }, -1)] = 3 := by
  constructor
  · obtain ⟨d, hd, hq, hlt, hleast⟩ := (select_first_within_uint32_range
      [(({ handle := 10, num_compute_queues := 0 }, -1) : DeviceMapping),
        ({ handle := 11, num_compute_queues := 1 }, -1),
        ({ handle := 12, num_compute_queues := 2 }, -1)] (by decide)).1
      ⟨({ handle := 11, num_compute_queues := 1 }, -1), by simp, by decide⟩
    rfl
  · exact ((select_first_within_uint32_range
      [(({ handle := 10, num_compute_queues := 0 }, -1) : DeviceMapping),
        ({ handle := 11, num_compute_queues := 0 }, -1)] (by decide)).2.1 (by
        intro d hd
        simp only [List.mem_cons, List.mem_singleton, List.not_mem_nil, or_false] at hd
        rcases hd with rfl | rfl <;> rfl)).1

/-- What a completed create_adapter call did: the selected index is in range,
and either the selected device held an adapter index, which is returned with
the Runtime as it was, or it held none and one adapter was appended and its
index recorded for the selected device. -/
theorem create_adapter_ok {Adapter : Type} (ext : External Adapter) (rt : Runtime Adapter)
    (selector : Selector) (r : Nat × Runtime Adapter)
    (h : rt.create_adapter ext selector = .ok r) :
    ∃ m : DeviceMapping, rt.device_mappings_[selector rt.device_mappings_]? = some m ∧
      ((0 ≤ m.2 ∧ r = (to_uint32 m.2, rt)) ∨
       (m.2 < 0 ∧ ∃ (v : Int) (adapter : Adapter),
          ext.safe_downcast rt.adapters_.length = .ok v ∧
          ext.new_Adapter rt.instance_ m.1 rt.config_.num_requested_queues
            rt.config_.cache_data_path = .ok adapter ∧
          r = (to_uint32 v,
            { rt with
              adapters_ := rt.adapters_ ++ [adapter]
              device_mappings_ :=
                rt.device_mappings_.set (selector rt.device_mappings_) (m.1, v) }))) := by
  unfold Runtime.create_adapter at h
  by_cases he : rt.device_mappings_.isEmpty = true
  · simp only [he, if_true] at h
    cases h
  · simp only [he, Bool.false_eq_true, if_false] at h
    by_cases hlt : selector rt.device_mappings_ < rt.device_mappings_.length
    · simp only [hlt, dite_true] at h
      refine ⟨rt.device_mappings_[selector rt.device_mappings_], by simp [hlt], ?_⟩
      by_cases hge : rt.device_mappings_[selector rt.device_mappings_].2 ≥ 0
      · simp only [hge, if_true, pure, Except.pure, Except.ok.injEq] at h
        exact Or.inl ⟨hge, h.symm⟩
      · simp only [hge, if_false] at h
        refine Or.inr ⟨by omega, ?_⟩
        cases hd : ext.safe_downcast rt.adapters_.length with
        | error f => simp [hd, bind, Except.bind] at h
        | ok v =>
          cases ha : ext.new_Adapter rt.instance_ rt.device_mappings_[selector rt.device_mappings_].1
              rt.config_.num_requested_queues rt.config_.cache_data_path with
          | error f => simp [hd, ha, bind, Except.bind] at h
          | ok adapter =>
            simp only [hd, ha, bind, Except.bind, pure, Except.pure, Except.ok.injEq] at h
            exact ⟨v, adapter, rfl, rfl, h.symm⟩
    · simp only [hlt, dite_false] at h
      cases h

/-- A completed create_adapter call keeps the adapters and the device
mappings fitting together, provided a successful downcast returns the size it
was given. -/
theorem create_adapter_keeps_match {Adapter : Type} (ext : External Adapter)
    (hdc : ∀ n v, ext.safe_downcast n = .ok v → v = (n : Int))
    (rt : Runtime Adapter) (selector : Selector) (r : Nat × Runtime Adapter)
    (h : rt.create_adapter ext selector = .ok r) (hI : rt.adapters_match_devices) :
    r.2.adapters_match_devices ∧ r.2.device_mappings_.length = rt.device_mappings_.length := by
  obtain ⟨m, hm, hcase⟩ := create_adapter_ok ext rt selector r h
  rcases hcase with ⟨_, hr⟩ | ⟨hneg, v, adapter, hd, _, hr⟩
  · rw [hr]
    exact ⟨hI, rfl⟩
  · have hv := hdc _ _ hd
    subst hv
    rw [hr]
    obtain ⟨hcount, hvalid, hdist⟩ := hI
    have hklt : selector rt.device_mappings_ < rt.device_mappings_.length := by
      by_contra hge
      rw [List.getElem?_eq_none (by omega)] at hm
      cases hm
    have hmk : rt.device_mappings_[selector rt.device_mappings_] = m := by
      have h2 := List.getElem?_eq_getElem hklt
      rw [hm] at h2
      exact (Option.some.inj h2).symm
    refine ⟨⟨?_, ?_, ?_⟩, by simp⟩
    · simp only [List.length_append, List.length_singleton]
      rw [List.countP_set _ _ _ _ hklt, hmk, hcount]
      have h1 : decide (0 ≤ m.2) = false := by simpa using hneg
      have h2 : decide ((0 : Int) ≤ (rt.adapters_.length : Int)) = true := by simp
      simp [h1, h2]
    · intro i mi hi hnn
      simp only [List.length_append, List.length_singleton]
      rw [List.getElem?_set] at hi
      by_cases hki : selector rt.device_mappings_ = i
      · simp only [hki, if_true] at hi
        split at hi
        · cases hi
          simp
        · cases hi
      · simp only [hki, if_false] at hi
        have := hvalid i mi hi hnn
        push_cast
        omega
    · intro i j mi mj hij hi hj hni hnj
      rw [List.getElem?_set] at hi hj
      by_cases hki : selector rt.device_mappings_ = i
      · have hkj : ¬ selector rt.device_mappings_ = j := fun e => hij (hki.symm.trans e)
        simp only [hki, if_true] at hi
        simp only [hkj, if_false] at hj
        split at hi
        · cases hi
          have := hvalid j mj hj hnj
          simp only
          omega
        · cases hi
      · simp only [hki, if_false] at hi
        by_cases hkj : selector rt.device_mappings_ = j
        · simp only [hkj, if_true] at hj
          split at hj
          · cases hj
            have := hvalid i mi hi hni
            simp only
            omega
          · cases hj
        · simp only [hkj, if_false] at hj
          exact hdist i j mi mj hij hi hj hni hnj

/-- A Runtime without adapters whose devices all hold the index -1 has its
adapters and device mappings fitting together. -/
theorem initial_match {Adapter : Type} (rt : Runtime Adapter) (h0 : rt.adapters_ = [])
    (h1 : ∀ m ∈ rt.device_mappings_, m.2 = -1) : rt.adapters_match_devices := by
  refine ⟨?_, ?_, ?_⟩
  · rw [h0, List.length_nil, List.countP_eq_zero]
    intro m hm
    rw [h1 m hm]
    decide
  · intro i m hi hnn
    rw [h1 m (List.getElem?_mem hi)] at hnn
    omega
  · intro i j mi mj _ hi _ hni
    rw [h1 mi (List.getElem?_mem hi)] at hni
    omega

/-- A sequence of create_adapter calls keeps the adapters and the device
mappings fitting together. -/
theorem create_adapters_keep_match {Adapter : Type} (ext : External Adapter)
    (hdc : ∀ n v, ext.safe_downcast n = .ok v → v = (n : Int)) :
    ∀ (selectors : List Selector) (rt : Runtime Adapter), rt.adapters_match_devices →
      (rt.create_adapters ext selectors).adapters_match_devices := by
  intro selectors
  induction selectors with
  | nil => intro rt h; exact h
  | cons selector rest ih =>
    intro rt h
    simp only [Runtime.create_adapters, List.foldl_cons]
    cases hc : rt.create_adapter ext selector with
    | error f => exact ih rt h
    | ok r => exact ih r.2 (create_adapter_keeps_match ext hdc rt selector r hc h).1

/-- The three properties read off from the fit of adapters and device mappings. -/
theorem match_gives {Adapter : Type} (rt : Runtime Adapter) (h : rt.adapters_match_devices) :
    rt.adapters_.length ≤ rt.device_mappings_.length ∧
    (∀ (i : Nat) (m : DeviceMapping), rt.device_mappings_[i]? = some m → 0 ≤ m.2 →
      m.2 < rt.adapters_.length) ∧
    (∀ (i j : Nat) (mi mj : DeviceMapping), i ≠ j → rt.device_mappings_[i]? = some mi →
      rt.device_mappings_[j]? = some mj → 0 ≤ mi.2 → 0 ≤ mj.2 → mi.2 ≠ mj.2) := by
  obtain ⟨hcount, hvalid, hdist⟩ := h
  refine ⟨?_, hvalid, hdist⟩
  rw [← hcount]
  exact List.countP_le_length _

/-- C25. The list of adapters never exceeds the number of physical devices,
provided a successful safe_downcast returns the size it was given. Starting
from a Runtime with no adapters whose device mappings all hold the adapter
index -1, and also starting from the Runtime its constructor builds, after
any sequence of create_adapter calls with any selectors (a call that throws
leaving the Runtime as it was): there are at most as many adapters as device
mappings, every non-negative adapter index held by a device mapping is below
the number of adapters, and distinct devices hold distinct non-negative
adapter indices. -/
theorem C25_adapters_never_exceed_devices {Adapter : Type} (ext : External Adapter)
    (hdc : ∀ n v, ext.safe_downcast n = .ok v → v = (n : Int)) (selectors : List Selector) :
    (∀ rt0 : Runtime Adapter, rt0.adapters_ = [] → (∀ m ∈ rt0.device_mappings_, m.2 = -1) →
      (rt0.create_adapters ext selectors).adapters_.length ≤
        (rt0.create_adapters ext selectors).device_mappings_.length ∧
      (∀ (i : Nat) (m : DeviceMapping),
        (rt0.create_adapters ext selectors).device_mappings_[i]? = some m → 0 ≤ m.2 →
        m.2 < (rt0.create_adapters ext selectors).adapters_.length) ∧
      (∀ (i j : Nat) (mi mj : DeviceMapping), i ≠ j →
        (rt0.create_adapters ext selectors).device_mappings_[i]? = some mi →
        (rt0.create_adapters ext selectors).device_mappings_[j]? = some mj →
        0 ≤ mi.2 → 0 ≤ mj.2 → mi.2 ≠ mj.2)) ∧
    (∀ (config : RuntimeConfig) (instance_ : Nat) (devices : List PhysicalDevice),
      ((Runtime.ctor ext config instance_ devices).create_adapters ext selectors).adapters_.length
        ≤ ((Runtime.ctor ext config instance_ devices).create_adapters ext
            selectors).device_mappings_.length ∧
      (∀ (i : Nat) (m : DeviceMapping),
        ((Runtime.ctor ext config instance_ devices).create_adapters ext
          selectors).device_mappings_[i]? = some m → 0 ≤ m.2 →
        m.2 < ((Runtime.ctor ext config instance_ devices).create_adapters ext
          selectors).adapters_.length) ∧
      (∀ (i j : Nat) (mi mj : DeviceMapping), i ≠ j →
        ((Runtime.ctor ext config instance_ devices).create_adapters ext
          selectors).device_mappings_[i]? = some mi →
        ((Runtime.ctor ext config instance_ devices).create_adapters ext
          selectors).device_mappings_[j]? = some mj →
        0 ≤ mi.2 → 0 ≤ mj.2 → mi.2 ≠ mj.2)) := by
  constructor
  · intro rt0 h0 h1
    exact match_gives _ (create_adapters_keep_match ext hdc selectors rt0
      (initial_match rt0 h0 h1))
  · intro config instance_ devices
    apply match_gives
    apply create_adapters_keep_match ext hdc
    have hinit : (Runtime.mk config instance_ (devices.map (fun d => (d, -1)))
        ([] : List Adapter) UINT32_MAX).adapters_match_devices := by
      apply initial_match _ rfl
      intro m hm
      simp only [List.mem_map] at hm
      obtain ⟨d, _, hd⟩ := hm
      rw [← hd]
    unfold Runtime.ctor
    by_cases hdef : config.init_default_device = true
    · simp only [hdef, if_true]
      cases config.default_selector
      split
      · rename_i r hr
        exact (create_adapter_keeps_match ext hdc _ select_first r hr hinit).1
      · exact hinit
    · simp only [hdef, Bool.false_eq_true, if_false]
      exact hinit

/-- C25 at a concrete input: the Runtime constructed over the three sample
devices, then asked for the adapter of device 2, for the first device with a
compute queue, and for a device that does not exist. -/
theorem C25_adapters_never_exceed_devices_witness :
    (∀ n v, External.sample.safe_downcast n = .ok v → v = (n : Int)) ∧
    ((Runtime.ctor External.sample RuntimeConfig.sample 1 PhysicalDevice.samples).create_adapters
      External.sample [fun _ => 2, select_first, fun _ => 7]).adapters_.length ≤
    ((Runtime.ctor External.sample RuntimeConfig.sample 1 PhysicalDevice.samples).create_adapters
      External.sample [fun _ => 2, select_first, fun _ => 7]).device_mappings_.length ∧
    ((Runtime.ctor External.sample RuntimeConfig.sample 1 PhysicalDevice.samples).create_adapters
      External.sample [fun _ => 2, select_first, fun _ => 7]).adapters_.length = 2 := by
  have hdc : ∀ n v, External.sample.safe_downcast n = .ok v → v = (n : Int) := by
    intro n v h
    simp only [External.sample] at h
    by_cases hn : n < 2147483648
    · simp only [hn, if_true, Except.ok.injEq] at h
      exact h.symm
    · simp only [hn, if_false] at h
      cases h
  exact ⟨hdc, ((C25_adapters_never_exceed_devices External.sample hdc
    [fun _ => 2, select_first, fun _ => 7]).2 RuntimeConfig.sample 1 PhysicalDevice.samples).1,
    by decide⟩

theorem to_uint32_of_nat (n : Nat) (h : n < 4294967296) : to_uint32 (n : Int) = n := by
  unfold to_uint32
  omega

/-- C26. The member create_adapter returns an existing adapter instead of
creating a second one. It fails when there are no device mappings, and when
the index the selector returns is not below their number. Otherwise, when the
selected device already holds an adapter index, that index is returned and the
Runtime is unchanged; when it holds none, and the downcast of the number of
adapters and the construction of the adapter (code that is not among the
sources) succeed, exactly one adapter is appended, the previous number of
adapters is recorded for the selected device and returned, no other device
mapping changes, and a further call with any selector that chooses the same
device returns the same index and leaves the Runtime as it is. -/
theorem C26_create_adapter_reuses_adapter {Adapter : Type} (ext : External Adapter)
    (rt : Runtime Adapter) (selector : Selector) :
    (rt.device_mappings_ = [] → rt.create_adapter ext selector = .error Error.no_devices) ∧
    (rt.device_mappings_ ≠ [] → rt.device_mappings_.length ≤ selector rt.device_mappings_ →
      rt.create_adapter ext selector = .error Error.no_suitable_device) ∧
    (∀ (d : PhysicalDevice) (idx : Int),
      rt.device_mappings_[selector rt.device_mappings_]? = some (d, idx) →
      (0 ≤ idx → rt.create_adapter ext selector = .ok (to_uint32 idx, rt)) ∧
      (idx < 0 → ∀ adapter : Adapter,
        ext.safe_downcast rt.adapters_.length = .ok (rt.adapters_.length : Int) →
        ext.new_Adapter rt.instance_ d rt.config_.num_requested_queues
          rt.config_.cache_data_path = .ok adapter →
        ∃ rt1, rt.create_adapter ext selector = .ok (rt.adapters_.length, rt1) ∧
          rt1.adapters_ = rt.adapters_ ++ [adapter] ∧
          rt1.device_mappings_ = rt.device_mappings_.set (selector rt.device_mappings_)
            (d, (rt.adapters_.length : Int)) ∧
          (∀ selector2 : Selector,
            selector2 rt1.device_mappings_ = selector rt.device_mappings_ →
            rt1.create_adapter ext selector2 = .ok (rt.adapters_.length, rt1)))) := by
  refine ⟨?_, ?_, ?_⟩
  · intro h
    simp [Runtime.create_adapter, h]
    rfl
  · intro hne hge
    have he : rt.device_mappings_.isEmpty = false := by
      cases hl : rt.device_mappings_ with
      | nil => exact absurd hl hne
      | cons x rest => rfl
    have hlt : ¬ selector rt.device_mappings_ < rt.device_mappings_.length := by omega
    simp only [Runtime.create_adapter, he, Bool.false_eq_true, if_false, hlt, dite_false]
    rfl
  · intro d idx hm
    have hklt : selector rt.device_mappings_ < rt.device_mappings_.length := by
      by_contra hge
      rw [List.getElem?_eq_none (by omega)] at hm
      cases hm
    have hmk : rt.device_mappings_[selector rt.device_mappings_] = (d, idx) := by
      have h2 := List.getElem?_eq_getElem hklt
      rw [hm] at h2
      exact (Option.some.inj h2).symm
    have he : rt.device_mappings_.isEmpty = false := by
      cases hl : rt.device_mappings_ with
      | nil => simp [hl] at hklt
      | cons x rest => rfl
    constructor
    · intro hge
      simp only [Runtime.create_adapter, he, Bool.false_eq_true, if_false, hklt, dite_true, hmk,
        ge_iff_le, hge, if_true]
      rfl
    · intro hneg adapter hd ha
      have hnge : ¬ idx ≥ 0 := by omega
      have hfit : rt.adapters_.length < 4294967296 := by
        have := (ext.safe_downcast_int32 _ _ hd).2
        omega
      have hrun : rt.create_adapter ext selector = .ok (rt.adapters_.length,
          { rt with
            adapters_ := rt.adapters_ ++ [adapter]
            device_mappings_ := rt.device_mappings_.set (selector rt.device_mappings_)
              (d, (rt.adapters_.length : Int)) }) := by
        simp only [Runtime.create_adapter, he, Bool.false_eq_true, if_false, hklt, dite_true,
          hmk, hnge, hd, ha, bind, Except.bind, pure, Except.pure,
          to_uint32_of_nat _ hfit]
      refine ⟨_, hrun, rfl, rfl, ?_⟩
      intro selector2 hs2
      have hklt2 : selector rt.device_mappings_ <
          (rt.device_mappings_.set (selector rt.device_mappings_)
            (d, (rt.adapters_.length : Int))).length := by
        rw [List.length_set]
        exact hklt
      have he2 : (rt.device_mappings_.set (selector rt.device_mappings_)
          (d, (rt.adapters_.length : Int))).isEmpty = false := by
        cases hl : rt.device_mappings_.set (selector rt.device_mappings_)
            (d, (rt.adapters_.length : Int)) with
        | nil => simp [hl] at hklt2
        | cons x rest => rfl
      have hge2 : (rt.adapters_.length : Int) ≥ 0 := by omega
      simp only [Runtime.create_adapter, hs2, he2, Bool.false_eq_true, if_false, hklt2,
        dite_true, List.getElem_set_self, hge2, if_true, to_uint32_of_nat _ hfit]
      rfl

/-- C26 at a concrete input: the Runtime over the three sample devices without
a default adapter; the adapter of device 2 is created, then asked for again. -/
theorem C26_create_adapter_reuses_adapter_witness :
    ∃ rt1, (Runtime.ctor External.sample
        { RuntimeConfig.sample with init_default_device := false } 1
        PhysicalDevice.samples).create_adapter External.sample (fun _ => 2) = .ok (0, rt1) ∧
      rt1.adapters_ = [(1, { handle := 12, num_compute_queues := 2 })] ∧
      rt1.create_adapter External.sample (fun _ => 2) = .ok (0, rt1) := by
  obtain ⟨rt1, h1, h2, _, h4⟩ :=
    ((C26_create_adapter_reuses_adapter External.sample (Runtime.ctor External.sample
      { RuntimeConfig.sample with init_default_device := false } 1 PhysicalDevice.samples)
      (fun _ => 2)).2.2 { handle := 12, num_compute_queues := 2 } (-1) rfl).2 (by decide)
      (1, { handle := 12, num_compute_queues := 2 }) rfl rfl
  exact ⟨rt1, h1, h2, h4 (fun _ => 2) rfl⟩

end vkapi
end vkcompute
